import Mathlib

/-!
Verification of the money-chess game engine.

The definitions below are shallow embeddings of the TypeScript source of the
repository (the engine component duplicated across `src/unnamed/part_002`,
`src/components/money-chess-game.tsx` and `src/app/page.tsx`).  Boards are
total functions from a pair of natural-number coordinates to an optional
piece; the source only ever indexes its 8x8 arrays after an explicit bounds
check, which the embeddings reproduce.  Coordinate arithmetic that may go
negative is done in `Int`, exactly where the source works with possibly
out-of-range candidate squares.
-/

namespace MoneyChess

/-- Piece kinds, from the `PieceType` enum of the source. -/
inductive PieceType where
  | PAWN
  | KNIGHT
  | BISHOP
  | ROOK
  | QUEEN
  | KING
deriving DecidableEq, Repr

open PieceType

/-- A piece: kind plus side, from the `ChessPiece` interface. -/
structure ChessPiece where
  type : PieceType
  isWhite : Bool
deriving DecidableEq, Repr

/-- Point costs, from the `PIECE_COSTS` table. -/
def PIECE_COSTS : PieceType → Nat
  | PAWN => 1
  | KNIGHT => 3
  | BISHOP => 3
  | ROOK => 5
  | QUEEN => 9
  | KING => 0

/-- The 8x8 board, `(ChessPiece | null)[][]` in the source.  Indexed row then
column; the source only reads indices in `[0,7]`. -/
abbrev Board := Nat → Nat → Option ChessPiece

/-- A boolean visibility grid, `boolean[][]` in the source. -/
abbrev Grid := Nat → Nat → Bool

/-- Writing one square of the board (`newBoard[r][c] = v`). -/
def setSq (b : Board) (r c : Nat) (v : Option ChessPiece) : Board :=
  fun r' c' => if r' = r ∧ c' = c then v else b r' c'

/-- The all-empty board. -/
def emptyBoard : Board := fun _ _ => none

@[simp] theorem setSq_same (b : Board) (r c : Nat) (v : Option ChessPiece) :
    setSq b r c v r c = v := by
  simp [setSq]

theorem setSq_other (b : Board) (r c : Nat) (v : Option ChessPiece)
    (r' c' : Nat) (h : ¬(r' = r ∧ c' = c)) : setSq b r c v r' c' = b r' c' := by
  simp [setSq, h]

/-- All 64 square coordinates, in the row-major order of the source's
`for (row) for (col)` loops. -/
def squaresList : List (Nat × Nat) :=
  (List.range 8).flatMap (fun r => (List.range 8).map (fun c => (r, c)))

theorem mem_squaresList {q : Nat × Nat} :
    q ∈ squaresList ↔ q.1 < 8 ∧ q.2 < 8 := by
  obtain ⟨r, c⟩ := q
  constructor
  · intro h
    simp only [squaresList, List.mem_flatMap, List.mem_map, List.mem_range] at h
    obtain ⟨a, ha, b, hb, heq⟩ := h
    cases heq
    exact ⟨ha, hb⟩
  · rintro ⟨h1, h2⟩
    simp only [squaresList, List.mem_flatMap, List.mem_map, List.mem_range]
    exact ⟨r, h1, ⟨c, h2, rfl⟩⟩

/-! ## Fog visibility calculator

Embeds `calculateVisibleSquares` (part_002 lines 143-177, identical in
money-chess-game.tsx lines 570-604): if fog of war is disabled the grid is
all-true; otherwise every square of the grid starts false and, for each of
the player's pieces, the piece's square and the 8 adjacent squares that are
on the board are marked true. -/

/-- The 9 offsets of the source's `for dr in -1..1, for dc in -1..1` loops,
in loop order. -/
def adjOffsets : List (Int × Int) :=
  [(-1, -1), (-1, 0), (-1, 1), (0, -1), (0, 0), (0, 1), (1, -1), (1, 0), (1, 1)]

/-- Mark a single candidate square (`visible[newRow][newCol] = true`) after
the source's bounds check. -/
def markSq (g : Grid) (nr nc : Int) : Grid :=
  if 0 ≤ nr ∧ nr < 8 ∧ 0 ≤ nc ∧ nc < 8 then
    fun r c => if (r : Int) = nr ∧ (c : Int) = nc then true else g r c
  else g

/-- Mark the 3x3 neighbourhood of a piece at `(pr, pc)`. -/
def markAdjacent (g : Grid) (pr pc : Nat) : Grid :=
  adjOffsets.foldl (fun g' d => markSq g' ((pr : Int) + d.1) ((pc : Int) + d.2)) g

/-- One step of the outer double loop of `calculateVisibleSquares`. -/
def visStep (b : Board) (player : Bool) (g : Grid) (rc : Nat × Nat) : Grid :=
  match b rc.1 rc.2 with
  | some p => if p.isWhite = player then markAdjacent g rc.1 rc.2 else g
  | none => g

/-- `calculateVisibleSquares(board, player)`; the fog-of-war flag of the
component state is passed explicitly. -/
def calculateVisibleSquares (fog : Bool) (b : Board) (player : Bool) : Grid :=
  if fog = false then fun _ _ => true
  else squaresList.foldl (visStep b player) (fun _ _ => false)

theorem markSq_spec (g : Grid) (nr nc : Int) (r c : Nat) :
    markSq g nr nc r c = true ↔
      (((r : Int) = nr ∧ (c : Int) = nc) ∧ 0 ≤ nr ∧ nr < 8 ∧ 0 ≤ nc ∧ nc < 8) ∨
        g r c = true := by
  unfold markSq
  by_cases h : 0 ≤ nr ∧ nr < 8 ∧ 0 ≤ nc ∧ nc < 8
  · rw [if_pos h]
    show (if (r : Int) = nr ∧ (c : Int) = nc then true else g r c) = true ↔ _
    by_cases he : (r : Int) = nr ∧ (c : Int) = nc
    · rw [if_pos he]
      simp [he, h]
    · rw [if_neg he]
      constructor
      · exact fun hg => Or.inr hg
      · rintro (⟨hee, _⟩ | hg)
        · exact absurd hee he
        · exact hg
  · rw [if_neg h]
    constructor
    · exact Or.inr
    · rintro (⟨_, hrange⟩ | hg)
      · exact absurd hrange h
      · exact hg

theorem foldl_markSq_spec (ds : List (Int × Int)) (g : Grid) (pr pc : Nat)
    (r c : Nat) :
    (ds.foldl (fun g' d => markSq g' ((pr : Int) + d.1) ((pc : Int) + d.2)) g) r c
        = true ↔
      g r c = true ∨
        ∃ d ∈ ds, ((r : Int) = (pr : Int) + d.1 ∧ (c : Int) = (pc : Int) + d.2) ∧
          0 ≤ (pr : Int) + d.1 ∧ (pr : Int) + d.1 < 8 ∧
          0 ≤ (pc : Int) + d.2 ∧ (pc : Int) + d.2 < 8 := by
  induction ds generalizing g with
  | nil => simp
  | cons d ds ih =>
    rw [List.foldl_cons, ih, markSq_spec]
    simp only [List.mem_cons]
    constructor
    · rintro ((h | hg) | ⟨d', hd', h⟩)
      · exact Or.inr ⟨d, Or.inl rfl, h.1, h.2⟩
      · exact Or.inl hg
      · exact Or.inr ⟨d', Or.inr hd', h⟩
    · rintro (hg | ⟨d', (rfl | hd'), h⟩)
      · exact Or.inl (Or.inr hg)
      · exact Or.inl (Or.inl ⟨h.1, h.2⟩)
      · exact Or.inr ⟨d', hd', h⟩

theorem markAdjacent_spec (g : Grid) (pr pc r c : Nat) :
    markAdjacent g pr pc r c = true ↔
      g r c = true ∨
        (r < 8 ∧ c < 8 ∧ pr ≤ r + 1 ∧ r ≤ pr + 1 ∧ pc ≤ c + 1 ∧ c ≤ pc + 1) := by
  unfold markAdjacent
  rw [foldl_markSq_spec]
  constructor
  · rintro (hg | ⟨d, hd, h⟩)
    · exact Or.inl hg
    · refine Or.inr ?_
      simp only [adjOffsets, List.mem_cons, List.not_mem_nil, or_false] at hd
      rcases hd with rfl | rfl | rfl | rfl | rfl | rfl | rfl | rfl | rfl <;>
        (dsimp only at h; omega)
  · rintro (hg | h)
    · exact Or.inl hg
    · refine Or.inr ⟨((r : Int) - (pr : Int), (c : Int) - (pc : Int)), ?_, ?_⟩
      · simp only [adjOffsets, List.mem_cons, List.not_mem_nil, or_false,
          Prod.mk.injEq]
        omega
      · dsimp only
        refine ⟨⟨by omega, by omega⟩, by omega, by omega, by omega, by omega⟩

theorem foldl_visStep_spec (b : Board) (player : Bool) (L : List (Nat × Nat))
    (g : Grid) (r c : Nat) :
    (L.foldl (visStep b player) g) r c = true ↔
      g r c = true ∨
        ∃ q ∈ L, (∃ p, b q.1 q.2 = some p ∧ p.isWhite = player) ∧
          r < 8 ∧ c < 8 ∧ q.1 ≤ r + 1 ∧ r ≤ q.1 + 1 ∧ q.2 ≤ c + 1 ∧ c ≤ q.2 + 1 := by
  induction L generalizing g with
  | nil => simp
  | cons q L ih =>
    have hstep : visStep b player g q r c = true ↔
        g r c = true ∨
          ((∃ p, b q.1 q.2 = some p ∧ p.isWhite = player) ∧
            r < 8 ∧ c < 8 ∧ q.1 ≤ r + 1 ∧ r ≤ q.1 + 1 ∧ q.2 ≤ c + 1 ∧ c ≤ q.2 + 1) := by
      cases hb : b q.1 q.2 with
      | none =>
        have hv : visStep b player g q = g := by
          simp [visStep, hb]
        rw [hv]
        simp [hb]
      | some p =>
        by_cases hp : p.isWhite = player
        · have hv : visStep b player g q = markAdjacent g q.1 q.2 := by
            simp [visStep, hb, hp]
          rw [hv, markAdjacent_spec]
          constructor
          · rintro (h | h)
            · exact Or.inl h
            · exact Or.inr ⟨⟨p, rfl, hp⟩, h⟩
          · rintro (h | ⟨_, h⟩)
            · exact Or.inl h
            · exact Or.inr h
        · have hv : visStep b player g q = g := by
            simp [visStep, hb, hp]
          rw [hv]
          constructor
          · exact Or.inl
          · rintro (h | ⟨⟨p', hp', hw⟩, _⟩)
            · exact h
            · injection hp' with h2
              subst h2
              exact absurd hw hp
    rw [List.foldl_cons, ih, hstep]
    simp only [List.mem_cons]
    constructor
    · rintro ((h | h) | ⟨q', hq', h⟩)
      · exact Or.inl h
      · exact Or.inr ⟨q, Or.inl rfl, h⟩
      · exact Or.inr ⟨q', Or.inr hq', h⟩
    · rintro (h | ⟨q', (rfl | hq'), h⟩)
      · exact Or.inl (Or.inl h)
      · exact Or.inl (Or.inr h)
      · exact Or.inr ⟨q', hq', h⟩

/-- Characterisation of visibility with fog enabled: a square is visible iff
it is on the board and within Chebyshev distance 1 of one of the player's
pieces. -/
theorem visible_iff (b : Board) (player : Bool) (r c : Nat) :
    calculateVisibleSquares true b player r c = true ↔
      r < 8 ∧ c < 8 ∧
        ∃ pr pc, pr < 8 ∧ pc < 8 ∧ (∃ p, b pr pc = some p ∧ p.isWhite = player) ∧
          pr ≤ r + 1 ∧ r ≤ pr + 1 ∧ pc ≤ c + 1 ∧ c ≤ pc + 1 := by
  unfold calculateVisibleSquares
  rw [if_neg (by simp)]
  rw [foldl_visStep_spec]
  constructor
  · rintro (h | ⟨q, hq, hp, h⟩)
    · exact absurd h (by simp)
    · exact ⟨h.1, h.2.1, q.1, q.2, (mem_squaresList.mp hq).1, (mem_squaresList.mp hq).2,
        hp, h.2.2⟩
  · rintro ⟨hr, hc, pr, pc, h1, h2, hp, h⟩
    exact Or.inr ⟨(pr, pc), mem_squaresList.mpr ⟨h1, h2⟩, hp, hr, hc, h⟩

/-- A square holding one of the player's own pieces is always visible to that
player (the piece sees its own square). -/
theorem visible_of_own_piece (fog : Bool) (b : Board) (player : Bool) (r c : Nat)
    (hr : r < 8) (hc : c < 8) (p : ChessPiece) (hb : b r c = some p)
    (hp : p.isWhite = player) :
    calculateVisibleSquares fog b player r c = true := by
  cases fog with
  | false => simp [calculateVisibleSquares]
  | true =>
    rw [visible_iff]
    exact ⟨hr, hc, r, c, hr, hc, ⟨p, hb, hp⟩, by omega, by omega, by omega, by omega⟩

/-- A non-visible square cannot hold one of the player's own pieces. -/
theorem not_own_piece_of_not_visible (fog : Bool) (b : Board) (player : Bool)
    (r c : Nat) (hr : r < 8) (hc : c < 8)
    (h : calculateVisibleSquares fog b player r c ≠ true) (p : ChessPiece)
    (hb : b r c = some p) : p.isWhite ≠ player := by
  intro hp
  exact h (visible_of_own_piece fog b player r c hr hc p hb hp)

/-- The concrete board of the spec's visibility example: a lone white pawn
at `(4, 4)`. -/
def lonePieceBoard : Board := setSq emptyBoard 4 4 (some ⟨PAWN, true⟩)

/-- C8: with fog disabled the visibility grid is all-true; with fog enabled a
square is visible iff it is within Chebyshev distance 1 (the 8-neighbourhood
including the piece's own square) of one of the given side's pieces; a lone
piece at `(4,4)` yields exactly the 9 visible cells in rows 3-5, cols 3-5. -/
theorem C8_visibility (b : Board) (player : Bool) :
    (∀ r c : Nat, calculateVisibleSquares false b player r c = true) ∧
    (∀ r : Nat, r < 8 → ∀ c : Nat, c < 8 →
      (calculateVisibleSquares true b player r c = true ↔
        ∃ pr pc, pr < 8 ∧ pc < 8 ∧ (∃ p, b pr pc = some p ∧ p.isWhite = player) ∧
          pr ≤ r + 1 ∧ r ≤ pr + 1 ∧ pc ≤ c + 1 ∧ c ≤ pc + 1)) ∧
    (∀ r : Nat, r < 8 → ∀ c : Nat, c < 8 →
      (calculateVisibleSquares true lonePieceBoard true r c = true ↔
        (3 ≤ r ∧ r ≤ 5 ∧ 3 ≤ c ∧ c ≤ 5))) := by
  refine ⟨fun r c => by simp [calculateVisibleSquares], fun r hr c hc => ?_, ?_⟩
  · rw [visible_iff]
    constructor
    · rintro ⟨_, _, h⟩
      exact h
    · intro h
      exact ⟨hr, hc, h⟩
  · decide

/-- Witness for C8 at concrete inputs: on `lonePieceBoard` the fog grid is
true at `(3,3)` and the example characterisation holds there. -/
theorem C8_visibility_witness :
    calculateVisibleSquares true lonePieceBoard true 3 3 = true ↔
      (3 ≤ 3 ∧ 3 ≤ 5 ∧ 3 ≤ 3 ∧ 3 ≤ 5) :=
  (C8_visibility lonePieceBoard true).2.2 3 (by decide) 3 (by decide)

/-! ## Fog-mode move generator

Embeds `calculatePossibleMoves` of part_002 (lines 327-509), identical to
money-chess-game.tsx lines 762-944.  The source accumulates two arrays
`visibleMoves` and `fogMoves` through the `addMove` closure and bespoke pawn
logic; the embedding threads an explicit accumulator in the same order. -/

/-- The `{ visibleMoves, fogMoves }` result record. -/
structure Moves where
  visibleMoves : List (Nat × Nat)
  fogMoves : List (Nat × Nat)
deriving DecidableEq, Repr

/-- `visibleMoves.push(...)`. -/
def Moves.pushVisible (m : Moves) (q : Nat × Nat) : Moves :=
  { m with visibleMoves := m.visibleMoves ++ [q] }

/-- `fogMoves.push(...)`. -/
def Moves.pushFog (m : Moves) (q : Nat × Nat) : Moves :=
  { m with fogMoves := m.fogMoves ++ [q] }

@[simp] theorem pushVisible_fog (m : Moves) (x : Nat × Nat) :
    (m.pushVisible x).fogMoves = m.fogMoves := rfl

@[simp] theorem pushVisible_vis (m : Moves) (x : Nat × Nat) :
    (m.pushVisible x).visibleMoves = m.visibleMoves ++ [x] := rfl

@[simp] theorem pushFog_fog (m : Moves) (x : Nat × Nat) :
    (m.pushFog x).fogMoves = m.fogMoves ++ [x] := rfl

@[simp] theorem pushFog_vis (m : Moves) (x : Nat × Nat) :
    (m.pushFog x).visibleMoves = m.visibleMoves := rfl

/-- The `addMove` closure (part_002 lines 337-359): bounds check; a visible
empty square is a normal move (ray continues), a visible occupied square
stops the ray and is a capture only for an opposing piece with `canCapture`;
a hidden square is optimistically pushed onto `fogMoves` and the ray
continues. -/
def addMove (b : Board) (vis : Grid) (pw : Bool) (canCapture : Bool)
    (acc : Moves) (newRow newCol : Int) : Moves × Bool :=
  if newRow < 0 ∨ newRow > 7 ∨ newCol < 0 ∨ newCol > 7 then (acc, false)
  else
    if vis newRow.toNat newCol.toNat then
      match b newRow.toNat newCol.toNat with
      | none => (acc.pushVisible (newRow.toNat, newCol.toNat), true)
      | some target =>
        if canCapture = true ∧ target.isWhite ≠ pw then
          (acc.pushVisible (newRow.toNat, newCol.toNat), false)
        else (acc, false)
    else (acc.pushFog (newRow.toNat, newCol.toNat), true)

/-- The `for i in 1..7 { if (!addMove(row + dr*i, col + dc*i)) break }` ray
loop of the sliding pieces; `fuel` is the number of remaining iterations. -/
def slideGo (b : Board) (vis : Grid) (pw : Bool) (row col : Nat) (dr dc : Int) :
    Nat → Nat → Moves → Moves
  | 0, _, acc => acc
  | fuel + 1, i, acc =>
    match addMove b vis pw true acc ((row : Int) + dr * i) ((col : Int) + dc * i) with
    | (acc', true) => slideGo b vis pw row col dr dc fuel (i + 1) acc'
    | (acc', false) => acc'

def rookDirections : List (Int × Int) := [(0, 1), (0, -1), (1, 0), (-1, 0)]

def bishopDirections : List (Int × Int) := [(1, 1), (1, -1), (-1, 1), (-1, -1)]

def queenDirections : List (Int × Int) :=
  [(0, 1), (0, -1), (1, 0), (-1, 0), (1, 1), (1, -1), (-1, 1), (-1, -1)]

def knightOffsets : List (Int × Int) :=
  [(-2, -1), (-2, 1), (-1, -2), (-1, 2), (1, -2), (1, 2), (2, -1), (2, 1)]

def kingOffsets : List (Int × Int) :=
  [(-1, -1), (-1, 0), (-1, 1), (0, -1), (0, 1), (1, -1), (1, 0), (1, 1)]

/-- The single forward pawn move (part_002 lines 366-379). -/
def pawnSingle (b : Board) (vis : Grid) (piece : ChessPiece) (row col : Nat)
    (acc : Moves) : Moves :=
  let direction : Int := if piece.isWhite then -1 else 1
  let sf : Int := (row : Int) + direction
  if 0 ≤ sf ∧ sf ≤ 7 then
    if vis sf.toNat col then
      if b sf.toNat col = none then acc.pushVisible (sf.toNat, col) else acc
    else acc.pushFog (sf.toNat, col)
  else acc

/-- The double forward pawn move from the start row (part_002 lines 381-401). -/
def pawnDouble (b : Board) (vis : Grid) (piece : ChessPiece) (row col : Nat)
    (acc : Moves) : Moves :=
  let direction : Int := if piece.isWhite then -1 else 1
  let startRow : Nat := if piece.isWhite then 6 else 1
  if row = startRow then
    let df : Int := (row : Int) + 2 * direction
    let sf : Int := (row : Int) + direction
    if 0 ≤ df ∧ df ≤ 7 then
      if vis df.toNat col then
        if b sf.toNat col = none ∧ b df.toNat col = none then
          acc.pushVisible (df.toNat, col)
        else acc
      else
        if ¬vis sf.toNat col = true ∨ b sf.toNat col = none then
          acc.pushFog (df.toNat, col)
        else acc
    else acc
  else acc

/-- One diagonal pawn capture candidate (part_002 lines 403-420). -/
def pawnDiagStep (b : Board) (vis : Grid) (piece : ChessPiece) (row col : Nat)
    (acc : Moves) (dc : Int) : Moves :=
  let direction : Int := if piece.isWhite then -1 else 1
  let nr : Int := (row : Int) + direction
  let nc : Int := (col : Int) + dc
  if 0 ≤ nr ∧ nr ≤ 7 ∧ 0 ≤ nc ∧ nc ≤ 7 then
    if vis nr.toNat nc.toNat then
      match b nr.toNat nc.toNat with
      | some t =>
        if t.isWhite ≠ piece.isWhite then acc.pushVisible (nr.toNat, nc.toNat)
        else acc
      | none => acc
    else acc.pushFog (nr.toNat, nc.toNat)
  else acc

/-- The `PieceType.PAWN` case of `calculatePossibleMoves`: single forward,
double forward, then the two diagonals in order `[-1, 1]`. -/
def pawnMoves (b : Board) (vis : Grid) (piece : ChessPiece) (row col : Nat) :
    Moves :=
  ([(-1 : Int), 1]).foldl (pawnDiagStep b vis piece row col)
    (pawnDouble b vis piece row col (pawnSingle b vis piece row col ⟨[], []⟩))

/-- `calculatePossibleMoves(board, position, piece)`; the fog flag of the
component state is passed explicitly, as in `calculateVisibleSquares`. -/
def calculatePossibleMoves (fog : Bool) (b : Board) (row col : Nat)
    (piece : ChessPiece) : Moves :=
  let vis := calculateVisibleSquares fog b piece.isWhite
  match piece.type with
  | PieceType.PAWN => pawnMoves b vis piece row col
  | PieceType.ROOK =>
    rookDirections.foldl
      (fun acc d => slideGo b vis piece.isWhite row col d.1 d.2 7 1 acc) ⟨[], []⟩
  | PieceType.BISHOP =>
    bishopDirections.foldl
      (fun acc d => slideGo b vis piece.isWhite row col d.1 d.2 7 1 acc) ⟨[], []⟩
  | PieceType.KNIGHT =>
    knightOffsets.foldl
      (fun acc d =>
        (addMove b vis piece.isWhite true acc ((row : Int) + d.1)
          ((col : Int) + d.2)).1) ⟨[], []⟩
  | PieceType.QUEEN =>
    queenDirections.foldl
      (fun acc d => slideGo b vis piece.isWhite row col d.1 d.2 7 1 acc) ⟨[], []⟩
  | PieceType.KING =>
    kingOffsets.foldl
      (fun acc d =>
        (addMove b vis piece.isWhite true acc ((row : Int) + d.1)
          ((col : Int) + d.2)).1) ⟨[], []⟩

/-! ### Characterisation of the ray march -/

/-- The square reached after `k` steps along direction `(dr, dc)`. -/
def raySq (row col : Nat) (dr dc : Int) (k : Nat) : Nat × Nat :=
  (((row : Int) + dr * k).toNat, ((col : Int) + dc * k).toNat)

/-- Step `k` of the ray is on the board. -/
def rayInRange (row col : Nat) (dr dc : Int) (k : Nat) : Prop :=
  0 ≤ (row : Int) + dr * k ∧ (row : Int) + dr * k ≤ 7 ∧
    0 ≤ (col : Int) + dc * k ∧ (col : Int) + dc * k ≤ 7

instance (row col : Nat) (dr dc : Int) (k : Nat) :
    Decidable (rayInRange row col dr dc k) := by
  unfold rayInRange; infer_instance

/-- The march continues past step `k`: the square is on the board and is
either not visible, or visible and empty. -/
def rayCont (b : Board) (vis : Grid) (row col : Nat) (dr dc : Int) (k : Nat) :
    Prop :=
  rayInRange row col dr dc k ∧
    (vis (raySq row col dr dc k).1 (raySq row col dr dc k).2 = true →
      b (raySq row col dr dc k).1 (raySq row col dr dc k).2 = none)

/-- Step `k` is pushed onto `fogMoves`: on the board and not visible. -/
def rayFogAt (vis : Grid) (row col : Nat) (dr dc : Int) (k : Nat) : Prop :=
  rayInRange row col dr dc k ∧
    vis (raySq row col dr dc k).1 (raySq row col dr dc k).2 = false

/-- Step `k` is pushed onto `visibleMoves` (with `canCapture` true): on the
board, visible, and empty or holding an opposing piece. -/
def rayVisAt (b : Board) (vis : Grid) (pw : Bool) (row col : Nat) (dr dc : Int)
    (k : Nat) : Prop :=
  rayInRange row col dr dc k ∧
    vis (raySq row col dr dc k).1 (raySq row col dr dc k).2 = true ∧
    (b (raySq row col dr dc k).1 (raySq row col dr dc k).2 = none ∨
      ∃ t, b (raySq row col dr dc k).1 (raySq row col dr dc k).2 = some t ∧
        t.isWhite ≠ pw)

theorem addMove_out_eq (b : Board) (vis : Grid) (pw cc : Bool) (acc : Moves)
    (nr nc : Int) (h : nr < 0 ∨ nr > 7 ∨ nc < 0 ∨ nc > 7) :
    addMove b vis pw cc acc nr nc = (acc, false) := by
  unfold addMove; rw [if_pos h]

theorem addMove_fog_eq (b : Board) (vis : Grid) (pw cc : Bool) (acc : Moves)
    (nr nc : Int) (h : ¬(nr < 0 ∨ nr > 7 ∨ nc < 0 ∨ nc > 7))
    (hv : vis nr.toNat nc.toNat = false) :
    addMove b vis pw cc acc nr nc = (acc.pushFog (nr.toNat, nc.toNat), true) := by
  unfold addMove
  rw [if_neg h]
  simp [hv]

theorem addMove_vis_empty_eq (b : Board) (vis : Grid) (pw cc : Bool)
    (acc : Moves) (nr nc : Int) (h : ¬(nr < 0 ∨ nr > 7 ∨ nc < 0 ∨ nc > 7))
    (hv : vis nr.toNat nc.toNat = true) (hb : b nr.toNat nc.toNat = none) :
    addMove b vis pw cc acc nr nc =
      (acc.pushVisible (nr.toNat, nc.toNat), true) := by
  unfold addMove
  rw [if_neg h]
  simp [hv, hb]

theorem addMove_vis_capture_eq (b : Board) (vis : Grid) (pw cc : Bool)
    (acc : Moves) (nr nc : Int) (t : ChessPiece)
    (h : ¬(nr < 0 ∨ nr > 7 ∨ nc < 0 ∨ nc > 7))
    (hv : vis nr.toNat nc.toNat = true) (hb : b nr.toNat nc.toNat = some t)
    (ht : cc = true ∧ t.isWhite ≠ pw) :
    addMove b vis pw cc acc nr nc =
      (acc.pushVisible (nr.toNat, nc.toNat), false) := by
  unfold addMove
  rw [if_neg h]
  simp only [hv, if_true, hb]
  rw [if_pos ht]

theorem addMove_vis_blocked_eq (b : Board) (vis : Grid) (pw cc : Bool)
    (acc : Moves) (nr nc : Int) (t : ChessPiece)
    (h : ¬(nr < 0 ∨ nr > 7 ∨ nc < 0 ∨ nc > 7))
    (hv : vis nr.toNat nc.toNat = true) (hb : b nr.toNat nc.toNat = some t)
    (ht : ¬(cc = true ∧ t.isWhite ≠ pw)) :
    addMove b vis pw cc acc nr nc = (acc, false) := by
  unfold addMove
  rw [if_neg h]
  simp only [hv, if_true, hb]
  rw [if_neg ht]

theorem slideGo_succ_eq (b : Board) (vis : Grid) (pw : Bool) (row col : Nat)
    (dr dc : Int) (fuel i : Nat) (acc : Moves) :
    slideGo b vis pw row col dr dc (fuel + 1) i acc =
      (match addMove b vis pw true acc ((row : Int) + dr * i)
          ((col : Int) + dc * i) with
        | (acc', true) => slideGo b vis pw row col dr dc fuel (i + 1) acc'
        | (acc', false) => acc') := rfl

theorem slideGo_fog_mem (b : Board) (vis : Grid) (pw : Bool) (row col : Nat)
    (dr dc : Int) (fuel : Nat) :
    ∀ (i : Nat) (acc : Moves) (q : Nat × Nat),
      q ∈ (slideGo b vis pw row col dr dc fuel i acc).fogMoves ↔
        q ∈ acc.fogMoves ∨
          ∃ k, i ≤ k ∧ k < i + fuel ∧
            (∀ j, i ≤ j → j < k → rayCont b vis row col dr dc j) ∧
            rayFogAt vis row col dr dc k ∧ q = raySq row col dr dc k := by
  induction fuel with
  | zero =>
    intro i acc q
    constructor
    · exact Or.inl
    · rintro (h | ⟨k, h1, h2, _⟩)
      · exact h
      · omega
  | succ fuel ih =>
    intro i acc q
    rw [slideGo_succ_eq]
    by_cases hout : ((row : Int) + dr * i < 0 ∨ (row : Int) + dr * i > 7 ∨
        (col : Int) + dc * i < 0 ∨ (col : Int) + dc * i > 7)
    · rw [addMove_out_eq _ _ _ _ _ _ _ hout]
      show q ∈ acc.fogMoves ↔ _
      constructor
      · exact Or.inl
      · rintro (h | ⟨k, hik, hk, hcont, hfog, rfl⟩)
        · exact h
        · exfalso
          have hir : rayInRange row col dr dc i := by
            rcases Nat.lt_or_ge i k with hlt | hge
            · exact (hcont i le_rfl hlt).1
            · have hki : k = i := by omega
              subst hki
              exact hfog.1
          unfold rayInRange at hir
          omega
    · by_cases hv : vis ((row : Int) + dr * i).toNat ((col : Int) + dc * i).toNat = true
      · cases hbt : b ((row : Int) + dr * i).toNat ((col : Int) + dc * i).toNat with
        | none =>
          rw [addMove_vis_empty_eq _ _ _ _ _ _ _ hout hv hbt]
          show q ∈ (slideGo b vis pw row col dr dc fuel (i + 1)
            (acc.pushVisible _)).fogMoves ↔ _
          rw [ih]
          simp only [pushVisible_fog]
          constructor
          · rintro (h | ⟨k, h1, h2, hcont, hfog, rfl⟩)
            · exact Or.inl h
            · refine Or.inr ⟨k, by omega, by omega, ?_, hfog, rfl⟩
              intro j hj1 hj2
              rcases Nat.lt_or_ge j (i + 1) with hj | hj
              · have : j = i := by omega
                subst this
                exact ⟨by unfold rayInRange; omega, fun _ => hbt⟩
              · exact hcont j hj hj2
          · rintro (h | ⟨k, h1, h2, hcont, hfog, rfl⟩)
            · exact Or.inl h
            · have hki : i < k := by
                rcases Nat.lt_or_ge i k with h' | h'
                · exact h'
                · have : k = i := by omega
                  subst this
                  have hfv : vis ((row : Int) + dr * k).toNat
                      ((col : Int) + dc * k).toNat = false := hfog.2
                  exact absurd hv (by simp [hfv])
              exact Or.inr ⟨k, by omega, by omega,
                fun j hj1 hj2 => hcont j (by omega) hj2, hfog, rfl⟩
        | some t =>
          by_cases hcap : (true = true ∧ t.isWhite ≠ pw)
          · rw [addMove_vis_capture_eq _ _ _ _ _ _ _ t hout hv hbt hcap]
            show q ∈ (acc.pushVisible _).fogMoves ↔ _
            rw [pushVisible_fog]
            constructor
            · exact Or.inl
            · rintro (h | ⟨k, h1, h2, hcont, hfog, rfl⟩)
              · exact h
              · exfalso
                rcases Nat.lt_or_ge i k with hlt | hge
                · have hbn : b ((row : Int) + dr * i).toNat
                      ((col : Int) + dc * i).toNat = none :=
                    (hcont i le_rfl hlt).2 hv
                  rw [hbn] at hbt
                  exact Option.noConfusion hbt
                · have : k = i := by omega
                  subst this
                  have hfv : vis ((row : Int) + dr * k).toNat
                      ((col : Int) + dc * k).toNat = false := hfog.2
                  exact absurd hv (by simp [hfv])
          · rw [addMove_vis_blocked_eq _ _ _ _ _ _ _ t hout hv hbt hcap]
            show q ∈ acc.fogMoves ↔ _
            constructor
            · exact Or.inl
            · rintro (h | ⟨k, h1, h2, hcont, hfog, rfl⟩)
              · exact h
              · exfalso
                rcases Nat.lt_or_ge i k with hlt | hge
                · have hbn : b ((row : Int) + dr * i).toNat
                      ((col : Int) + dc * i).toNat = none :=
                    (hcont i le_rfl hlt).2 hv
                  rw [hbn] at hbt
                  exact Option.noConfusion hbt
                · have : k = i := by omega
                  subst this
                  have hfv : vis ((row : Int) + dr * k).toNat
                      ((col : Int) + dc * k).toNat = false := hfog.2
                  exact absurd hv (by simp [hfv])
      · rw [addMove_fog_eq _ _ _ _ _ _ _ hout (by simpa using hv)]
        show q ∈ (slideGo b vis pw row col dr dc fuel (i + 1)
          (acc.pushFog _)).fogMoves ↔ _
        rw [ih]
        simp only [pushFog_fog, List.mem_append, List.mem_singleton]
        constructor
        · rintro ((h | h) | ⟨k, h1, h2, hcont, hfog, rfl⟩)
          · exact Or.inl h
          · refine Or.inr ⟨i, le_rfl, by omega, ?_, ?_, h⟩
            · intro j hj1 hj2
              omega
            · exact ⟨by unfold rayInRange; omega, by simpa using hv⟩
          · refine Or.inr ⟨k, by omega, by omega, ?_, hfog, rfl⟩
            intro j hj1 hj2
            rcases Nat.lt_or_ge j (i + 1) with hj | hj
            · have : j = i := by omega
              subst this
              refine ⟨by unfold rayInRange; omega, fun hvt => ?_⟩
              exact absurd hvt hv
            · exact hcont j hj hj2
        · rintro (h | ⟨k, h1, h2, hcont, hfog, rfl⟩)
          · exact Or.inl (Or.inl h)
          · rcases Nat.lt_or_ge i k with hlt | hge
            · exact Or.inr ⟨k, by omega, by omega,
                fun j hj1 hj2 => hcont j (by omega) hj2, hfog, rfl⟩
            · have : k = i := by omega
              subst this
              exact Or.inl (Or.inr rfl)

theorem slideGo_vis_mem (b : Board) (vis : Grid) (pw : Bool) (row col : Nat)
    (dr dc : Int) (fuel : Nat) :
    ∀ (i : Nat) (acc : Moves) (q : Nat × Nat),
      q ∈ (slideGo b vis pw row col dr dc fuel i acc).visibleMoves ↔
        q ∈ acc.visibleMoves ∨
          ∃ k, i ≤ k ∧ k < i + fuel ∧
            (∀ j, i ≤ j → j < k → rayCont b vis row col dr dc j) ∧
            rayVisAt b vis pw row col dr dc k ∧ q = raySq row col dr dc k := by
  induction fuel with
  | zero =>
    intro i acc q
    constructor
    · exact Or.inl
    · rintro (h | ⟨k, h1, h2, _⟩)
      · exact h
      · omega
  | succ fuel ih =>
    intro i acc q
    rw [slideGo_succ_eq]
    by_cases hout : ((row : Int) + dr * i < 0 ∨ (row : Int) + dr * i > 7 ∨
        (col : Int) + dc * i < 0 ∨ (col : Int) + dc * i > 7)
    · rw [addMove_out_eq _ _ _ _ _ _ _ hout]
      show q ∈ acc.visibleMoves ↔ _
      constructor
      · exact Or.inl
      · rintro (h | ⟨k, hik, hk, hcont, hvat, rfl⟩)
        · exact h
        · exfalso
          have hir : rayInRange row col dr dc i := by
            rcases Nat.lt_or_ge i k with hlt | hge
            · exact (hcont i le_rfl hlt).1
            · have hki : k = i := by omega
              subst hki
              exact hvat.1
          unfold rayInRange at hir
          omega
    · by_cases hv : vis ((row : Int) + dr * i).toNat ((col : Int) + dc * i).toNat = true
      · cases hbt : b ((row : Int) + dr * i).toNat ((col : Int) + dc * i).toNat with
        | none =>
          rw [addMove_vis_empty_eq _ _ _ _ _ _ _ hout hv hbt]
          show q ∈ (slideGo b vis pw row col dr dc fuel (i + 1)
            (acc.pushVisible _)).visibleMoves ↔ _
          rw [ih]
          simp only [pushVisible_vis, List.mem_append, List.mem_singleton]
          constructor
          · rintro ((h | h) | ⟨k, h1, h2, hcont, hvat, rfl⟩)
            · exact Or.inl h
            · refine Or.inr ⟨i, le_rfl, by omega, fun j hj1 hj2 => by omega,
                ⟨by unfold rayInRange; omega, hv, Or.inl hbt⟩, h⟩
            · refine Or.inr ⟨k, by omega, by omega, ?_, hvat, rfl⟩
              intro j hj1 hj2
              rcases Nat.lt_or_ge j (i + 1) with hj | hj
              · have : j = i := by omega
                subst this
                exact ⟨by unfold rayInRange; omega, fun _ => hbt⟩
              · exact hcont j hj hj2
          · rintro (h | ⟨k, h1, h2, hcont, hvat, rfl⟩)
            · exact Or.inl (Or.inl h)
            · rcases Nat.lt_or_ge i k with hlt | hge
              · exact Or.inr ⟨k, by omega, by omega,
                  fun j hj1 hj2 => hcont j (by omega) hj2, hvat, rfl⟩
              · have : k = i := by omega
                subst this
                exact Or.inl (Or.inr rfl)
        | some t =>
          by_cases hcap : (true = true ∧ t.isWhite ≠ pw)
          · rw [addMove_vis_capture_eq _ _ _ _ _ _ _ t hout hv hbt hcap]
            show q ∈ (acc.pushVisible _).visibleMoves ↔ _
            rw [pushVisible_vis]
            simp only [List.mem_append, List.mem_singleton]
            constructor
            · rintro (h | h)
              · exact Or.inl h
              · refine Or.inr ⟨i, le_rfl, by omega, fun j hj1 hj2 => by omega,
                  ⟨by unfold rayInRange; omega, hv, Or.inr ⟨t, hbt, hcap.2⟩⟩, h⟩
            · rintro (h | ⟨k, h1, h2, hcont, hvat, rfl⟩)
              · exact Or.inl h
              · rcases Nat.lt_or_ge i k with hlt | hge
                · have hbn : b ((row : Int) + dr * i).toNat
                      ((col : Int) + dc * i).toNat = none :=
                    (hcont i le_rfl hlt).2 hv
                  rw [hbn] at hbt
                  exact Option.noConfusion hbt
                · have : k = i := by omega
                  subst this
                  exact Or.inr rfl
          · rw [addMove_vis_blocked_eq _ _ _ _ _ _ _ t hout hv hbt hcap]
            show q ∈ acc.visibleMoves ↔ _
            constructor
            · exact Or.inl
            · rintro (h | ⟨k, h1, h2, hcont, hvat, rfl⟩)
              · exact h
              · exfalso
                rcases Nat.lt_or_ge i k with hlt | hge
                · have hbn : b ((row : Int) + dr * i).toNat
                      ((col : Int) + dc * i).toNat = none :=
                    (hcont i le_rfl hlt).2 hv
                  rw [hbn] at hbt
                  exact Option.noConfusion hbt
                · have : k = i := by omega
                  subst this
                  rcases hvat.2.2 with hnone | ⟨t', hbt', hne⟩
                  · have hbn : b ((row : Int) + dr * k).toNat
                        ((col : Int) + dc * k).toNat = none := hnone
                    rw [hbn] at hbt
                    exact Option.noConfusion hbt
                  · have hbn : b ((row : Int) + dr * k).toNat
                        ((col : Int) + dc * k).toNat = some t' := hbt'
                    rw [hbn] at hbt
                    injection hbt with hbt
                    subst hbt
                    exact hne (by
                      by_contra hne'
                      exact hcap ⟨rfl, hne'⟩)
      · rw [addMove_fog_eq _ _ _ _ _ _ _ hout (by simpa using hv)]
        show q ∈ (slideGo b vis pw row col dr dc fuel (i + 1)
          (acc.pushFog _)).visibleMoves ↔ _
        rw [ih]
        simp only [pushFog_vis]
        constructor
        · rintro (h | ⟨k, h1, h2, hcont, hvat, rfl⟩)
          · exact Or.inl h
          · refine Or.inr ⟨k, by omega, by omega, ?_, hvat, rfl⟩
            intro j hj1 hj2
            rcases Nat.lt_or_ge j (i + 1) with hj | hj
            · have : j = i := by omega
              subst this
              exact ⟨by unfold rayInRange; omega, fun hvt => absurd hvt hv⟩
            · exact hcont j hj hj2
        · rintro (h | ⟨k, h1, h2, hcont, hvat, rfl⟩)
          · exact Or.inl h
          · have hki : i < k := by
              rcases Nat.lt_or_ge i k with h' | h'
              · exact h'
              · have : k = i := by omega
                subst this
                exact absurd hvat.2.1 hv
            exact Or.inr ⟨k, by omega, by omega,
              fun j hj1 hj2 => hcont j (by omega) hj2, hvat, rfl⟩

/-- Fog-move membership for a fold of ray marches over a direction list. -/
theorem foldSlide_fog_mem (b : Board) (vis : Grid) (pw : Bool) (row col : Nat)
    (dirs : List (Int × Int)) :
    ∀ (acc : Moves) (q : Nat × Nat),
      q ∈ (dirs.foldl (fun a d => slideGo b vis pw row col d.1 d.2 7 1 a)
          acc).fogMoves ↔
        q ∈ acc.fogMoves ∨
          ∃ d ∈ dirs, ∃ k, 1 ≤ k ∧ k < 8 ∧
            (∀ j, 1 ≤ j → j < k → rayCont b vis row col d.1 d.2 j) ∧
            rayFogAt vis row col d.1 d.2 k ∧ q = raySq row col d.1 d.2 k := by
  induction dirs with
  | nil =>
    intro acc q
    simp
  | cons d dirs ih =>
    intro acc q
    rw [List.foldl_cons, ih, slideGo_fog_mem]
    simp only [List.mem_cons]
    constructor
    · rintro ((h | ⟨k, h1, h2, hcont, hfog, rfl⟩) | ⟨d', hd', hray⟩)
      · exact Or.inl h
      · exact Or.inr ⟨d, Or.inl rfl, k, h1, by omega, hcont, hfog, rfl⟩
      · exact Or.inr ⟨d', Or.inr hd', hray⟩
    · rintro (h | ⟨d', (rfl | hd'), hray⟩)
      · exact Or.inl (Or.inl h)
      · obtain ⟨k, h1, h2, hcont, hfog, rfl⟩ := hray
        exact Or.inl (Or.inr ⟨k, h1, by omega, hcont, hfog, rfl⟩)
      · exact Or.inr ⟨d', hd', hray⟩

/-- Visible-move membership for a fold of ray marches over a direction list. -/
theorem foldSlide_vis_mem (b : Board) (vis : Grid) (pw : Bool) (row col : Nat)
    (dirs : List (Int × Int)) :
    ∀ (acc : Moves) (q : Nat × Nat),
      q ∈ (dirs.foldl (fun a d => slideGo b vis pw row col d.1 d.2 7 1 a)
          acc).visibleMoves ↔
        q ∈ acc.visibleMoves ∨
          ∃ d ∈ dirs, ∃ k, 1 ≤ k ∧ k < 8 ∧
            (∀ j, 1 ≤ j → j < k → rayCont b vis row col d.1 d.2 j) ∧
            rayVisAt b vis pw row col d.1 d.2 k ∧ q = raySq row col d.1 d.2 k := by
  induction dirs with
  | nil =>
    intro acc q
    simp
  | cons d dirs ih =>
    intro acc q
    rw [List.foldl_cons, ih, slideGo_vis_mem]
    simp only [List.mem_cons]
    constructor
    · rintro ((h | ⟨k, h1, h2, hcont, hvat, rfl⟩) | ⟨d', hd', hray⟩)
      · exact Or.inl h
      · exact Or.inr ⟨d, Or.inl rfl, k, h1, by omega, hcont, hvat, rfl⟩
      · exact Or.inr ⟨d', Or.inr hd', hray⟩
    · rintro (h | ⟨d', (rfl | hd'), hray⟩)
      · exact Or.inl (Or.inl h)
      · obtain ⟨k, h1, h2, hcont, hvat, rfl⟩ := hray
        exact Or.inl (Or.inr ⟨k, h1, by omega, hcont, hvat, rfl⟩)
      · exact Or.inr ⟨d', hd', hray⟩

/-- The direction table of each sliding piece kind. -/
def pieceDirections : PieceType → List (Int × Int)
  | PieceType.ROOK => rookDirections
  | PieceType.BISHOP => bishopDirections
  | PieceType.QUEEN => queenDirections
  | _ => []

theorem calc_slider_eq (fog : Bool) (b : Board) (row col : Nat)
    (piece : ChessPiece)
    (h : piece.type = PieceType.ROOK ∨ piece.type = PieceType.BISHOP ∨
      piece.type = PieceType.QUEEN) :
    calculatePossibleMoves fog b row col piece =
      (pieceDirections piece.type).foldl
        (fun acc d => slideGo b (calculateVisibleSquares fog b piece.isWhite)
          piece.isWhite row col d.1 d.2 7 1 acc) ⟨[], []⟩ := by
  rcases h with h | h | h <;>
    simp [calculatePossibleMoves, pieceDirections, h]

/-- C6: in fog mode, every movement ray of a sliding piece stops at the first
square that is visible and occupied (and that square is a visible destination
iff its occupant is opposing), but continues past every non-visible square
regardless of its occupancy, adding each such square to the fogged set, up to
the board edge.  `rayCont` states the continuation condition (on the board,
and empty if visible), `rayFogAt` that the step square is on the board and
not visible, and `rayVisAt` that it is visible and empty or opposing. -/
theorem C6_fog_slider_rays (b : Board) (piece : ChessPiece) (row col : Nat)
    (h : piece.type = PieceType.ROOK ∨ piece.type = PieceType.BISHOP ∨
      piece.type = PieceType.QUEEN) (q : Nat × Nat) :
    (q ∈ (calculatePossibleMoves true b row col piece).fogMoves ↔
      ∃ d ∈ pieceDirections piece.type, ∃ k, 1 ≤ k ∧ k < 8 ∧
        (∀ j, 1 ≤ j → j < k →
          rayCont b (calculateVisibleSquares true b piece.isWhite) row col
            d.1 d.2 j) ∧
        rayFogAt (calculateVisibleSquares true b piece.isWhite) row col
          d.1 d.2 k ∧
        q = raySq row col d.1 d.2 k) ∧
    (q ∈ (calculatePossibleMoves true b row col piece).visibleMoves ↔
      ∃ d ∈ pieceDirections piece.type, ∃ k, 1 ≤ k ∧ k < 8 ∧
        (∀ j, 1 ≤ j → j < k →
          rayCont b (calculateVisibleSquares true b piece.isWhite) row col
            d.1 d.2 j) ∧
        rayVisAt b (calculateVisibleSquares true b piece.isWhite) piece.isWhite
          row col d.1 d.2 k ∧
        q = raySq row col d.1 d.2 k) := by
  rw [calc_slider_eq true b row col piece h]
  rw [foldSlide_fog_mem, foldSlide_vis_mem]
  constructor
  · constructor
    · rintro (h' | h')
      · exact absurd h' (by simp)
      · exact h'
    · exact Or.inr
  · constructor
    · rintro (h' | h')
      · exact absurd h' (by simp)
      · exact h'
    · exact Or.inr

/-- The concrete fog example used as witness: a lone white rook at `(4,0)`
and a hidden black pawn at `(4,5)`. -/
def fogWitnessBoard : Board :=
  setSq (setSq emptyBoard 4 0 (some ⟨PieceType.ROOK, true⟩)) 4 5
    (some ⟨PieceType.PAWN, false⟩)

/-- Witness for C6: the characterisation instantiated at the concrete board
`fogWitnessBoard`, the rook at `(4,0)` and the candidate square `(4,7)`. -/
theorem C6_fog_slider_rays_witness :
    ((4, 7) ∈ (calculatePossibleMoves true fogWitnessBoard 4 0
        ⟨PieceType.ROOK, true⟩).fogMoves ↔
      ∃ d ∈ pieceDirections PieceType.ROOK, ∃ k, 1 ≤ k ∧ k < 8 ∧
        (∀ j, 1 ≤ j → j < k →
          rayCont fogWitnessBoard
            (calculateVisibleSquares true fogWitnessBoard true) 4 0
            d.1 d.2 j) ∧
        rayFogAt (calculateVisibleSquares true fogWitnessBoard true) 4 0
          d.1 d.2 k ∧
        ((4, 7) : Nat × Nat) = raySq 4 0 d.1 d.2 k) ∧
    (((4, 7) : Nat × Nat) ∈ (calculatePossibleMoves true fogWitnessBoard 4 0
        ⟨PieceType.ROOK, true⟩).visibleMoves ↔
      ∃ d ∈ pieceDirections PieceType.ROOK, ∃ k, 1 ≤ k ∧ k < 8 ∧
        (∀ j, 1 ≤ j → j < k →
          rayCont fogWitnessBoard
            (calculateVisibleSquares true fogWitnessBoard true) 4 0
            d.1 d.2 j) ∧
        rayVisAt fogWitnessBoard
          (calculateVisibleSquares true fogWitnessBoard true) true 4 0
          d.1 d.2 k ∧
        ((4, 7) : Nat × Nat) = raySq 4 0 d.1 d.2 k) :=
  C6_fog_slider_rays fogWitnessBoard ⟨PieceType.ROOK, true⟩ 4 0 (Or.inl rfl)
    (4, 7)

theorem addMove_fst_fog_mem (b : Board) (vis : Grid) (pw cc : Bool)
    (acc : Moves) (nr nc : Int) (q : Nat × Nat) :
    q ∈ ((addMove b vis pw cc acc nr nc).1).fogMoves ↔
      q ∈ acc.fogMoves ∨
        (¬(nr < 0 ∨ nr > 7 ∨ nc < 0 ∨ nc > 7) ∧ vis nr.toNat nc.toNat = false ∧
          q = (nr.toNat, nc.toNat)) := by
  by_cases hout : (nr < 0 ∨ nr > 7 ∨ nc < 0 ∨ nc > 7)
  · rw [addMove_out_eq _ _ _ _ _ _ _ hout]
    simp [hout]
  · by_cases hv : vis nr.toNat nc.toNat = true
    · cases hbt : b nr.toNat nc.toNat with
      | none =>
        rw [addMove_vis_empty_eq _ _ _ _ _ _ _ hout hv hbt]
        simp [hv]
      | some t =>
        by_cases hcap : (cc = true ∧ t.isWhite ≠ pw)
        · rw [addMove_vis_capture_eq _ _ _ _ _ _ _ t hout hv hbt hcap]
          simp [hv]
        · rw [addMove_vis_blocked_eq _ _ _ _ _ _ _ t hout hv hbt hcap]
          simp [hv]
    · have hv' : vis nr.toNat nc.toNat = false := by simpa using hv
      rw [addMove_fog_eq _ _ _ _ _ _ _ hout hv']
      simp only [pushFog_fog, List.mem_append, List.mem_singleton]
      constructor
      · rintro (h | h)
        · exact Or.inl h
        · exact Or.inr ⟨hout, hv', h⟩
      · rintro (h | ⟨_, _, h⟩)
        · exact Or.inl h
        · exact Or.inr h

theorem addMove_fst_vis_mem (b : Board) (vis : Grid) (pw cc : Bool)
    (acc : Moves) (nr nc : Int) (q : Nat × Nat) :
    q ∈ ((addMove b vis pw cc acc nr nc).1).visibleMoves ↔
      q ∈ acc.visibleMoves ∨
        (¬(nr < 0 ∨ nr > 7 ∨ nc < 0 ∨ nc > 7) ∧ vis nr.toNat nc.toNat = true ∧
          (b nr.toNat nc.toNat = none ∨
            ∃ t, b nr.toNat nc.toNat = some t ∧ cc = true ∧ t.isWhite ≠ pw) ∧
          q = (nr.toNat, nc.toNat)) := by
  by_cases hout : (nr < 0 ∨ nr > 7 ∨ nc < 0 ∨ nc > 7)
  · rw [addMove_out_eq _ _ _ _ _ _ _ hout]
    simp [hout]
  · by_cases hv : vis nr.toNat nc.toNat = true
    · cases hbt : b nr.toNat nc.toNat with
      | none =>
        rw [addMove_vis_empty_eq _ _ _ _ _ _ _ hout hv hbt]
        simp [hout, hv]
      | some t =>
        by_cases hcap : (cc = true ∧ t.isWhite ≠ pw)
        · rw [addMove_vis_capture_eq _ _ _ _ _ _ _ t hout hv hbt hcap]
          simp only [pushVisible_vis, List.mem_append, List.mem_singleton]
          constructor
          · rintro (h | h)
            · exact Or.inl h
            · exact Or.inr ⟨hout, hv, Or.inr ⟨t, rfl, hcap⟩, h⟩
          · rintro (h | ⟨_, _, _, h⟩)
            · exact Or.inl h
            · exact Or.inr h
        · rw [addMove_vis_blocked_eq _ _ _ _ _ _ _ t hout hv hbt hcap]
          constructor
          · exact Or.inl
          · rintro (h | ⟨_, _, hocc, _⟩)
            · exact h
            · exfalso
              rcases hocc with hnone | ⟨t', hbt', hcc, hne⟩
              · exact Option.noConfusion hnone
              · injection hbt' with hbt'
                subst hbt'
                exact hcap ⟨hcc, hne⟩
    · have hv' : vis nr.toNat nc.toNat = false := by simpa using hv
      rw [addMove_fog_eq _ _ _ _ _ _ _ hout hv']
      simp only [pushFog_vis]
      constructor
      · exact Or.inl
      · rintro (h | ⟨_, hvt, _⟩)
        · exact h
        · rw [hv'] at hvt
          exact absurd hvt (by simp)

theorem foldAdd_fog_mem (b : Board) (vis : Grid) (pw : Bool) (row col : Nat)
    (offs : List (Int × Int)) :
    ∀ (acc : Moves) (q : Nat × Nat),
      q ∈ (offs.foldl (fun a d => (addMove b vis pw true a ((row : Int) + d.1)
          ((col : Int) + d.2)).1) acc).fogMoves ↔
        q ∈ acc.fogMoves ∨
          ∃ d ∈ offs,
            ¬((row : Int) + d.1 < 0 ∨ (row : Int) + d.1 > 7 ∨
              (col : Int) + d.2 < 0 ∨ (col : Int) + d.2 > 7) ∧
            vis ((row : Int) + d.1).toNat ((col : Int) + d.2).toNat = false ∧
            q = (((row : Int) + d.1).toNat, ((col : Int) + d.2).toNat) := by
  induction offs with
  | nil =>
    intro acc q
    simp
  | cons d offs ih =>
    intro acc q
    rw [List.foldl_cons, ih, addMove_fst_fog_mem]
    simp only [List.mem_cons]
    constructor
    · rintro ((h | h) | ⟨d', hd', h⟩)
      · exact Or.inl h
      · exact Or.inr ⟨d, Or.inl rfl, h⟩
      · exact Or.inr ⟨d', Or.inr hd', h⟩
    · rintro (h | ⟨d', (rfl | hd'), h⟩)
      · exact Or.inl (Or.inl h)
      · exact Or.inl (Or.inr h)
      · exact Or.inr ⟨d', hd', h⟩

theorem foldAdd_vis_mem (b : Board) (vis : Grid) (pw : Bool) (row col : Nat)
    (offs : List (Int × Int)) :
    ∀ (acc : Moves) (q : Nat × Nat),
      q ∈ (offs.foldl (fun a d => (addMove b vis pw true a ((row : Int) + d.1)
          ((col : Int) + d.2)).1) acc).visibleMoves ↔
        q ∈ acc.visibleMoves ∨
          ∃ d ∈ offs,
            ¬((row : Int) + d.1 < 0 ∨ (row : Int) + d.1 > 7 ∨
              (col : Int) + d.2 < 0 ∨ (col : Int) + d.2 > 7) ∧
            vis ((row : Int) + d.1).toNat ((col : Int) + d.2).toNat = true ∧
            (b ((row : Int) + d.1).toNat ((col : Int) + d.2).toNat = none ∨
              ∃ t, b ((row : Int) + d.1).toNat ((col : Int) + d.2).toNat = some t ∧
                true = true ∧ t.isWhite ≠ pw) ∧
            q = (((row : Int) + d.1).toNat, ((col : Int) + d.2).toNat) := by
  induction offs with
  | nil =>
    intro acc q
    simp
  | cons d offs ih =>
    intro acc q
    rw [List.foldl_cons, ih, addMove_fst_vis_mem]
    simp only [List.mem_cons]
    constructor
    · rintro ((h | h) | ⟨d', hd', h⟩)
      · exact Or.inl h
      · exact Or.inr ⟨d, Or.inl rfl, h⟩
      · exact Or.inr ⟨d', Or.inr hd', h⟩
    · rintro (h | ⟨d', (rfl | hd'), h⟩)
      · exact Or.inl (Or.inl h)
      · exact Or.inl (Or.inr h)
      · exact Or.inr ⟨d', hd', h⟩

theorem pawnSingle_fog_sub (b : Board) (vis : Grid) (piece : ChessPiece)
    (row col : Nat) (hcol : col < 8) (acc : Moves) (q : Nat × Nat)
    (h : q ∈ (pawnSingle b vis piece row col acc).fogMoves) :
    q ∈ acc.fogMoves ∨ (q.1 < 8 ∧ q.2 < 8 ∧ vis q.1 q.2 = false) := by
  unfold pawnSingle at h
  dsimp only at h
  revert h
  generalize (if piece.isWhite = true then (-1 : Int) else 1) = dir
  intro h
  split at h
  · split at h
    · split at h
      · exact Or.inl h
      · exact Or.inl h
    · rw [pushFog_fog] at h
      rcases List.mem_append.mp h with h | h
      · exact Or.inl h
      · obtain rfl := List.mem_singleton.mp h
        exact Or.inr ⟨by dsimp only; omega, by dsimp only; omega,
          by dsimp only; simp_all⟩
  · exact Or.inl h

theorem pawnSingle_vis_sub (b : Board) (vis : Grid) (piece : ChessPiece)
    (row col : Nat) (hcol : col < 8) (acc : Moves) (q : Nat × Nat)
    (h : q ∈ (pawnSingle b vis piece row col acc).visibleMoves) :
    q ∈ acc.visibleMoves ∨
      (q.1 < 8 ∧ q.2 < 8 ∧ vis q.1 q.2 = true ∧
        (b q.1 q.2 = none ∨
          ∃ t, b q.1 q.2 = some t ∧ t.isWhite ≠ piece.isWhite)) := by
  unfold pawnSingle at h
  dsimp only at h
  revert h
  generalize (if piece.isWhite = true then (-1 : Int) else 1) = dir
  intro h
  split at h
  · split at h
    · split at h
      · rw [pushVisible_vis] at h
        rcases List.mem_append.mp h with h | h
        · exact Or.inl h
        · obtain rfl := List.mem_singleton.mp h
          refine Or.inr ⟨by dsimp only; omega, by dsimp only; omega, ?_, ?_⟩
          · dsimp only
            assumption
          · exact Or.inl (by dsimp only; assumption)
      · exact Or.inl h
    · exact Or.inl h
  · exact Or.inl h

theorem pawnDouble_fog_sub (b : Board) (vis : Grid) (piece : ChessPiece)
    (row col : Nat) (hcol : col < 8) (acc : Moves) (q : Nat × Nat)
    (h : q ∈ (pawnDouble b vis piece row col acc).fogMoves) :
    q ∈ acc.fogMoves ∨ (q.1 < 8 ∧ q.2 < 8 ∧ vis q.1 q.2 = false) := by
  unfold pawnDouble at h
  dsimp only at h
  revert h
  generalize (if piece.isWhite = true then (-1 : Int) else 1) = dir
  generalize (if piece.isWhite = true then (6 : Nat) else 1) = sr
  intro h
  split at h
  · split at h
    · split at h
      · split at h
        · exact Or.inl h
        · exact Or.inl h
      · split at h
        · rw [pushFog_fog] at h
          rcases List.mem_append.mp h with h | h
          · exact Or.inl h
          · obtain rfl := List.mem_singleton.mp h
            exact Or.inr ⟨by dsimp only; omega, by dsimp only; omega,
              by dsimp only; simp_all⟩
        · exact Or.inl h
    · exact Or.inl h
  · exact Or.inl h

theorem pawnDouble_vis_sub (b : Board) (vis : Grid) (piece : ChessPiece)
    (row col : Nat) (hcol : col < 8) (acc : Moves) (q : Nat × Nat)
    (h : q ∈ (pawnDouble b vis piece row col acc).visibleMoves) :
    q ∈ acc.visibleMoves ∨
      (q.1 < 8 ∧ q.2 < 8 ∧ vis q.1 q.2 = true ∧
        (b q.1 q.2 = none ∨
          ∃ t, b q.1 q.2 = some t ∧ t.isWhite ≠ piece.isWhite)) := by
  unfold pawnDouble at h
  dsimp only at h
  revert h
  generalize (if piece.isWhite = true then (-1 : Int) else 1) = dir
  generalize (if piece.isWhite = true then (6 : Nat) else 1) = sr
  intro h
  split at h
  · split at h
    · split at h
      · split at h
        · rw [pushVisible_vis] at h
          rcases List.mem_append.mp h with h | h
          · exact Or.inl h
          · obtain rfl := List.mem_singleton.mp h
            refine Or.inr ⟨by dsimp only; omega, by dsimp only; omega, ?_, ?_⟩
            · dsimp only
              assumption
            · exact Or.inl (by dsimp only; simp_all)
        · exact Or.inl h
      · split at h
        · exact Or.inl h
        · exact Or.inl h
    · exact Or.inl h
  · exact Or.inl h

theorem pawnDiagStep_fog_sub (b : Board) (vis : Grid) (piece : ChessPiece)
    (row col : Nat) (acc : Moves) (dc : Int) (q : Nat × Nat)
    (h : q ∈ (pawnDiagStep b vis piece row col acc dc).fogMoves) :
    q ∈ acc.fogMoves ∨ (q.1 < 8 ∧ q.2 < 8 ∧ vis q.1 q.2 = false) := by
  unfold pawnDiagStep at h
  dsimp only at h
  revert h
  generalize (if piece.isWhite = true then (-1 : Int) else 1) = dir
  intro h
  split at h
  · split at h
    · split at h
      · split at h
        · exact Or.inl h
        · exact Or.inl h
      · exact Or.inl h
    · rw [pushFog_fog] at h
      rcases List.mem_append.mp h with h | h
      · exact Or.inl h
      · obtain rfl := List.mem_singleton.mp h
        exact Or.inr ⟨by dsimp only; omega, by dsimp only; omega,
          by dsimp only; simp_all⟩
  · exact Or.inl h

theorem pawnDiagStep_vis_sub (b : Board) (vis : Grid) (piece : ChessPiece)
    (row col : Nat) (acc : Moves) (dc : Int) (q : Nat × Nat)
    (h : q ∈ (pawnDiagStep b vis piece row col acc dc).visibleMoves) :
    q ∈ acc.visibleMoves ∨
      (q.1 < 8 ∧ q.2 < 8 ∧ vis q.1 q.2 = true ∧
        (b q.1 q.2 = none ∨
          ∃ t, b q.1 q.2 = some t ∧ t.isWhite ≠ piece.isWhite)) := by
  unfold pawnDiagStep at h
  dsimp only at h
  revert h
  generalize (if piece.isWhite = true then (-1 : Int) else 1) = dir
  intro h
  split at h
  · split at h
    · split at h
      · split at h
        · rw [pushVisible_vis] at h
          rcases List.mem_append.mp h with h | h
          · exact Or.inl h
          · obtain rfl := List.mem_singleton.mp h
            refine Or.inr ⟨by dsimp only; omega, by dsimp only; omega, ?_, ?_⟩
            · dsimp only
              assumption
            · exact Or.inr ⟨_, by dsimp only; assumption, by assumption⟩
        · exact Or.inl h
      · exact Or.inl h
    · exact Or.inl h
  · exact Or.inl h

theorem pawnMoves_fog_sub (b : Board) (vis : Grid) (piece : ChessPiece)
    (row col : Nat) (hcol : col < 8) (q : Nat × Nat)
    (h : q ∈ (pawnMoves b vis piece row col).fogMoves) :
    q.1 < 8 ∧ q.2 < 8 ∧ vis q.1 q.2 = false := by
  unfold pawnMoves at h
  rw [List.foldl_cons, List.foldl_cons, List.foldl_nil] at h
  rcases pawnDiagStep_fog_sub _ _ _ _ _ _ _ _ h with h | h
  · rcases pawnDiagStep_fog_sub _ _ _ _ _ _ _ _ h with h | h
    · rcases pawnDouble_fog_sub _ _ _ _ _ hcol _ _ h with h | h
      · rcases pawnSingle_fog_sub _ _ _ _ _ hcol _ _ h with h | h
        · exact absurd h (by simp)
        · exact h
      · exact h
    · exact h
  · exact h

theorem pawnMoves_vis_sub (b : Board) (vis : Grid) (piece : ChessPiece)
    (row col : Nat) (hcol : col < 8) (q : Nat × Nat)
    (h : q ∈ (pawnMoves b vis piece row col).visibleMoves) :
    q.1 < 8 ∧ q.2 < 8 ∧ vis q.1 q.2 = true ∧
      (b q.1 q.2 = none ∨
        ∃ t, b q.1 q.2 = some t ∧ t.isWhite ≠ piece.isWhite) := by
  unfold pawnMoves at h
  rw [List.foldl_cons, List.foldl_cons, List.foldl_nil] at h
  rcases pawnDiagStep_vis_sub _ _ _ _ _ _ _ _ h with h | h
  · rcases pawnDiagStep_vis_sub _ _ _ _ _ _ _ _ h with h | h
    · rcases pawnDouble_vis_sub _ _ _ _ _ hcol _ _ h with h | h
      · rcases pawnSingle_vis_sub _ _ _ _ _ hcol _ _ h with h | h
        · exact absurd h (by simp)
        · exact h
      · exact h
    · exact h
  · exact h

theorem foldAdd_fog_sub (b : Board) (vis : Grid) (pw : Bool) (row col : Nat)
    (offs : List (Int × Int)) (q : Nat × Nat)
    (h : q ∈ (offs.foldl (fun a d => (addMove b vis pw true a ((row : Int) + d.1)
        ((col : Int) + d.2)).1) ⟨[], []⟩).fogMoves) :
    q.1 < 8 ∧ q.2 < 8 ∧ vis q.1 q.2 = false := by
  rw [foldAdd_fog_mem] at h
  rcases h with h | ⟨d, hd, hout, hfv, rfl⟩
  · exact absurd h (by simp)
  · exact ⟨by dsimp only; omega, by dsimp only; omega, hfv⟩

theorem foldAdd_vis_sub (b : Board) (vis : Grid) (pw : Bool) (row col : Nat)
    (offs : List (Int × Int)) (q : Nat × Nat)
    (h : q ∈ (offs.foldl (fun a d => (addMove b vis pw true a ((row : Int) + d.1)
        ((col : Int) + d.2)).1) ⟨[], []⟩).visibleMoves) :
    q.1 < 8 ∧ q.2 < 8 ∧ vis q.1 q.2 = true ∧
      (b q.1 q.2 = none ∨ ∃ t, b q.1 q.2 = some t ∧ t.isWhite ≠ pw) := by
  rw [foldAdd_vis_mem] at h
  rcases h with h | ⟨d, hd, hout, hv, hocc, rfl⟩
  · exact absurd h (by simp)
  · refine ⟨by dsimp only; omega, by dsimp only; omega, hv, ?_⟩
    rcases hocc with hnone | ⟨t, hbt, _, hne⟩
    · exact Or.inl hnone
    · exact Or.inr ⟨t, hbt, hne⟩

theorem slider_fog_sub (fog : Bool) (b : Board) (row col : Nat)
    (piece : ChessPiece)
    (hs : piece.type = PieceType.ROOK ∨ piece.type = PieceType.BISHOP ∨
      piece.type = PieceType.QUEEN) (q : Nat × Nat)
    (h : q ∈ (calculatePossibleMoves fog b row col piece).fogMoves) :
    q.1 < 8 ∧ q.2 < 8 ∧
      calculateVisibleSquares fog b piece.isWhite q.1 q.2 = false := by
  rw [calc_slider_eq _ _ _ _ _ hs, foldSlide_fog_mem] at h
  rcases h with h | ⟨d, hd, k, h1, h2, hcont, hfog, rfl⟩
  · exact absurd h (by simp)
  · obtain ⟨hir, hfv⟩ := hfog
    unfold rayInRange at hir
    exact ⟨by unfold raySq; dsimp only; omega,
      by unfold raySq; dsimp only; omega, hfv⟩

theorem slider_vis_sub (fog : Bool) (b : Board) (row col : Nat)
    (piece : ChessPiece)
    (hs : piece.type = PieceType.ROOK ∨ piece.type = PieceType.BISHOP ∨
      piece.type = PieceType.QUEEN) (q : Nat × Nat)
    (h : q ∈ (calculatePossibleMoves fog b row col piece).visibleMoves) :
    q.1 < 8 ∧ q.2 < 8 ∧
      calculateVisibleSquares fog b piece.isWhite q.1 q.2 = true ∧
      (b q.1 q.2 = none ∨
        ∃ t, b q.1 q.2 = some t ∧ t.isWhite ≠ piece.isWhite) := by
  rw [calc_slider_eq _ _ _ _ _ hs, foldSlide_vis_mem] at h
  rcases h with h | ⟨d, hd, k, h1, h2, hcont, hvat, rfl⟩
  · exact absurd h (by simp)
  · obtain ⟨hir, hv, hocc⟩ := hvat
    unfold rayInRange at hir
    exact ⟨by unfold raySq; dsimp only; omega,
      by unfold raySq; dsimp only; omega, hv, hocc⟩

/-- Every fogged destination produced by `calculatePossibleMoves` is on the
board and not visible to the moving side. -/
theorem fog_mem_props (fog : Bool) (b : Board) (row col : Nat)
    (piece : ChessPiece) (hcol : col < 8) (q : Nat × Nat)
    (h : q ∈ (calculatePossibleMoves fog b row col piece).fogMoves) :
    q.1 < 8 ∧ q.2 < 8 ∧
      calculateVisibleSquares fog b piece.isWhite q.1 q.2 = false := by
  cases hty : piece.type
  case PAWN =>
    rw [show calculatePossibleMoves fog b row col piece =
        pawnMoves b (calculateVisibleSquares fog b piece.isWhite) piece row col
      from by simp [calculatePossibleMoves, hty]] at h
    exact pawnMoves_fog_sub _ _ _ _ _ hcol _ h
  case ROOK => exact slider_fog_sub fog b row col piece (Or.inl hty) q h
  case BISHOP =>
    exact slider_fog_sub fog b row col piece (Or.inr (Or.inl hty)) q h
  case QUEEN =>
    exact slider_fog_sub fog b row col piece (Or.inr (Or.inr hty)) q h
  case KNIGHT =>
    rw [show calculatePossibleMoves fog b row col piece =
        knightOffsets.foldl (fun a d =>
          (addMove b (calculateVisibleSquares fog b piece.isWhite) piece.isWhite
            true a ((row : Int) + d.1) ((col : Int) + d.2)).1) ⟨[], []⟩
      from by simp [calculatePossibleMoves, hty]] at h
    exact foldAdd_fog_sub _ _ _ _ _ _ _ h
  case KING =>
    rw [show calculatePossibleMoves fog b row col piece =
        kingOffsets.foldl (fun a d =>
          (addMove b (calculateVisibleSquares fog b piece.isWhite) piece.isWhite
            true a ((row : Int) + d.1) ((col : Int) + d.2)).1) ⟨[], []⟩
      from by simp [calculatePossibleMoves, hty]] at h
    exact foldAdd_fog_sub _ _ _ _ _ _ _ h

/-- Every visible destination produced by `calculatePossibleMoves` is on the
board, visible to the moving side, and empty or occupied by an opposing
piece. -/
theorem vis_mem_props (fog : Bool) (b : Board) (row col : Nat)
    (piece : ChessPiece) (hcol : col < 8) (q : Nat × Nat)
    (h : q ∈ (calculatePossibleMoves fog b row col piece).visibleMoves) :
    q.1 < 8 ∧ q.2 < 8 ∧
      calculateVisibleSquares fog b piece.isWhite q.1 q.2 = true ∧
      (b q.1 q.2 = none ∨
        ∃ t, b q.1 q.2 = some t ∧ t.isWhite ≠ piece.isWhite) := by
  cases hty : piece.type
  case PAWN =>
    rw [show calculatePossibleMoves fog b row col piece =
        pawnMoves b (calculateVisibleSquares fog b piece.isWhite) piece row col
      from by simp [calculatePossibleMoves, hty]] at h
    exact pawnMoves_vis_sub _ _ _ _ _ hcol _ h
  case ROOK => exact slider_vis_sub fog b row col piece (Or.inl hty) q h
  case BISHOP =>
    exact slider_vis_sub fog b row col piece (Or.inr (Or.inl hty)) q h
  case QUEEN =>
    exact slider_vis_sub fog b row col piece (Or.inr (Or.inr hty)) q h
  case KNIGHT =>
    rw [show calculatePossibleMoves fog b row col piece =
        knightOffsets.foldl (fun a d =>
          (addMove b (calculateVisibleSquares fog b piece.isWhite) piece.isWhite
            true a ((row : Int) + d.1) ((col : Int) + d.2)).1) ⟨[], []⟩
      from by simp [calculatePossibleMoves, hty]] at h
    exact foldAdd_vis_sub _ _ _ _ _ _ _ h
  case KING =>
    rw [show calculatePossibleMoves fog b row col piece =
        kingOffsets.foldl (fun a d =>
          (addMove b (calculateVisibleSquares fog b piece.isWhite) piece.isWhite
            true a ((row : Int) + d.1) ((col : Int) + d.2)).1) ⟨[], []⟩
      from by simp [calculatePossibleMoves, hty]] at h
    exact foldAdd_vis_sub _ _ _ _ _ _ _ h

/-! ## Non-fog move generator of `src/app/page.tsx`

Embeds the separate `calculatePossibleMoves` of page.tsx (lines 248-420),
which has no fog mode: a single result list, pushed in source order. -/

namespace Page

/-- The square at `k` steps is on the board and empty. -/
def rayEmpty (b : Board) (row col : Nat) (dr dc : Int) (k : Nat) : Prop :=
  rayInRange row col dr dc k ∧
    b (raySq row col dr dc k).1 (raySq row col dr dc k).2 = none

/-- The square at `k` steps is a legal destination: on the board, and empty or
holding an opposing piece. -/
def rayDest (b : Board) (pw : Bool) (row col : Nat) (dr dc : Int) (k : Nat) :
    Prop :=
  rayInRange row col dr dc k ∧
    (b (raySq row col dr dc k).1 (raySq row col dr dc k).2 = none ∨
      ∃ t, b (raySq row col dr dc k).1 (raySq row col dr dc k).2 = some t ∧
        t.isWhite ≠ pw)

/-- The `for i in 1..7` ray loop of page.tsx's Bishop/Rook/Queen cases. -/
def slideGo (b : Board) (pw : Bool) (row col : Nat) (dr dc : Int) :
    Nat → Nat → List (Nat × Nat) → List (Nat × Nat)
  | 0, _, acc => acc
  | fuel + 1, i, acc =>
    if ((row : Int) + dr * i) < 0 ∨ ((row : Int) + dr * i) > 7 ∨
        ((col : Int) + dc * i) < 0 ∨ ((col : Int) + dc * i) > 7 then acc
    else
      match b ((row : Int) + dr * i).toNat ((col : Int) + dc * i).toNat with
      | none =>
        slideGo b pw row col dr dc fuel (i + 1)
          (acc ++ [(((row : Int) + dr * i).toNat, ((col : Int) + dc * i).toNat)])
      | some target =>
        if target.isWhite ≠ pw then
          acc ++ [(((row : Int) + dr * i).toNat, ((col : Int) + dc * i).toNat)]
        else acc

/-- One candidate step of the Knight/King cases of page.tsx. -/
def stepAdd (b : Board) (pw : Bool) (acc : List (Nat × Nat)) (nr nc : Int) :
    List (Nat × Nat) :=
  if 0 ≤ nr ∧ nr ≤ 7 ∧ 0 ≤ nc ∧ nc ≤ 7 then
    match b nr.toNat nc.toNat with
    | none => acc ++ [(nr.toNat, nc.toNat)]
    | some t => if t.isWhite ≠ pw then acc ++ [(nr.toNat, nc.toNat)] else acc
  else acc

/-- The `PieceType.PAWN` case of page.tsx (lines 257-283): forward move onto
an empty square (with the double move nested inside), then the two diagonal
captures. -/
def pawnMoves (b : Board) (piece : ChessPiece) (row col : Nat) :
    List (Nat × Nat) :=
  let direction : Int := if piece.isWhite then -1 else 1
  let startRow : Nat := if piece.isWhite then 6 else 1
  let acc0 : List (Nat × Nat) := []
  let acc1 :=
    if 0 ≤ (row : Int) + direction ∧ (row : Int) + direction ≤ 7 ∧
        b ((row : Int) + direction).toNat col = none then
      let acc0' := acc0 ++ [(((row : Int) + direction).toNat, col)]
      if row = startRow ∧ b ((row : Int) + 2 * direction).toNat col = none then
        acc0' ++ [(((row : Int) + 2 * direction).toNat, col)]
      else acc0'
    else acc0
  ([(-1 : Int), 1]).foldl (fun acc dc =>
    if 0 ≤ (row : Int) + direction ∧ (row : Int) + direction ≤ 7 ∧
        0 ≤ (col : Int) + dc ∧ (col : Int) + dc ≤ 7 then
      match b ((row : Int) + direction).toNat ((col : Int) + dc).toNat with
      | some t =>
        if t.isWhite ≠ piece.isWhite then
          acc ++ [(((row : Int) + direction).toNat, ((col : Int) + dc).toNat)]
        else acc
      | none => acc
    else acc) acc1

/-- `calculatePossibleMoves(board, position, piece)` of page.tsx. -/
def calculatePossibleMoves (b : Board) (row col : Nat) (piece : ChessPiece) :
    List (Nat × Nat) :=
  match piece.type with
  | PieceType.PAWN => pawnMoves b piece row col
  | PieceType.ROOK =>
    rookDirections.foldl
      (fun acc d => slideGo b piece.isWhite row col d.1 d.2 7 1 acc) []
  | PieceType.BISHOP =>
    bishopDirections.foldl
      (fun acc d => slideGo b piece.isWhite row col d.1 d.2 7 1 acc) []
  | PieceType.KNIGHT =>
    knightOffsets.foldl
      (fun acc d => stepAdd b piece.isWhite acc ((row : Int) + d.1)
        ((col : Int) + d.2)) []
  | PieceType.QUEEN =>
    queenDirections.foldl
      (fun acc d => slideGo b piece.isWhite row col d.1 d.2 7 1 acc) []
  | PieceType.KING =>
    kingOffsets.foldl
      (fun acc d => stepAdd b piece.isWhite acc ((row : Int) + d.1)
        ((col : Int) + d.2)) []

theorem slideGo_mem (b : Board) (pw : Bool) (row col : Nat) (dr dc : Int)
    (fuel : Nat) :
    ∀ (i : Nat) (acc : List (Nat × Nat)) (q : Nat × Nat),
      q ∈ slideGo b pw row col dr dc fuel i acc ↔
        q ∈ acc ∨
          ∃ k, i ≤ k ∧ k < i + fuel ∧
            (∀ j, i ≤ j → j < k → rayEmpty b row col dr dc j) ∧
            rayDest b pw row col dr dc k ∧ q = raySq row col dr dc k := by
  induction fuel with
  | zero =>
    intro i acc q
    constructor
    · exact Or.inl
    · rintro (h | ⟨k, h1, h2, _⟩)
      · exact h
      · omega
  | succ fuel ih =>
    intro i acc q
    show q ∈ (if ((row : Int) + dr * i) < 0 ∨ ((row : Int) + dr * i) > 7 ∨
        ((col : Int) + dc * i) < 0 ∨ ((col : Int) + dc * i) > 7 then acc
      else
        match b ((row : Int) + dr * i).toNat ((col : Int) + dc * i).toNat with
        | none =>
          slideGo b pw row col dr dc fuel (i + 1)
            (acc ++ [(((row : Int) + dr * i).toNat,
              ((col : Int) + dc * i).toNat)])
        | some target =>
          if target.isWhite ≠ pw then
            acc ++ [(((row : Int) + dr * i).toNat,
              ((col : Int) + dc * i).toNat)]
          else acc) ↔ _
    by_cases hout : ((row : Int) + dr * i) < 0 ∨ ((row : Int) + dr * i) > 7 ∨
        ((col : Int) + dc * i) < 0 ∨ ((col : Int) + dc * i) > 7
    · rw [if_pos hout]
      constructor
      · exact Or.inl
      · rintro (h | ⟨k, hik, hk, hemp, hdst, rfl⟩)
        · exact h
        · exfalso
          have hir : rayInRange row col dr dc i := by
            rcases Nat.lt_or_ge i k with hlt | hge
            · exact (hemp i le_rfl hlt).1
            · have : k = i := by omega
              subst this
              exact hdst.1
          unfold rayInRange at hir
          omega
    · rw [if_neg hout]
      cases hbt : b ((row : Int) + dr * i).toNat ((col : Int) + dc * i).toNat with
      | none =>
        dsimp only
        rw [ih]
        simp only [List.mem_append, List.mem_singleton]
        constructor
        · rintro ((h | h) | ⟨k, h1, h2, hemp, hdst, rfl⟩)
          · exact Or.inl h
          · refine Or.inr ⟨i, le_rfl, by omega, fun j hj1 hj2 => by omega,
              ⟨by unfold rayInRange; omega, Or.inl hbt⟩, h⟩
          · refine Or.inr ⟨k, by omega, by omega, ?_, hdst, rfl⟩
            intro j hj1 hj2
            rcases Nat.lt_or_ge j (i + 1) with hj | hj
            · have : j = i := by omega
              subst this
              exact ⟨by unfold rayInRange; omega, hbt⟩
            · exact hemp j hj hj2
        · rintro (h | ⟨k, h1, h2, hemp, hdst, rfl⟩)
          · exact Or.inl (Or.inl h)
          · rcases Nat.lt_or_ge i k with hlt | hge
            · exact Or.inr ⟨k, by omega, by omega,
                fun j hj1 hj2 => hemp j (by omega) hj2, hdst, rfl⟩
            · have : k = i := by omega
              subst this
              exact Or.inl (Or.inr rfl)
      | some t =>
        dsimp only
        by_cases hcap : t.isWhite ≠ pw
        · rw [if_pos hcap]
          simp only [List.mem_append, List.mem_singleton]
          constructor
          · rintro (h | h)
            · exact Or.inl h
            · refine Or.inr ⟨i, le_rfl, by omega, fun j hj1 hj2 => by omega,
                ⟨by unfold rayInRange; omega, Or.inr ⟨t, hbt, hcap⟩⟩, h⟩
          · rintro (h | ⟨k, h1, h2, hemp, hdst, rfl⟩)
            · exact Or.inl h
            · rcases Nat.lt_or_ge i k with hlt | hge
              · have hbn : b ((row : Int) + dr * i).toNat
                    ((col : Int) + dc * i).toNat = none :=
                  (hemp i le_rfl hlt).2
                rw [hbn] at hbt
                exact Option.noConfusion hbt
              · have : k = i := by omega
                subst this
                exact Or.inr rfl
        · rw [if_neg hcap]
          constructor
          · exact Or.inl
          · rintro (h | ⟨k, h1, h2, hemp, hdst, rfl⟩)
            · exact h
            · exfalso
              rcases Nat.lt_or_ge i k with hlt | hge
              · have hbn : b ((row : Int) + dr * i).toNat
                    ((col : Int) + dc * i).toNat = none :=
                  (hemp i le_rfl hlt).2
                rw [hbn] at hbt
                exact Option.noConfusion hbt
              · have : k = i := by omega
                subst this
                rcases hdst.2 with hnone | ⟨t2, hbt2, hne2⟩
                · have hbn : b ((row : Int) + dr * k).toNat
                      ((col : Int) + dc * k).toNat = none := hnone
                  rw [hbn] at hbt
                  exact Option.noConfusion hbt
                · have hbs : b ((row : Int) + dr * k).toNat
                      ((col : Int) + dc * k).toNat = some t2 := hbt2
                  rw [hbs] at hbt
                  injection hbt with hbt
                  subst hbt
                  exact hcap hne2

theorem foldSlide_mem (b : Board) (pw : Bool) (row col : Nat)
    (dirs : List (Int × Int)) :
    ∀ (acc : List (Nat × Nat)) (q : Nat × Nat),
      q ∈ dirs.foldl (fun a d => slideGo b pw row col d.1 d.2 7 1 a) acc ↔
        q ∈ acc ∨
          ∃ d ∈ dirs, ∃ k, 1 ≤ k ∧ k < 8 ∧
            (∀ j, 1 ≤ j → j < k → rayEmpty b row col d.1 d.2 j) ∧
            rayDest b pw row col d.1 d.2 k ∧ q = raySq row col d.1 d.2 k := by
  induction dirs with
  | nil =>
    intro acc q
    simp
  | cons d dirs ih =>
    intro acc q
    rw [List.foldl_cons, ih, slideGo_mem]
    simp only [List.mem_cons]
    constructor
    · rintro ((h | ⟨k, h1, h2, hemp, hdst, rfl⟩) | ⟨d2, hd2, hray⟩)
      · exact Or.inl h
      · exact Or.inr ⟨d, Or.inl rfl, k, h1, by omega, hemp, hdst, rfl⟩
      · exact Or.inr ⟨d2, Or.inr hd2, hray⟩
    · rintro (h | ⟨d2, (rfl | hd2), hray⟩)
      · exact Or.inl (Or.inl h)
      · obtain ⟨k, h1, h2, hemp, hdst, rfl⟩ := hray
        exact Or.inl (Or.inr ⟨k, h1, by omega, hemp, hdst, rfl⟩)
      · exact Or.inr ⟨d2, hd2, hray⟩

end Page

/-- C7: with fog disabled (page.tsx has no fog mode), move generation for
Bishop/Rook/Queen walks each direction one square at a time: a square `k`
steps out is a destination iff every earlier square on the ray is on the
board and empty and the square itself is on the board and empty or holds an
opposing piece — so every empty square before the first occupied square is
included, the first occupied square is included iff it is opposing, and the
ray never goes past it.  On an otherwise empty board a Rook at the centre
has exactly 14 destinations, a Knight 8, a King 8, and a Bishop in a corner
7. -/
theorem C7_page_generator :
    (∀ (b : Board) (row col : Nat) (piece : ChessPiece),
      (piece.type = PieceType.ROOK ∨ piece.type = PieceType.BISHOP ∨
        piece.type = PieceType.QUEEN) →
      ∀ q : Nat × Nat,
        (q ∈ Page.calculatePossibleMoves b row col piece ↔
          ∃ d ∈ pieceDirections piece.type, ∃ k, 1 ≤ k ∧ k < 8 ∧
            (∀ j, 1 ≤ j → j < k → Page.rayEmpty b row col d.1 d.2 j) ∧
            Page.rayDest b piece.isWhite row col d.1 d.2 k ∧
            q = raySq row col d.1 d.2 k)) ∧
    (Page.calculatePossibleMoves emptyBoard 4 4
      ⟨PieceType.ROOK, true⟩).length = 14 ∧
    (Page.calculatePossibleMoves emptyBoard 4 4
      ⟨PieceType.KNIGHT, true⟩).length = 8 ∧
    (Page.calculatePossibleMoves emptyBoard 4 4
      ⟨PieceType.KING, true⟩).length = 8 ∧
    (Page.calculatePossibleMoves emptyBoard 7 7
      ⟨PieceType.BISHOP, true⟩).length = 7 := by
  refine ⟨?_, by decide, by decide, by decide, by decide⟩
  intro b row col piece hs q
  have he : Page.calculatePossibleMoves b row col piece =
      (pieceDirections piece.type).foldl
        (fun acc d => Page.slideGo b piece.isWhite row col d.1 d.2 7 1 acc)
        [] := by
    rcases hs with h | h | h <;>
      simp [Page.calculatePossibleMoves, pieceDirections, h]
  rw [he, Page.foldSlide_mem]
  constructor
  · rintro (h | h)
    · exact absurd h (by simp)
    · exact h
  · exact Or.inr

/-- Witness for C7: the characterisation applied to the rook on the empty
board at `(4,4)` and the candidate square `(4,7)`. -/
theorem C7_page_generator_witness :
    (4, 7) ∈ Page.calculatePossibleMoves emptyBoard 4 4
        ⟨PieceType.ROOK, true⟩ ↔
      ∃ d ∈ pieceDirections PieceType.ROOK, ∃ k, 1 ≤ k ∧ k < 8 ∧
        (∀ j, 1 ≤ j → j < k → Page.rayEmpty emptyBoard 4 4 d.1 d.2 j) ∧
        Page.rayDest emptyBoard true 4 4 d.1 d.2 k ∧
        ((4, 7) : Nat × Nat) = raySq 4 4 d.1 d.2 k :=
  C7_page_generator.1 emptyBoard 4 4 ⟨PieceType.ROOK, true⟩ (Or.inl rfl) (4, 7)

/-! ## Game state and the fog move resolution

Embeds the component state of part_002 (the engine's authoritative copy) and
`executeFogMove` (part_002 lines 539-588, identical in money-chess-game.tsx
lines 985-1034). -/

/-- Game phases.  part_002 uses `GAME_SETUP/SETUP/PLAYING`;
money-chess-game.tsx additionally has `GAME_OVER`. -/
inductive GamePhase where
  | GAME_SETUP
  | SETUP
  | PLAYING
  | GAME_OVER
deriving DecidableEq, Repr

/-- A saved drafting layout, from the `SavedSetup` interface. -/
structure SavedSetup where
  name : String
  board : Board
  budget : Nat
  isWhite : Bool

/-- The engine-relevant component state of part_002: board, budgets, the
active side (`currentPlayer`, true = White), setup-completion flags, phase,
timer, the fog flag, the status text and the saved layouts. -/
structure GameState where
  board : Board
  whiteBudget : Nat
  blackBudget : Nat
  currentPlayer : Bool
  whiteSetupComplete : Bool
  blackSetupComplete : Bool
  gamePhase : GamePhase
  timeRemaining : Nat
  moveTimeLimit : Nat
  fogOfWarEnabled : Bool
  gameStatus : String
  savedSetups : List SavedSetup

/-- Does `side` have a King on the board?  (`board.some(row => row.some(...))`
in the source.) -/
def hasKing (b : Board) (side : Bool) : Prop :=
  ∃ r, r < 8 ∧ ∃ c, c < 8 ∧ b r c = some ⟨PieceType.KING, side⟩

instance (b : Board) (side : Bool) : Decidable (hasKing b side) := by
  unfold hasKing
  infer_instance

/-- `checkGameStatus(board, currentPlayer)` of part_002 (lines 511-537) and
page.tsx (lines 422-448): `nextIsWhite` is the side about to move (the
defender).  If the defender's King is missing the mover is declared winner in
the status text; otherwise the status is cleared. -/
def checkGameStatus (b : Board) (nextIsWhite : Bool) : String :=
  if nextIsWhite ∧ ¬hasKing b true then "Black wins! White king captured."
  else if ¬nextIsWhite ∧ ¬hasKing b false then "White wins! Black king captured."
  else ""

/-- `checkGameStatus(board, nextPlayerTurn)` of money-chess-game.tsx (lines
946-983): returns the new status text and phase.  Note the branches test the
king of the side whose turn just ended (the mover), not the defender: after
White's move (`nextPlayerTurn = black`) it looks for the White king. -/
def MCcheckGameStatus (b : Board) (nextIsWhite : Bool) : String × GamePhase :=
  if ¬nextIsWhite ∧ ¬hasKing b true then
    ("Black wins! White king captured.", GamePhase.GAME_OVER)
  else if nextIsWhite ∧ ¬hasKing b false then
    ("White wins! Black king captured.", GamePhase.GAME_OVER)
  else ("", GamePhase.PLAYING)

/-- `delta === 0 ? 0 : delta / Math.abs(delta)` of `executeFogMove`. -/
def intSign (x : Int) : Int := if x = 0 then 0 else x / |x|

/-- The `while` trace loop of `executeFogMove`: walk from the square after
`from` toward `to` (the loop exits when the cursor passes `to`), break at the
board edge, and return the first square holding an opposing piece.  `fuel`
bounds the iteration count (the source loop always exits within 9 steps for
the inputs it receives). -/
def fogLoop (b : Board) (pw : Bool) (dirRow dirCol limRow limCol : Int) :
    Nat → Int → Int → Option (Nat × Nat)
  | 0, _, _ => none
  | fuel + 1, curRow, curCol =>
    if curRow = limRow ∧ curCol = limCol then none
    else if curRow < 0 ∨ curRow > 7 ∨ curCol < 0 ∨ curCol > 7 then none
    else
      match b curRow.toNat curCol.toNat with
      | some q =>
        if q.isWhite ≠ pw then some (curRow.toNat, curCol.toNat)
        else
          fogLoop b pw dirRow dirCol limRow limCol fuel (curRow + dirRow)
            (curCol + dirCol)
      | none =>
        fogLoop b pw dirRow dirCol limRow limCol fuel (curRow + dirRow)
          (curCol + dirCol)

/-- `executeFogMove(fromPos, toPos, piece)`: King/Knight/Pawn land on the
intended square (the pawn diagonal check returns the target either way); for
sliding pieces the path is traced and the first opposing piece found is the
landing square, else the intended square. -/
def executeFogMove (b : Board) (fromRow fromCol toRow toCol : Nat)
    (piece : ChessPiece) : Nat × Nat :=
  if piece.type = PieceType.KING ∨ piece.type = PieceType.KNIGHT ∨
      piece.type = PieceType.PAWN then
    if piece.type = PieceType.PAWN then
      if ((toCol : Int) - (fromCol : Int)).natAbs = 1 then
        match b toRow toCol with
        | some target =>
          if target.isWhite ≠ piece.isWhite then (toRow, toCol)
          else (toRow, toCol)
        | none => (toRow, toCol)
      else (toRow, toCol)
    else (toRow, toCol)
  else
    match fogLoop b piece.isWhite (intSign ((toRow : Int) - (fromRow : Int)))
        (intSign ((toCol : Int) - (fromCol : Int)))
        ((toRow : Int) + intSign ((toRow : Int) - (fromRow : Int)))
        ((toCol : Int) + intSign ((toCol : Int) - (fromCol : Int))) 16
        ((fromRow : Int) + intSign ((toRow : Int) - (fromRow : Int)))
        ((fromCol : Int) + intSign ((toCol : Int) - (fromCol : Int))) with
    | some p => p
    | none => (toRow, toCol)

theorem fogLoop_some_props (b : Board) (pw : Bool) (d1 d2 l1 l2 : Int) :
    ∀ (fuel : Nat) (curR curC : Int) (q : Nat × Nat),
      fogLoop b pw d1 d2 l1 l2 fuel curR curC = some q →
      q.1 < 8 ∧ q.2 < 8 ∧ ∃ t, b q.1 q.2 = some t ∧ t.isWhite ≠ pw := by
  intro fuel
  induction fuel with
  | zero =>
    intro curR curC q h
    exact Option.noConfusion h
  | succ fuel ih =>
    intro curR curC q h
    unfold fogLoop at h
    split at h
    · exact Option.noConfusion h
    · split at h
      · exact Option.noConfusion h
      · rename_i hlim hout
        revert h
        cases hbt : b curR.toNat curC.toNat with
        | none =>
          intro h
          dsimp only at h
          exact ih _ _ _ h
        | some t =>
          intro h
          dsimp only at h
          by_cases hne : t.isWhite ≠ pw
          · rw [if_pos hne] at h
            injection h with h
            subst h
            exact ⟨by omega, by omega, t, hbt, hne⟩
          · rw [if_neg hne] at h
            exact ih _ _ _ h

theorem executeFogMove_result (b : Board) (piece : ChessPiece)
    (fromRow fromCol toRow toCol : Nat) :
    executeFogMove b fromRow fromCol toRow toCol piece = (toRow, toCol) ∨
      ∃ q, executeFogMove b fromRow fromCol toRow toCol piece = q ∧
        q.1 < 8 ∧ q.2 < 8 ∧ ∃ t, b q.1 q.2 = some t ∧ t.isWhite ≠ piece.isWhite := by
  unfold executeFogMove
  split
  · split
    · split
      · cases hbt : b toRow toCol with
        | none => exact Or.inl rfl
        | some target =>
          dsimp only
          split
          · exact Or.inl rfl
          · exact Or.inl rfl
      · exact Or.inl rfl
    · exact Or.inl rfl
  · cases hloop : fogLoop b piece.isWhite
        (intSign ((toRow : Int) - (fromRow : Int)))
        (intSign ((toCol : Int) - (fromCol : Int)))
        ((toRow : Int) + intSign ((toRow : Int) - (fromRow : Int)))
        ((toCol : Int) + intSign ((toCol : Int) - (fromCol : Int))) 16
        ((fromRow : Int) + intSign ((toRow : Int) - (fromRow : Int)))
        ((fromCol : Int) + intSign ((toCol : Int) - (fromCol : Int))) with
    | none => exact Or.inl rfl
    | some p =>
      right
      refine ⟨p, rfl, ?_⟩
      exact fogLoop_some_props b piece.isWhite _ _ _ _ 16 _ _ p hloop

/-- The resolved landing square of the PLAYING-branch click handler
(part_002 lines 667-672): a fogged target with fog-of-war enabled is resolved
by `executeFogMove`, otherwise the clicked square itself. -/
def resolvedLanding (fog : Bool) (b : Board) (fromRow fromCol toRow toCol : Nat)
    (p : ChessPiece) : Nat × Nat :=
  if (toRow, toCol) ∈ (calculatePossibleMoves fog b fromRow fromCol p).fogMoves ∧
      fog = true then
    executeFogMove b fromRow fromCol toRow toCol p
  else (toRow, toCol)

/-- The PLAYING-phase branch of `handleSquareClick` (part_002 lines 657-689)
as a state transformer: requires a piece at `from` and the clicked square
among its possible moves; writes `null` at `from` and the moving piece at the
resolved landing square, toggles the turn, resets the timer (the
turn-change effect of part_002 lines 131-135) and recomputes the status. -/
def applyPlayingMove (st : GameState) (fromRow fromCol toRow toCol : Nat) :
    GameState :=
  match st.board fromRow fromCol with
  | none => st
  | some movingPiece =>
    if (toRow, toCol) ∈ (calculatePossibleMoves st.fogOfWarEnabled st.board
          fromRow fromCol movingPiece).visibleMoves ∨
        (toRow, toCol) ∈ (calculatePossibleMoves st.fogOfWarEnabled st.board
          fromRow fromCol movingPiece).fogMoves then
      let final := resolvedLanding st.fogOfWarEnabled st.board fromRow fromCol
        toRow toCol movingPiece
      let b2 := setSq (setSq st.board fromRow fromCol none) final.1 final.2
        (some movingPiece)
      { st with
        board := b2,
        currentPlayer := !st.currentPlayer,
        timeRemaining := st.moveTimeLimit,
        gameStatus := checkGameStatus b2 (!st.currentPlayer) }
    else st

theorem applyPlayingMove_eq (st : GameState) (fromRow fromCol toRow toCol : Nat)
    (p : ChessPiece) (hb : st.board fromRow fromCol = some p)
    (hmem : (toRow, toCol) ∈ (calculatePossibleMoves st.fogOfWarEnabled st.board
        fromRow fromCol p).visibleMoves ∨
      (toRow, toCol) ∈ (calculatePossibleMoves st.fogOfWarEnabled st.board
        fromRow fromCol p).fogMoves) :
    applyPlayingMove st fromRow fromCol toRow toCol =
      { st with
        board := setSq (setSq st.board fromRow fromCol none)
          (resolvedLanding st.fogOfWarEnabled st.board fromRow fromCol toRow
            toCol p).1
          (resolvedLanding st.fogOfWarEnabled st.board fromRow fromCol toRow
            toCol p).2 (some p),
        currentPlayer := !st.currentPlayer,
        timeRemaining := st.moveTimeLimit,
        gameStatus := checkGameStatus
          (setSq (setSq st.board fromRow fromCol none)
            (resolvedLanding st.fogOfWarEnabled st.board fromRow fromCol toRow
              toCol p).1
            (resolvedLanding st.fogOfWarEnabled st.board fromRow fromCol toRow
              toCol p).2 (some p)) (!st.currentPlayer) } := by
  unfold applyPlayingMove
  rw [hb]
  dsimp only
  rw [if_pos hmem]

/-- The board cell at the resolved landing square is empty or holds an
opposing piece (never a piece of the moving side). -/
theorem resolvedLanding_not_friendly (st : GameState)
    (fromRow fromCol toRow toCol : Nat) (p : ChessPiece)
    (hfr : fromRow < 8) (hfc : fromCol < 8)
    (hb : st.board fromRow fromCol = some p)
    (hmem : (toRow, toCol) ∈ (calculatePossibleMoves st.fogOfWarEnabled st.board
        fromRow fromCol p).visibleMoves ∨
      (toRow, toCol) ∈ (calculatePossibleMoves st.fogOfWarEnabled st.board
        fromRow fromCol p).fogMoves) :
    (resolvedLanding st.fogOfWarEnabled st.board fromRow fromCol toRow toCol
        p).1 < 8 ∧
    (resolvedLanding st.fogOfWarEnabled st.board fromRow fromCol toRow toCol
        p).2 < 8 ∧
    (st.board (resolvedLanding st.fogOfWarEnabled st.board fromRow fromCol
        toRow toCol p).1
      (resolvedLanding st.fogOfWarEnabled st.board fromRow fromCol toRow toCol
        p).2 = none ∨
      ∃ t, st.board (resolvedLanding st.fogOfWarEnabled st.board fromRow
          fromCol toRow toCol p).1
        (resolvedLanding st.fogOfWarEnabled st.board fromRow fromCol toRow
          toCol p).2 = some t ∧ t.isWhite ≠ p.isWhite) := by
  unfold resolvedLanding
  split
  · rename_i hguard
    obtain ⟨hfog, hfogon⟩ := hguard
    rcases executeFogMove_result st.board p fromRow fromCol toRow toCol with
      heq | ⟨q, heq, hq1, hq2, t, hbt, hne⟩
    · rw [heq]
      have hprops := fog_mem_props st.fogOfWarEnabled st.board fromRow fromCol
        p hfc (toRow, toCol) hfog
      refine ⟨hprops.1, hprops.2.1, ?_⟩
      cases hb2 : st.board toRow toCol with
      | none => exact Or.inl rfl
      | some t =>
        refine Or.inr ⟨t, rfl, ?_⟩
        exact not_own_piece_of_not_visible st.fogOfWarEnabled st.board
          p.isWhite toRow toCol hprops.1 hprops.2.1
          (by rw [hprops.2.2]; simp) t hb2
    · rw [heq]
      exact ⟨hq1, hq2, Or.inr ⟨t, hbt, hne⟩⟩
  · rename_i hguard
    have hvism : (toRow, toCol) ∈ (calculatePossibleMoves st.fogOfWarEnabled
        st.board fromRow fromCol p).visibleMoves := by
      rcases hmem with h | h
      · exact h
      · exfalso
        by_cases hfg : st.fogOfWarEnabled = true
        · exact hguard ⟨h, hfg⟩
        · have hfalse : st.fogOfWarEnabled = false := by
            cases hfgv : st.fogOfWarEnabled
            · rfl
            · exact absurd hfgv hfg
          have hprops := fog_mem_props st.fogOfWarEnabled st.board fromRow
            fromCol p hfc (toRow, toCol) h
          rw [hfalse] at hprops
          have : calculateVisibleSquares false st.board p.isWhite toRow toCol
              = true := by
            simp [calculateVisibleSquares]
          rw [this] at hprops
          exact absurd hprops.2.2 (by simp)
    have hprops := vis_mem_props st.fogOfWarEnabled st.board fromRow fromCol p
      hfc (toRow, toCol) hvism
    exact ⟨hprops.1, hprops.2.1, hprops.2.2.2⟩

/-- C10: applying a PLAYING-phase move changes exactly two board squares —
the origin becomes empty and the resolved landing square comes to hold the
moving piece, unconditionally overwriting its previous contents (which are
never a piece of the moving side when the board and move agree); all other
squares, both budgets and both setup-completion flags are unchanged. -/
theorem C10_move_frame (st : GameState) (fromRow fromCol toRow toCol : Nat)
    (p : ChessPiece) (hfr : fromRow < 8) (hfc : fromCol < 8)
    (hb : st.board fromRow fromCol = some p)
    (hmem : (toRow, toCol) ∈ (calculatePossibleMoves st.fogOfWarEnabled st.board
        fromRow fromCol p).visibleMoves ∨
      (toRow, toCol) ∈ (calculatePossibleMoves st.fogOfWarEnabled st.board
        fromRow fromCol p).fogMoves) :
    ¬(fromRow = (resolvedLanding st.fogOfWarEnabled st.board fromRow fromCol
        toRow toCol p).1 ∧
      fromCol = (resolvedLanding st.fogOfWarEnabled st.board fromRow fromCol
        toRow toCol p).2) ∧
    (applyPlayingMove st fromRow fromCol toRow toCol).board fromRow fromCol
      = none ∧
    (applyPlayingMove st fromRow fromCol toRow toCol).board
      (resolvedLanding st.fogOfWarEnabled st.board fromRow fromCol toRow toCol
        p).1
      (resolvedLanding st.fogOfWarEnabled st.board fromRow fromCol toRow toCol
        p).2 = some p ∧
    (st.board (resolvedLanding st.fogOfWarEnabled st.board fromRow fromCol
        toRow toCol p).1
      (resolvedLanding st.fogOfWarEnabled st.board fromRow fromCol toRow toCol
        p).2 ≠ some p) ∧
    (∀ r c : Nat, ¬(r = fromRow ∧ c = fromCol) →
      ¬(r = (resolvedLanding st.fogOfWarEnabled st.board fromRow fromCol toRow
          toCol p).1 ∧
        c = (resolvedLanding st.fogOfWarEnabled st.board fromRow fromCol toRow
          toCol p).2) →
      (applyPlayingMove st fromRow fromCol toRow toCol).board r c
        = st.board r c) ∧
    (applyPlayingMove st fromRow fromCol toRow toCol).whiteBudget
      = st.whiteBudget ∧
    (applyPlayingMove st fromRow fromCol toRow toCol).blackBudget
      = st.blackBudget ∧
    (applyPlayingMove st fromRow fromCol toRow toCol).whiteSetupComplete
      = st.whiteSetupComplete ∧
    (applyPlayingMove st fromRow fromCol toRow toCol).blackSetupComplete
      = st.blackSetupComplete := by
  have hland := resolvedLanding_not_friendly st fromRow fromCol toRow toCol p
    hfr hfc hb hmem
  have hnf : ¬(fromRow = (resolvedLanding st.fogOfWarEnabled st.board fromRow
      fromCol toRow toCol p).1 ∧
      fromCol = (resolvedLanding st.fogOfWarEnabled st.board fromRow fromCol
        toRow toCol p).2) := by
    rintro ⟨h1, h2⟩
    rcases hland.2.2 with hnone | ⟨t, hbt, hne⟩
    · rw [← h1, ← h2, hb] at hnone
      exact Option.noConfusion hnone
    · rw [← h1, ← h2, hb] at hbt
      injection hbt with hbt
      subst hbt
      exact hne rfl
  rw [applyPlayingMove_eq st fromRow fromCol toRow toCol p hb hmem]
  dsimp only
  refine ⟨hnf, ?_, ?_, ?_, ?_, rfl, rfl, rfl, rfl⟩
  · rw [setSq_other _ _ _ _ _ _ (by
      intro hx
      exact hnf ⟨hx.1, hx.2⟩)]
    exact setSq_same _ _ _ _
  · exact setSq_same _ _ _ _
  · rcases hland.2.2 with hnone | ⟨t, hbt, hne⟩
    · rw [hnone]
      exact fun hx => Option.noConfusion hx
    · rw [hbt]
      intro hx
      injection hx with hx
      subst hx
      exact hne rfl
  · intro r c hor hres
    rw [setSq_other _ _ _ _ _ _ hres, setSq_other _ _ _ _ _ _ hor]

/-- The concrete PLAYING state used as witness for C10: fog on, White rook at
`(4,0)`, hidden Black pawn at `(4,5)`. -/
def playingWitnessState : GameState :=
  { board := fogWitnessBoard,
    whiteBudget := 34,
    blackBudget := 38,
    currentPlayer := true,
    whiteSetupComplete := true,
    blackSetupComplete := true,
    gamePhase := GamePhase.PLAYING,
    timeRemaining := 300,
    moveTimeLimit := 300,
    fogOfWarEnabled := true,
    gameStatus := "",
    savedSetups := [] }

/-- Witness for C10: the frame theorem applied to the concrete fogged rook
move from `(4,0)` to `(4,7)` on `playingWitnessState`. -/
theorem C10_move_frame_witness :
    (applyPlayingMove playingWitnessState 4 0 4 7).board 4 0 = none ∧
    (applyPlayingMove playingWitnessState 4 0 4 7).board
      (resolvedLanding playingWitnessState.fogOfWarEnabled
        playingWitnessState.board 4 0 4 7 ⟨PieceType.ROOK, true⟩).1
      (resolvedLanding playingWitnessState.fogOfWarEnabled
        playingWitnessState.board 4 0 4 7 ⟨PieceType.ROOK, true⟩).2
      = some ⟨PieceType.ROOK, true⟩ ∧
    (applyPlayingMove playingWitnessState 4 0 4 7).whiteBudget
      = playingWitnessState.whiteBudget := by
  have h := C10_move_frame playingWitnessState 4 0 4 7 ⟨PieceType.ROOK, true⟩
    (by decide) (by decide) (by decide) (Or.inr (by decide))
  exact ⟨h.2.1, h.2.2.1, h.2.2.2.2.2.1⟩

/-! ### The spec-side description of fog resolution (claim C1) -/

/-- Search for the first occupied square along a ray, starting at step `j`,
for `n` more steps. -/
def firstOccupied (b : Board) (row col : Nat) (dr dc : Int) :
    Nat → Nat → Option (Nat × Nat)
  | 0, _ => none
  | n + 1, j =>
    if (b (raySq row col dr dc j).1 (raySq row col dr dc j).2).isSome then
      some (raySq row col dr dc j)
    else firstOccupied b row col dr dc n (j + 1)

/-- Stated from the claim's wording (C1), for comparison with
`executeFogMove`: the first occupied square along the straight path from
`from` toward `to` (the squares strictly after `from`, up to and including
`to`), or `to` itself if no square on the path is occupied. -/
def specFogLanding (b : Board) (fromRow fromCol toRow toCol : Nat) :
    Nat × Nat :=
  (firstOccupied b fromRow fromCol
      (intSign ((toRow : Int) - (fromRow : Int)))
      (intSign ((toCol : Int) - (fromCol : Int)))
      (max ((toRow : Int) - (fromRow : Int)).natAbs
        ((toCol : Int) - (fromCol : Int)).natAbs) 1).getD (toRow, toCol)

theorem intSign_pos (x : Int) (h : 0 < x) : intSign x = 1 := by
  unfold intSign
  rw [if_neg (by omega), abs_of_pos h]
  exact Int.ediv_self (by omega)

theorem intSign_neg (x : Int) (h : x < 0) : intSign x = -1 := by
  unfold intSign
  rw [if_neg (by omega), abs_of_neg h, Int.ediv_neg, Int.ediv_self (by omega)]

theorem intSign_mul_unit (d : Int) (k : Nat)
    (hd : d = -1 ∨ d = 0 ∨ d = 1) (hk : 1 ≤ k) : intSign (d * k) = d := by
  rcases hd with rfl | rfl | rfl
  · rw [intSign_neg]
    omega
  · simp [intSign]
  · rw [intSign_pos]
    omega

theorem max_natAbs_mul_unit (d1 d2 : Int) (k : Nat)
    (h1 : d1 = -1 ∨ d1 = 0 ∨ d1 = 1) (h2 : d2 = -1 ∨ d2 = 0 ∨ d2 = 1)
    (hnz : ¬(d1 = 0 ∧ d2 = 0)) :
    max (d1 * k).natAbs (d2 * k).natAbs = k := by
  rcases h1 with rfl | rfl | rfl <;> rcases h2 with rfl | rfl | rfl <;> omega

theorem pieceDirections_units (ty : PieceType) (d : Int × Int)
    (hd : d ∈ pieceDirections ty) :
    (d.1 = -1 ∨ d.1 = 0 ∨ d.1 = 1) ∧ (d.2 = -1 ∨ d.2 = 0 ∨ d.2 = 1) ∧
      ¬(d.1 = 0 ∧ d.2 = 0) := by
  cases ty <;>
    simp only [pieceDirections, rookDirections, bishopDirections,
      queenDirections, List.mem_cons, List.not_mem_nil, or_false] at hd
  case ROOK => rcases hd with rfl | rfl | rfl | rfl <;> decide
  case BISHOP => rcases hd with rfl | rfl | rfl | rfl <;> decide
  case QUEEN =>
    rcases hd with rfl | rfl | rfl | rfl | rfl | rfl | rfl | rfl <;> decide

theorem fogLoop_eq_firstOccupied (b : Board) (pw : Bool)
    (fromRow fromCol : Nat) (d1 d2 : Int) (k : Nat)
    (hd1 : d1 = -1 ∨ d1 = 0 ∨ d1 = 1) (hd2 : d2 = -1 ∨ d2 = 0 ∨ d2 = 1)
    (hdnz : ¬(d1 = 0 ∧ d2 = 0))
    (hbnd : ∀ j, 1 ≤ j → j ≤ k → rayInRange fromRow fromCol d1 d2 j)
    (hocc : ∀ j, 1 ≤ j → j ≤ k → ∀ t,
      b (raySq fromRow fromCol d1 d2 j).1 (raySq fromRow fromCol d1 d2 j).2
        = some t → t.isWhite ≠ pw) :
    ∀ (n j fuel : Nat), 1 ≤ j → j + n = k + 1 → n + 1 ≤ fuel →
      fogLoop b pw d1 d2 ((fromRow : Int) + d1 * ((k : Int) + 1))
          ((fromCol : Int) + d2 * ((k : Int) + 1)) fuel
          ((fromRow : Int) + d1 * j) ((fromCol : Int) + d2 * j)
        = firstOccupied b fromRow fromCol d1 d2 n j := by
  intro n
  induction n with
  | zero =>
    intro j fuel hj1 hjn hfuel
    have hj : j = k + 1 := by omega
    subst hj
    obtain ⟨f, rfl⟩ : ∃ f, fuel = f + 1 := ⟨fuel - 1, by omega⟩
    unfold fogLoop
    rw [if_pos ⟨by push_cast; ring, by push_cast; ring⟩]
    rfl
  | succ n ih =>
    intro j fuel hj1 hjn hfuel
    obtain ⟨f, rfl⟩ : ∃ f, fuel = f + 1 := ⟨fuel - 1, by omega⟩
    have hjk : j ≤ k := by omega
    have hlim : ¬(((fromRow : Int) + d1 * j = (fromRow : Int) + d1 * ((k : Int) + 1)) ∧
        ((fromCol : Int) + d2 * j = (fromCol : Int) + d2 * ((k : Int) + 1))) := by
      rcases hd1 with rfl | rfl | rfl <;> rcases hd2 with rfl | rfl | rfl <;>
        omega
    have hir := hbnd j hj1 hjk
    unfold rayInRange at hir
    unfold fogLoop
    rw [if_neg hlim, if_neg (by omega)]
    cases hbt : b ((fromRow : Int) + d1 * j).toNat
        ((fromCol : Int) + d2 * j).toNat with
    | some t =>
      dsimp only
      rw [if_pos (hocc j hj1 hjk t hbt)]
      have hbtr : b (raySq fromRow fromCol d1 d2 j).1
          (raySq fromRow fromCol d1 d2 j).2 = some t := hbt
      unfold firstOccupied
      rw [if_pos (by rw [hbtr]; rfl)]
      rfl
    | none =>
      dsimp only
      have hbnr : b (raySq fromRow fromCol d1 d2 j).1
          (raySq fromRow fromCol d1 d2 j).2 = none := hbt
      unfold firstOccupied
      rw [if_neg (by rw [hbnr]; simp)]
      rw [show (fromRow : Int) + d1 * j + d1
          = (fromRow : Int) + d1 * ((j + 1 : Nat) : Int) from by push_cast; ring]
      rw [show (fromCol : Int) + d2 * j + d2
          = (fromCol : Int) + d2 * ((j + 1 : Nat) : Int) from by push_cast; ring]
      exact ih (j + 1) f (by omega) (by omega) (by omega)

theorem executeFogMove_nonslider (b : Board) (piece : ChessPiece)
    (fromRow fromCol toRow toCol : Nat)
    (h : piece.type = PieceType.KING ∨ piece.type = PieceType.KNIGHT ∨
      piece.type = PieceType.PAWN) :
    executeFogMove b fromRow fromCol toRow toCol piece = (toRow, toCol) := by
  unfold executeFogMove
  rw [if_pos h]
  split
  · split
    · cases b toRow toCol with
      | none => rfl
      | some target =>
        dsimp only
        split
        · rfl
        · rfl
    · rfl
  · rfl

theorem executeFogMove_slider_eq (b : Board) (piece : ChessPiece)
    (fromRow fromCol toRow toCol : Nat)
    (h : ¬(piece.type = PieceType.KING ∨ piece.type = PieceType.KNIGHT ∨
      piece.type = PieceType.PAWN)) :
    executeFogMove b fromRow fromCol toRow toCol piece =
      (match fogLoop b piece.isWhite
          (intSign ((toRow : Int) - (fromRow : Int)))
          (intSign ((toCol : Int) - (fromCol : Int)))
          ((toRow : Int) + intSign ((toRow : Int) - (fromRow : Int)))
          ((toCol : Int) + intSign ((toCol : Int) - (fromCol : Int))) 16
          ((fromRow : Int) + intSign ((toRow : Int) - (fromRow : Int)))
          ((fromCol : Int) + intSign ((toCol : Int) - (fromCol : Int))) with
        | some p => p
        | none => (toRow, toCol)) := by
  unfold executeFogMove
  rw [if_neg h]

/-- C1: for a Playing-phase move whose chosen destination is a fogged target
with fog-of-war active, the landing square resolved by `executeFogMove` is,
for a sliding piece (Rook/Bishop/Queen), the first occupied square along the
straight path from `from` toward `to` — captured, since any occupied square
on a fogged path holds an opposing piece — or `to` itself if no square on the
path before or at `to` is occupied (`specFogLanding` states this reading of
the claim); for King/Knight/Pawn it is exactly the intended square `to`,
including a pawn diagonal move onto an empty square. -/
theorem C1_fog_resolution (b : Board) (piece : ChessPiece)
    (fromRow fromCol toRow toCol : Nat)
    (hmem : (toRow, toCol) ∈ (calculatePossibleMoves true b fromRow fromCol
        piece).fogMoves) :
    ((piece.type = PieceType.ROOK ∨ piece.type = PieceType.BISHOP ∨
        piece.type = PieceType.QUEEN) →
      executeFogMove b fromRow fromCol toRow toCol piece =
        specFogLanding b fromRow fromCol toRow toCol) ∧
    ((piece.type = PieceType.KING ∨ piece.type = PieceType.KNIGHT ∨
        piece.type = PieceType.PAWN) →
      executeFogMove b fromRow fromCol toRow toCol piece = (toRow, toCol)) := by
  constructor
  · intro hs
    have hmem2 := hmem
    rw [calc_slider_eq true b fromRow fromCol piece hs, foldSlide_fog_mem]
      at hmem2
    rcases hmem2 with hx | ⟨d, hd, k, hk1, hk8, hcont, hfog, heq⟩
    · exact absurd hx (by simp)
    obtain ⟨hu1, hu2, hunz⟩ := pieceDirections_units piece.type d hd
    have hfogr := hfog.1
    unfold rayInRange at hfogr
    have heq1 : toRow = ((fromRow : Int) + d.1 * k).toNat :=
      congrArg Prod.fst heq
    have heq2 : toCol = ((fromCol : Int) + d.2 * k).toNat :=
      congrArg Prod.snd heq
    have htr : (toRow : Int) = (fromRow : Int) + d.1 * k := by
      rw [heq1]
      exact Int.toNat_of_nonneg hfogr.1
    have htc : (toCol : Int) = (fromCol : Int) + d.2 * k := by
      rw [heq2]
      exact Int.toNat_of_nonneg hfogr.2.2.1
    have hsign1 : intSign ((toRow : Int) - (fromRow : Int)) = d.1 := by
      rw [show (toRow : Int) - (fromRow : Int) = d.1 * k from by rw [htr]; ring]
      exact intSign_mul_unit d.1 k hu1 hk1
    have hsign2 : intSign ((toCol : Int) - (fromCol : Int)) = d.2 := by
      rw [show (toCol : Int) - (fromCol : Int) = d.2 * k from by rw [htc]; ring]
      exact intSign_mul_unit d.2 k hu2 hk1
    have hsteps : max ((toRow : Int) - (fromRow : Int)).natAbs
        ((toCol : Int) - (fromCol : Int)).natAbs = k := by
      rw [show (toRow : Int) - (fromRow : Int) = d.1 * k from by rw [htr]; ring,
        show (toCol : Int) - (fromCol : Int) = d.2 * k from by rw [htc]; ring]
      exact max_natAbs_mul_unit d.1 d.2 k hu1 hu2 hunz
    have hns : ¬(piece.type = PieceType.KING ∨ piece.type = PieceType.KNIGHT ∨
        piece.type = PieceType.PAWN) := by
      rcases hs with h | h | h <;> rw [h] <;> simp
    rw [executeFogMove_slider_eq b piece fromRow fromCol toRow toCol hns]
    unfold specFogLanding
    rw [hsign1, hsign2, hsteps]
    have hbnd : ∀ j, 1 ≤ j → j ≤ k → rayInRange fromRow fromCol d.1 d.2 j := by
      intro j hj1 hjk
      rcases Nat.lt_or_ge j k with hlt | hge
      · exact (hcont j hj1 hlt).1
      · have : j = k := by omega
        subst this
        exact hfog.1
    have hocc : ∀ j, 1 ≤ j → j ≤ k → ∀ t,
        b (raySq fromRow fromCol d.1 d.2 j).1
          (raySq fromRow fromCol d.1 d.2 j).2 = some t →
        t.isWhite ≠ piece.isWhite := by
      intro j hj1 hjk t hbt
      have hjr := hbnd j hj1 hjk
      unfold rayInRange at hjr
      have hb8a : (raySq fromRow fromCol d.1 d.2 j).1 < 8 := by
        unfold raySq
        dsimp only
        omega
      have hb8b : (raySq fromRow fromCol d.1 d.2 j).2 < 8 := by
        unfold raySq
        dsimp only
        omega
      rcases Nat.lt_or_ge j k with hlt | hge
      · by_cases hv : calculateVisibleSquares true b piece.isWhite
            (raySq fromRow fromCol d.1 d.2 j).1
            (raySq fromRow fromCol d.1 d.2 j).2 = true
        · have hbn := (hcont j hj1 hlt).2 hv
          rw [hbn] at hbt
          exact Option.noConfusion hbt
        · exact not_own_piece_of_not_visible true b piece.isWhite _ _ hb8a hb8b
            hv t hbt
      · have : j = k := by omega
        subst this
        have hv : calculateVisibleSquares true b piece.isWhite
            (raySq fromRow fromCol d.1 d.2 j).1
            (raySq fromRow fromCol d.1 d.2 j).2 ≠ true := by
          rw [hfog.2]
          simp
        exact not_own_piece_of_not_visible true b piece.isWhite _ _ hb8a hb8b
          hv t hbt
    rw [show ((toRow : Int) + d.1) = (fromRow : Int) + d.1 * ((k : Int) + 1)
      from by rw [htr]; ring]
    rw [show ((toCol : Int) + d.2) = (fromCol : Int) + d.2 * ((k : Int) + 1)
      from by rw [htc]; ring]
    rw [show ((fromRow : Int) + d.1)
        = (fromRow : Int) + d.1 * ((1 : Nat) : Int) from by push_cast; ring]
    rw [show ((fromCol : Int) + d.2)
        = (fromCol : Int) + d.2 * ((1 : Nat) : Int) from by push_cast; ring]
    rw [fogLoop_eq_firstOccupied b piece.isWhite fromRow fromCol d.1 d.2 k hu1
      hu2 hunz hbnd hocc k 1 16 le_rfl (by omega) (by omega)]
    cases firstOccupied b fromRow fromCol d.1 d.2 k 1 with
    | some p => rfl
    | none => rfl
  · exact executeFogMove_nonslider b piece fromRow fromCol toRow toCol

/-- Witness for C1: the fogged rook move from `(4,0)` to `(4,7)` on
`fogWitnessBoard` resolves to the spec-described landing square. -/
theorem C1_fog_resolution_witness :
    executeFogMove fogWitnessBoard 4 0 4 7 ⟨PieceType.ROOK, true⟩ =
      specFogLanding fogWitnessBoard 4 0 4 7 :=
  (C1_fog_resolution fogWitnessBoard ⟨PieceType.ROOK, true⟩ 4 0 4 7
    (by decide)).1 (Or.inl rfl)

/-! ## Setup-phase operations

Embeds the SETUP branch of `handleSquareClick`, `handleDeleteSelectedPiece`,
`applyClassicSetup`, `saveCurrentSetup`, `loadSavedSetup`,
`resetCurrentPlayer`, `finishSetup` and the default-King effect of part_002.
The two-click select-then-act flows are modelled as single operations whose
hypotheses are the selection guards (`canSelectPiece`) the UI established. -/

/-- `PURCHASABLE_PIECES` (part_002 line 64): the palette excludes the King. -/
def PURCHASABLE_PIECES : List PieceType :=
  [PieceType.PAWN, PieceType.KNIGHT, PieceType.BISHOP, PieceType.ROOK,
    PieceType.QUEEN]

/-- The placement-zone predicate of the SETUP branch:
`(currentPlayer && row >= 5) || (!currentPlayer && row <= 2)`. -/
def zoneRow (side : Bool) (r : Nat) : Prop := if side then 5 ≤ r else r ≤ 2

instance (side : Bool) (r : Nat) : Decidable (zoneRow side r) := by
  unfold zoneRow
  infer_instance

/-- The `canPlacePiece && selectedPiece` branch of `handleSquareClick`
(part_002 lines 631-647): the clicked square must be empty and in the active
side's zone, and the side's budget must cover the piece's cost; then the
piece is written and the cost deducted. -/
def placePiece (st : GameState) (row col : Nat) (kind : PieceType) :
    GameState :=
  if st.board row col = none ∧ zoneRow st.currentPlayer row then
    if PIECE_COSTS kind ≤
        (if st.currentPlayer then st.whiteBudget else st.blackBudget) then
      { st with
        board := setSq st.board row col (some ⟨kind, st.currentPlayer⟩),
        whiteBudget := if st.currentPlayer then
          st.whiteBudget - PIECE_COSTS kind else st.whiteBudget,
        blackBudget := if st.currentPlayer then st.blackBudget
          else st.blackBudget - PIECE_COSTS kind }
    else st
  else st

/-- The `selectedBoardPosition` branch of `handleSquareClick` (part_002 lines
603-630): move the previously selected piece if the destination is in the
active side's zone and empty or opponent-occupied.  The refund test
`piece.isWhite === currentPlayer` can never hold under the branch condition
`piece === null || piece.isWhite !== currentPlayer`, and is embedded as
written. -/
def setupMovePiece (st : GameState) (fromRow fromCol row col : Nat) :
    GameState :=
  match st.board fromRow fromCol with
  | none => st
  | some selectedSquarePiece =>
    if zoneRow st.currentPlayer row ∧
        (st.board row col = none ∨
          (∃ p, st.board row col = some p ∧ p.isWhite ≠ st.currentPlayer)) then
      let refund : Nat :=
        match st.board row col with
        | some p => if p.isWhite = st.currentPlayer then PIECE_COSTS p.type
          else 0
        | none => 0
      { st with
        board := setSq (setSq st.board fromRow fromCol none) row col
          (some selectedSquarePiece),
        whiteBudget := if st.currentPlayer then st.whiteBudget + refund
          else st.whiteBudget,
        blackBudget := if st.currentPlayer then st.blackBudget
          else st.blackBudget + refund }
    else st

/-- `handleDeleteSelectedPiece` (part_002 lines 703-722): remove the selected
non-King piece and refund its cost to the active side. -/
def deletePiece (st : GameState) (row col : Nat) : GameState :=
  match st.board row col with
  | none => st
  | some piece =>
    if piece.type ≠ PieceType.KING then
      { st with
        board := setSq st.board row col none,
        whiteBudget := if st.currentPlayer then
          st.whiteBudget + PIECE_COSTS piece.type else st.whiteBudget,
        blackBudget := if st.currentPlayer then st.blackBudget
          else st.blackBudget + PIECE_COSTS piece.type }
    else st

/-- Clearing the active side's pieces (`if (newBoard[r][c]?.isWhite ===
currentPlayer) newBoard[r][c] = null`). -/
def clearSide (b : Board) (side : Bool) : Board :=
  fun r c =>
    match b r c with
    | some p => if p.isWhite = side then none else some p
    | none => none

/-- The classic back row, `[ROOK, KNIGHT, BISHOP, QUEEN, KING, BISHOP,
KNIGHT, ROOK]`. -/
def backRowPieces : List PieceType :=
  [PieceType.ROOK, PieceType.KNIGHT, PieceType.BISHOP, PieceType.QUEEN,
    PieceType.KING, PieceType.BISHOP, PieceType.KNIGHT, PieceType.ROOK]

/-- The board produced by `applyClassicSetup` (part_002 lines 199-258):
clears the active side's pieces, then writes the back row and the pawns. -/
def classicBoard (b : Board) (side : Bool) : Board :=
  fun r c =>
    if r = (if side then 6 else 1) ∧ c < 8 then some ⟨PieceType.PAWN, side⟩
    else if r = (if side then 7 else 0) ∧ c < 8 then
      some ⟨backRowPieces.getD c PieceType.ROOK, side⟩
    else clearSide b side r c

/-- `applyClassicSetup`: the new board plus the recomputed remaining budget
`39 - totalCost`. -/
def applyClassicSetup (st : GameState) : GameState :=
  let totalCost := 8 * PIECE_COSTS PieceType.PAWN +
    2 * PIECE_COSTS PieceType.ROOK + 2 * PIECE_COSTS PieceType.KNIGHT +
    2 * PIECE_COSTS PieceType.BISHOP + PIECE_COSTS PieceType.QUEEN
  { st with
    board := classicBoard st.board st.currentPlayer,
    whiteBudget := if st.currentPlayer then 39 - totalCost else st.whiteBudget,
    blackBudget := if st.currentPlayer then st.blackBudget
      else 39 - totalCost }

/-- Extracting only the active side's pieces
(`board.map(row => row.map(piece => piece?.isWhite === currentPlayer ?
piece : null))`). -/
def ownFilter (b : Board) (side : Bool) : Board :=
  fun r c =>
    match b r c with
    | some p => if p.isWhite = side then some p else none
    | none => none

/-- `saveCurrentSetup` (part_002 lines 261-283): records the active side's
pieces, its current budget and its colour under the given name, replacing any
layout of the same name. -/
def saveCurrentSetup (st : GameState) (name : String) : GameState :=
  { st with
    savedSetups := (st.savedSetups.filter (fun s => s.name ≠ name)) ++
      [{ name := name,
         board := ownFilter st.board st.currentPlayer,
         budget := if st.currentPlayer then st.whiteBudget else st.blackBudget,
         isWhite := st.currentPlayer }] }

/-- The board produced by `loadSavedSetup` (part_002 lines 286-318): clears
the active side's pieces, then writes every piece of the saved layout
recoloured to the active side (`{ ...setup.board[r][c], isWhite:
currentPlayer }`), overwriting whatever is on those squares. -/
def loadBoard (b : Board) (side : Bool) (setup : SavedSetup) : Board :=
  fun r c =>
    match setup.board r c with
    | some p => some { p with isWhite := side }
    | none => clearSide b side r c

/-- `loadSavedSetup`: the loaded board plus the recorded budget for the
active side. -/
def loadSavedSetup (st : GameState) (setup : SavedSetup) : GameState :=
  { st with
    board := loadBoard st.board st.currentPlayer setup,
    whiteBudget := if st.currentPlayer then setup.budget else st.whiteBudget,
    blackBudget := if st.currentPlayer then st.blackBudget
      else setup.budget }

/-- `getDefaultKingPosition` (part_002 lines 138-140). -/
def defaultKingRow (side : Bool) : Nat := if side then 7 else 0

/-- `resetCurrentPlayer` (part_002 lines 777-803): clears the active side's
pieces, places its King at the default square and restores the budget
to 39. -/
def resetCurrentPlayer (st : GameState) : GameState :=
  { st with
    board := setSq (clearSide st.board st.currentPlayer)
      (defaultKingRow st.currentPlayer) 4
      (some ⟨PieceType.KING, st.currentPlayer⟩),
    whiteBudget := if st.currentPlayer then 39 else st.whiteBudget,
    blackBudget := if st.currentPlayer then st.blackBudget else 39 }

/-- The default-King effect (part_002 lines 180-191): during SETUP, if the
active side has no King, one is written at the default square. -/
def autoPlaceKing (st : GameState) : GameState :=
  if st.gamePhase = GamePhase.SETUP ∧ ¬hasKing st.board st.currentPlayer then
    { st with
      board := setSq st.board (defaultKingRow st.currentPlayer) 4
        (some ⟨PieceType.KING, st.currentPlayer⟩) }
  else st

/-- `finishSetup` (part_002 lines 724-754): no-op without a King; otherwise
marks the active side complete and either starts play (other side already
complete: phase PLAYING, White to move, timer reset) or hands the draft turn
to the other side. -/
def finishSetup (st : GameState) : GameState :=
  if ¬hasKing st.board st.currentPlayer then st
  else if st.currentPlayer then
    if st.blackSetupComplete then
      { st with
        whiteSetupComplete := true,
        gamePhase := GamePhase.PLAYING,
        currentPlayer := true,
        timeRemaining := st.moveTimeLimit }
    else
      { st with
        whiteSetupComplete := true,
        currentPlayer := false }
  else
    if st.whiteSetupComplete then
      { st with
        blackSetupComplete := true,
        gamePhase := GamePhase.PLAYING,
        currentPlayer := true,
        timeRemaining := st.moveTimeLimit }
    else
      { st with
        blackSetupComplete := true,
        currentPlayer := true }

/-- The initial component state: empty board, budgets 39, White active, phase
GAME_SETUP. -/
def initialState (fog : Bool) (limit : Nat) : GameState :=
  { board := emptyBoard,
    whiteBudget := 39,
    blackBudget := 39,
    currentPlayer := true,
    whiteSetupComplete := false,
    blackSetupComplete := false,
    gamePhase := GamePhase.GAME_SETUP,
    timeRemaining := limit,
    moveTimeLimit := limit,
    fogOfWarEnabled := fog,
    gameStatus := "",
    savedSetups := [] }

/-- C5: during Setup, placing a new piece of kind `k` succeeds iff the square
is in the active side's placement zone (rows 5-7 for White, rows 0-2 for
Black — `zoneRow`), the square is empty, and the side's remaining budget
covers `cost(k)`; on success the piece is written and the cost deducted from
that side's budget (the other side's untouched), and on failure the whole
state is unchanged (silent no-op). -/
theorem C5_place_piece (st : GameState) (row col : Nat) (kind : PieceType)
    (hrow : row < 8) (hcol : col < 8) :
    ((zoneRow st.currentPlayer row ∧ st.board row col = none ∧
        PIECE_COSTS kind ≤
          (if st.currentPlayer then st.whiteBudget else st.blackBudget)) →
      (placePiece st row col kind).board
          = setSq st.board row col (some ⟨kind, st.currentPlayer⟩) ∧
        (st.currentPlayer = true →
          (placePiece st row col kind).whiteBudget
              = st.whiteBudget - PIECE_COSTS kind ∧
            (placePiece st row col kind).blackBudget = st.blackBudget) ∧
        (st.currentPlayer = false →
          (placePiece st row col kind).blackBudget
              = st.blackBudget - PIECE_COSTS kind ∧
            (placePiece st row col kind).whiteBudget = st.whiteBudget)) ∧
    (¬(zoneRow st.currentPlayer row ∧ st.board row col = none ∧
        PIECE_COSTS kind ≤
          (if st.currentPlayer then st.whiteBudget else st.blackBudget)) →
      placePiece st row col kind = st) := by
  constructor
  · rintro ⟨hz, hemp, hbud⟩
    unfold placePiece
    rw [if_pos ⟨hemp, hz⟩, if_pos hbud]
    refine ⟨rfl, fun hcp => ?_, fun hcp => ?_⟩
    · constructor <;> simp [hcp]
    · constructor <;> simp [hcp]
  · intro hn
    unfold placePiece
    by_cases h1 : (st.board row col = none ∧ zoneRow st.currentPlayer row)
    · rw [if_pos h1, if_neg (fun hb => hn ⟨h1.2, h1.1, hb⟩)]
    · rw [if_neg h1]

/-- Witness for C5: placing a pawn at `(5,0)` for White on the initial board
writes the pawn and deducts its cost. -/
theorem C5_place_piece_witness :
    (placePiece (initialState false 300) 5 0 PieceType.PAWN).board
        = setSq (initialState false 300).board 5 0
          (some ⟨PieceType.PAWN, true⟩) ∧
      ((initialState false 300).currentPlayer = true →
        (placePiece (initialState false 300) 5 0 PieceType.PAWN).whiteBudget
            = (initialState false 300).whiteBudget -
              PIECE_COSTS PieceType.PAWN ∧
          (placePiece (initialState false 300) 5 0 PieceType.PAWN).blackBudget
            = (initialState false 300).blackBudget) ∧
      ((initialState false 300).currentPlayer = false →
        (placePiece (initialState false 300) 5 0 PieceType.PAWN).blackBudget
            = (initialState false 300).blackBudget -
              PIECE_COSTS PieceType.PAWN ∧
          (placePiece (initialState false 300) 5 0 PieceType.PAWN).whiteBudget
            = (initialState false 300).whiteBudget) :=
  (C5_place_piece (initialState false 300) 5 0 PieceType.PAWN (by decide)
    (by decide)).1 (by decide)

/-- C9: `finishSetup` is a no-op when the active side has no King; otherwise
it sets that side's completion flag, and either (other side already
complete) moves to PLAYING with White to move and the timer reset to the
full limit, or (other side not complete) stays in Setup and hands the turn
to the other side. -/
theorem C9_finish_setup (st : GameState)
    (hphase : st.gamePhase = GamePhase.SETUP) :
    (¬hasKing st.board st.currentPlayer → finishSetup st = st) ∧
    (hasKing st.board st.currentPlayer →
      (st.currentPlayer = true → (finishSetup st).whiteSetupComplete = true) ∧
      (st.currentPlayer = false → (finishSetup st).blackSetupComplete = true) ∧
      ((if st.currentPlayer then st.blackSetupComplete
          else st.whiteSetupComplete) = true →
        (finishSetup st).gamePhase = GamePhase.PLAYING ∧
        (finishSetup st).currentPlayer = true ∧
        (finishSetup st).timeRemaining = st.moveTimeLimit) ∧
      ((if st.currentPlayer then st.blackSetupComplete
          else st.whiteSetupComplete) = false →
        (finishSetup st).gamePhase = GamePhase.SETUP ∧
        (finishSetup st).currentPlayer = (!st.currentPlayer))) := by
  constructor
  · intro hk
    unfold finishSetup
    rw [if_pos hk]
  · intro hk
    cases hcp : st.currentPlayer with
    | false =>
      rw [hcp] at hk
      by_cases hoc : st.whiteSetupComplete <;>
        simp [finishSetup, hk, hcp, hoc, hphase]
    | true =>
      rw [hcp] at hk
      by_cases hoc : st.blackSetupComplete <;>
        simp [finishSetup, hk, hcp, hoc, hphase]

/-- The concrete Setup state used as witness for C9: White King placed, Black
not yet complete. -/
def c9State : GameState :=
  { initialState false 300 with
    gamePhase := GamePhase.SETUP,
    board := setSq emptyBoard 7 4 (some ⟨PieceType.KING, true⟩) }

/-- Witness for C9: finishing White's setup before Black's marks White
complete, stays in Setup and hands the turn to Black. -/
theorem C9_finish_setup_witness :
    (finishSetup c9State).whiteSetupComplete = true ∧
    (finishSetup c9State).gamePhase = GamePhase.SETUP ∧
    (finishSetup c9State).currentPlayer = (!c9State.currentPlayer) := by
  have h := (C9_finish_setup c9State rfl).2 (by decide)
  exact ⟨h.1 rfl, (h.2.2.2 (by decide)).1, (h.2.2.2 (by decide)).2⟩

/-- The concrete Setup state of the C4 counterexample: White active with a
pawn at `(5,0)` and budget 38; a Black knight sits on `(5,1)`. -/
def c4State : GameState :=
  { initialState false 300 with
    gamePhase := GamePhase.SETUP,
    board := setSq (setSq (setSq emptyBoard 7 4 (some ⟨PieceType.KING, true⟩))
      5 0 (some ⟨PieceType.PAWN, true⟩)) 5 1 (some ⟨PieceType.KNIGHT, false⟩),
    whiteBudget := 38 }

/-- C4 counterexample: moving the White pawn from `(5,0)` onto the Black
knight at `(5,1)` removes the knight but refunds nothing — both budgets are
unchanged, and in particular the active side's budget is not increased by
the knight's cost as the claim states. -/
theorem C4_counterexample :
    c4State.board 5 1 = some ⟨PieceType.KNIGHT, false⟩ ∧
    (setupMovePiece c4State 5 0 5 1).board 5 1
      = some ⟨PieceType.PAWN, true⟩ ∧
    (setupMovePiece c4State 5 0 5 1).whiteBudget = c4State.whiteBudget ∧
    (setupMovePiece c4State 5 0 5 1).blackBudget = c4State.blackBudget ∧
    c4State.whiteBudget + PIECE_COSTS PieceType.KNIGHT ≠ c4State.whiteBudget := by
  decide

/-- C4 amended: during Setup, when the active side moves an already-placed
piece onto a square holding an opponent's piece, the opponent's piece is
removed from the board (overwritten by the moved piece) and no refund is
given to either side — the source's refund branch tests for a piece of the
active side at the destination, which the enclosing guard excludes. -/
theorem C4_setup_capture_no_refund (st : GameState)
    (fromRow fromCol row col : Nat) (p q : ChessPiece)
    (hsel : st.board fromRow fromCol = some p)
    (hz : zoneRow st.currentPlayer row)
    (hq : st.board row col = some q) (hqo : q.isWhite ≠ st.currentPlayer) :
    (setupMovePiece st fromRow fromCol row col).board row col = some p ∧
    (setupMovePiece st fromRow fromCol row col).whiteBudget = st.whiteBudget ∧
    (setupMovePiece st fromRow fromCol row col).blackBudget = st.blackBudget := by
  unfold setupMovePiece
  rw [hsel]
  dsimp only
  rw [if_pos ⟨hz, Or.inr ⟨q, hq, hqo⟩⟩]
  refine ⟨setSq_same _ _ _ _, ?_, ?_⟩ <;>
    (cases hcp : st.currentPlayer <;> (rw [hcp] at hqo; simp [hq, hcp, hqo]))

/-- Witness for C4's amended statement at the concrete counterexample
state. -/
theorem C4_setup_capture_no_refund_witness :
    (setupMovePiece c4State 5 0 5 1).board 5 1
        = some ⟨PieceType.PAWN, true⟩ ∧
    (setupMovePiece c4State 5 0 5 1).whiteBudget = c4State.whiteBudget ∧
    (setupMovePiece c4State 5 0 5 1).blackBudget = c4State.blackBudget :=
  C4_setup_capture_no_refund c4State 5 0 5 1 ⟨PieceType.PAWN, true⟩
    ⟨PieceType.KNIGHT, false⟩ (by decide) (by decide) (by decide) (by decide)

/-- The board after White's rook captures the Black king: White king at
`(7,4)`, White rook at `(0,4)`, no Black king. -/
def c2Board : Board :=
  setSq (setSq emptyBoard 7 4 (some ⟨PieceType.KING, true⟩)) 0 4
    (some ⟨PieceType.ROOK, true⟩)

/-- C2: immediately after White's move the defender (Black, next to move) has
no King.  The part_002/page.tsx `checkGameStatus` declares the mover the
winner as the claim states; the money-chess-game.tsx copy
(`MCcheckGameStatus`), which inspects the mover's king instead of the
defender's, declares no winner and leaves the phase PLAYING — the code bug
behind this claim. -/
theorem C2_win_detection :
    ¬hasKing c2Board false ∧ hasKing c2Board true ∧
    checkGameStatus c2Board false = "White wins! Black king captured." ∧
    MCcheckGameStatus c2Board false = ("", GamePhase.PLAYING) := by
  decide

/-! ## The Setup budget invariant (claim C3) -/

/-- The cost contribution of one board cell for one side. -/
def cellCost (v : Option ChessPiece) (side : Bool) : Nat :=
  match v with
  | some p => if p.isWhite = side then PIECE_COSTS p.type else 0
  | none => 0

/-- Sum of a function over the 64 board squares. -/
def sum2 (f : Nat → Nat → Nat) : Nat :=
  ∑ rc in Finset.range 8 ×ˢ Finset.range 8, f rc.1 rc.2

/-- The total point cost of a side's pieces on the board. -/
def costSum (b : Board) (side : Bool) : Nat :=
  sum2 (fun r c => cellCost (b r c) side)

/-- The total point cost of all pieces of a saved layout (layouts hold only
the saving side's pieces). -/
def layoutCost (b : Board) : Nat :=
  sum2 (fun r c =>
    match b r c with
    | some p => PIECE_COSTS p.type
    | none => 0)

theorem sum2_congr (f g : Nat → Nat → Nat)
    (h : ∀ r c, r < 8 → c < 8 → f r c = g r c) : sum2 f = sum2 g := by
  unfold sum2
  apply Finset.sum_congr rfl
  intro x hx
  rw [Finset.mem_product, Finset.mem_range, Finset.mem_range] at hx
  exact h x.1 x.2 hx.1 hx.2

theorem sum2_update (f g : Nat → Nat → Nat) (r0 c0 : Nat) (h0 : r0 < 8)
    (hc0 : c0 < 8)
    (hoff : ∀ r c, r < 8 → c < 8 → ¬(r = r0 ∧ c = c0) → g r c = f r c) :
    sum2 g + f r0 c0 = sum2 f + g r0 c0 := by
  unfold sum2
  have hmem : ((r0, c0) : Nat × Nat) ∈ Finset.range 8 ×ˢ Finset.range 8 := by
    rw [Finset.mem_product, Finset.mem_range, Finset.mem_range]
    exact ⟨h0, hc0⟩
  rw [← Finset.add_sum_erase _ (fun rc => g rc.1 rc.2) hmem,
      ← Finset.add_sum_erase _ (fun rc => f rc.1 rc.2) hmem]
  have hcong : ∑ x in (Finset.range 8 ×ˢ Finset.range 8).erase (r0, c0),
      g x.1 x.2 =
      ∑ x in (Finset.range 8 ×ˢ Finset.range 8).erase (r0, c0), f x.1 x.2 := by
    apply Finset.sum_congr rfl
    intro x hx
    rw [Finset.mem_erase] at hx
    have hxm := hx.2
    rw [Finset.mem_product, Finset.mem_range, Finset.mem_range] at hxm
    refine hoff x.1 x.2 hxm.1 hxm.2 ?_
    rintro ⟨h1, h2⟩
    exact hx.1 (Prod.ext h1 h2)
  rw [hcong]
  dsimp only
  omega

theorem costSum_setSq (b : Board) (r0 c0 : Nat) (v : Option ChessPiece)
    (side : Bool) (h0 : r0 < 8) (hc0 : c0 < 8) :
    costSum (setSq b r0 c0 v) side + cellCost (b r0 c0) side
      = costSum b side + cellCost v side := by
  have h := sum2_update (fun r c => cellCost (b r c) side)
    (fun r c => cellCost (setSq b r0 c0 v r c) side) r0 c0 h0 hc0
    (fun r c _ _ hne => by
      show cellCost (setSq b r0 c0 v r c) side = cellCost (b r c) side
      rw [setSq_other _ _ _ _ _ _ hne])
  unfold costSum
  simp only at h
  rw [setSq_same] at h
  exact h

/-- Pieces exist only on the 8x8 board and inside their side's placement
zone. -/
def boardOK (b : Board) : Prop :=
  ∀ r c p, b r c = some p → r < 8 ∧ c < 8 ∧ zoneRow p.isWhite r

/-- The side has no pieces at all. -/
def noPieces (b : Board) (side : Bool) : Prop :=
  ∀ r c p, b r c = some p → p.isWhite ≠ side

/-- Well-formedness of a saved layout: cost plus recorded budget is 39, all
its pieces are the saver's and in the saver's zone, and it contains the
saver's King. -/
def savedOK (s : SavedSetup) : Prop :=
  layoutCost s.board + s.budget = 39 ∧
  (∀ r c p, s.board r c = some p →
    r < 8 ∧ c < 8 ∧ zoneRow s.isWhite r ∧ p.isWhite = s.isWhite) ∧
  hasKing s.board s.isWhite

/-- The inductive invariant of the Setup phase. -/
def Inv (st : GameState) : Prop :=
  costSum st.board true + st.whiteBudget = 39 ∧
  costSum st.board false + st.blackBudget = 39 ∧
  boardOK st.board ∧
  (st.gamePhase = GamePhase.SETUP → hasKing st.board st.currentPlayer) ∧
  (∀ side, hasKing st.board side ∨ noPieces st.board side) ∧
  (∀ s ∈ st.savedSetups, savedOK s)

theorem costSum_empty (side : Bool) : costSum emptyBoard side = 0 := by
  unfold costSum sum2
  apply Finset.sum_eq_zero
  intro x _
  rfl

theorem Inv_initial (fog : Bool) (limit : Nat) : Inv (initialState fog limit) := by
  refine ⟨?_, ?_, ?_, ?_, ?_, ?_⟩
  · rw [show (initialState fog limit).board = emptyBoard from rfl, costSum_empty]
    rfl
  · rw [show (initialState fog limit).board = emptyBoard from rfl, costSum_empty]
    rfl
  · intro r c p h
    exact Option.noConfusion h
  · intro h
    exact GamePhase.noConfusion h
  · intro side
    exact Or.inr (fun r c p h => Option.noConfusion h)
  · intro s hs
    exact absurd hs (by simp [initialState])

theorem sum2_zero : sum2 (fun _ _ => 0) = 0 := by
  unfold sum2
  exact Finset.sum_eq_zero (fun _ _ => rfl)

theorem cellCost_none (side : Bool) : cellCost none side = 0 := rfl

theorem cellCost_some (p : ChessPiece) (side : Bool) :
    cellCost (some p) side = if p.isWhite = side then PIECE_COSTS p.type
      else 0 := rfl

theorem zoneRow_disj {s t : Bool} (r : Nat) (hs : zoneRow s r)
    (ht : zoneRow t r) (hne : s ≠ t) : False := by
  cases s <;> cases t <;> simp_all [zoneRow] <;> omega

/-- A King survives an update of a square it does not occupy. -/
theorem hasKing_setSq_of_ne (b : Board) (r0 c0 : Nat) (v : Option ChessPiece)
    (side : Bool) (hk : hasKing b side)
    (hne : b r0 c0 ≠ some ⟨PieceType.KING, side⟩) :
    hasKing (setSq b r0 c0 v) side := by
  obtain ⟨r, hr, c, hc, hcell⟩ := hk
  refine ⟨r, hr, c, hc, ?_⟩
  rw [setSq_other]
  · exact hcell
  · rintro ⟨h1, h2⟩
    subst h1
    subst h2
    exact hne hcell

theorem hasKing_setSq_self (b : Board) (r0 c0 : Nat) (side : Bool)
    (h0 : r0 < 8) (hc : c0 < 8) :
    hasKing (setSq b r0 c0 (some ⟨PieceType.KING, side⟩)) side :=
  ⟨r0, h0, c0, hc, setSq_same _ _ _ _⟩

/-- The Setup-phase operations exactly as the component performs them: the
screen transition into Setup, placing a purchased piece, moving or deleting a
selected own-zone piece, the classic preset, saving, loading (any listed
layout, as the code allows), resetting, and finishing.  The auto-King effect
is fused into the transitions that change the active drafter. -/
inductive SetupStep : GameState → GameState → Prop where
  | start (st : GameState) (h : st.gamePhase = GamePhase.GAME_SETUP) :
      SetupStep st (autoPlaceKing
        { st with
          gamePhase := GamePhase.SETUP })
  | place (st : GameState) (row col : Nat) (kind : PieceType)
      (h : st.gamePhase = GamePhase.SETUP) (hr : row < 8) (hc : col < 8)
      (hk : kind ∈ PURCHASABLE_PIECES) :
      SetupStep st (placePiece st row col kind)
  | move (st : GameState) (fromRow fromCol row col : Nat) (p : ChessPiece)
      (h : st.gamePhase = GamePhase.SETUP) (hr : row < 8) (hc : col < 8)
      (hsel : st.board fromRow fromCol = some p)
      (hown : p.isWhite = st.currentPlayer)
      (hzone : zoneRow st.currentPlayer fromRow) :
      SetupStep st (setupMovePiece st fromRow fromCol row col)
  | del (st : GameState) (row col : Nat) (p : ChessPiece)
      (h : st.gamePhase = GamePhase.SETUP)
      (hsel : st.board row col = some p)
      (hown : p.isWhite = st.currentPlayer)
      (hzone : zoneRow st.currentPlayer row) :
      SetupStep st (deletePiece st row col)
  | classic (st : GameState) (h : st.gamePhase = GamePhase.SETUP) :
      SetupStep st (applyClassicSetup st)
  | save (st : GameState) (name : String)
      (h : st.gamePhase = GamePhase.SETUP) :
      SetupStep st (saveCurrentSetup st name)
  | load (st : GameState) (setup : SavedSetup)
      (h : st.gamePhase = GamePhase.SETUP)
      (hs : setup ∈ st.savedSetups) :
      SetupStep st (loadSavedSetup st setup)
  | reset (st : GameState) (h : st.gamePhase = GamePhase.SETUP) :
      SetupStep st (resetCurrentPlayer st)
  | finish (st : GameState) (h : st.gamePhase = GamePhase.SETUP) :
      SetupStep st (autoPlaceKing (finishSetup st))

/-- The same operations with one restriction: a saved layout may only be
loaded by the side that saved it (`setup.isWhite = st.currentPlayer`). -/
inductive SetupStepOwn : GameState → GameState → Prop where
  | start (st : GameState) (h : st.gamePhase = GamePhase.GAME_SETUP) :
      SetupStepOwn st (autoPlaceKing
        { st with
          gamePhase := GamePhase.SETUP })
  | place (st : GameState) (row col : Nat) (kind : PieceType)
      (h : st.gamePhase = GamePhase.SETUP) (hr : row < 8) (hc : col < 8)
      (hk : kind ∈ PURCHASABLE_PIECES) :
      SetupStepOwn st (placePiece st row col kind)
  | move (st : GameState) (fromRow fromCol row col : Nat) (p : ChessPiece)
      (h : st.gamePhase = GamePhase.SETUP) (hr : row < 8) (hc : col < 8)
      (hsel : st.board fromRow fromCol = some p)
      (hown : p.isWhite = st.currentPlayer)
      (hzone : zoneRow st.currentPlayer fromRow) :
      SetupStepOwn st (setupMovePiece st fromRow fromCol row col)
  | del (st : GameState) (row col : Nat) (p : ChessPiece)
      (h : st.gamePhase = GamePhase.SETUP)
      (hsel : st.board row col = some p)
      (hown : p.isWhite = st.currentPlayer)
      (hzone : zoneRow st.currentPlayer row) :
      SetupStepOwn st (deletePiece st row col)
  | classic (st : GameState) (h : st.gamePhase = GamePhase.SETUP) :
      SetupStepOwn st (applyClassicSetup st)
  | save (st : GameState) (name : String)
      (h : st.gamePhase = GamePhase.SETUP) :
      SetupStepOwn st (saveCurrentSetup st name)
  | load (st : GameState) (setup : SavedSetup)
      (h : st.gamePhase = GamePhase.SETUP)
      (hs : setup ∈ st.savedSetups)
      (hcol : setup.isWhite = st.currentPlayer) :
      SetupStepOwn st (loadSavedSetup st setup)
  | reset (st : GameState) (h : st.gamePhase = GamePhase.SETUP) :
      SetupStepOwn st (resetCurrentPlayer st)
  | finish (st : GameState) (h : st.gamePhase = GamePhase.SETUP) :
      SetupStepOwn st (autoPlaceKing (finishSetup st))

/-- The invariant without the active-side-King conjunct: what holds of the
intermediate state before the auto-King effect runs. -/
def InvNoKing (st : GameState) : Prop :=
  costSum st.board true + st.whiteBudget = 39 ∧
  costSum st.board false + st.blackBudget = 39 ∧
  boardOK st.board ∧
  (∀ side, hasKing st.board side ∨ noPieces st.board side) ∧
  (∀ s ∈ st.savedSetups, savedOK s)

theorem cellCost_mk (kind : PieceType) (t side : Bool) :
    cellCost (some ⟨kind, t⟩) side = if t = side then PIECE_COSTS kind
      else 0 := rfl

theorem cellCost_king (t side : Bool) :
    cellCost (some ⟨PieceType.KING, t⟩) side = 0 := by
  cases t <;> cases side <;> rfl

theorem defaultKingRow_lt (side : Bool) : defaultKingRow side < 8 := by
  cases side <;> simp [defaultKingRow]

theorem zoneRow_default (side : Bool) : zoneRow side (defaultKingRow side) := by
  cases side <;> simp [zoneRow, defaultKingRow]

/-- The auto-King effect turns the King-free invariant into the full one. -/
theorem Inv_autoPlaceKing (st : GameState) (hi : InvNoKing st) :
    Inv (autoPlaceKing st) := by
  obtain ⟨h1, h2, hok, hd, he⟩ := hi
  unfold autoPlaceKing
  split
  case isFalse hcond =>
    refine ⟨h1, h2, hok, ?_, hd, he⟩
    intro hph
    rcases not_and_or.mp hcond with h | h
    · exact absurd hph h
    · exact of_not_not h
  case isTrue hcond =>
  obtain ⟨hph, hnk⟩ := hcond
  have hnp : noPieces st.board st.currentPlayer :=
    (hd st.currentPlayer).resolve_left hnk
  have hempty : st.board (defaultKingRow st.currentPlayer) 4 = none := by
    cases hcell : st.board (defaultKingRow st.currentPlayer) 4 with
    | none => rfl
    | some q =>
      exfalso
      rcases hok _ _ _ hcell with ⟨_, _, hz⟩
      by_cases hqw : q.isWhite = st.currentPlayer
      · exact hnp _ _ _ hcell hqw
      · exact zoneRow_disj _ hz (zoneRow_default st.currentPlayer) hqw
  have hcs1 := costSum_setSq st.board (defaultKingRow st.currentPlayer) 4
    (some ⟨PieceType.KING, st.currentPlayer⟩) true
    (defaultKingRow_lt st.currentPlayer) (by omega)
  have hcs2 := costSum_setSq st.board (defaultKingRow st.currentPlayer) 4
    (some ⟨PieceType.KING, st.currentPlayer⟩) false
    (defaultKingRow_lt st.currentPlayer) (by omega)
  rw [hempty, cellCost_none, cellCost_king] at hcs1 hcs2
  refine ⟨?_, ?_, ?_, ?_, ?_, he⟩
  · show costSum (setSq st.board (defaultKingRow st.currentPlayer) 4
      (some ⟨PieceType.KING, st.currentPlayer⟩)) true + st.whiteBudget = 39
    omega
  · show costSum (setSq st.board (defaultKingRow st.currentPlayer) 4
      (some ⟨PieceType.KING, st.currentPlayer⟩)) false + st.blackBudget = 39
    omega
  · intro r c p hcell
    dsimp only at hcell
    by_cases hrc : r = defaultKingRow st.currentPlayer ∧ c = 4
    · obtain ⟨rfl, rfl⟩ := hrc
      rw [setSq_same] at hcell
      injection hcell with hp
      subst hp
      exact ⟨defaultKingRow_lt st.currentPlayer, by omega,
        zoneRow_default st.currentPlayer⟩
    · rw [setSq_other _ _ _ _ _ _ hrc] at hcell
      exact hok _ _ _ hcell
  · intro _
    exact hasKing_setSq_self _ _ _ _ (defaultKingRow_lt st.currentPlayer)
      (by omega)
  · intro side
    by_cases hside : side = st.currentPlayer
    · subst hside
      exact Or.inl (hasKing_setSq_self _ _ _ _
        (defaultKingRow_lt st.currentPlayer) (by omega))
    · rcases hd side with hk | hnp2
      · refine Or.inl (hasKing_setSq_of_ne _ _ _ _ _ hk ?_)
        rw [hempty]
        intro hcon
        exact Option.noConfusion hcon
      · refine Or.inr ?_
        intro r c q hcell
        dsimp only at hcell
        by_cases hrc : r = defaultKingRow st.currentPlayer ∧ c = 4
        · obtain ⟨rfl, rfl⟩ := hrc
          rw [setSq_same] at hcell
          injection hcell with hq
          subst hq
          exact fun hw => hside hw.symm
        · rw [setSq_other _ _ _ _ _ _ hrc] at hcell
          exact hnp2 _ _ _ hcell

set_option maxHeartbeats 1000000 in
/-- Placing a piece preserves the invariant. -/
theorem Inv_placePiece (st : GameState) (row col : Nat) (kind : PieceType)
    (hph : st.gamePhase = GamePhase.SETUP) (hr : row < 8) (hc : col < 8)
    (hi : Inv st) : Inv (placePiece st row col kind) := by
  obtain ⟨h1, h2, hok, hking, hd, he⟩ := hi
  by_cases hcond : st.board row col = none ∧ zoneRow st.currentPlayer row
  case neg =>
    unfold placePiece
    rw [if_neg hcond]
    exact ⟨h1, h2, hok, hking, hd, he⟩
  case pos =>
  by_cases hbud : PIECE_COSTS kind ≤
      (if st.currentPlayer then st.whiteBudget else st.blackBudget)
  case neg =>
    unfold placePiece
    rw [if_pos hcond, if_neg hbud]
    exact ⟨h1, h2, hok, hking, hd, he⟩
  case pos =>
  unfold placePiece
  rw [if_pos hcond, if_pos hbud]
  obtain ⟨hempty, hzone⟩ := hcond
  have hkk := hking hph
  have hcs1 := costSum_setSq st.board row col
    (some ⟨kind, st.currentPlayer⟩) true hr hc
  have hcs2 := costSum_setSq st.board row col
    (some ⟨kind, st.currentPlayer⟩) false hr hc
  rw [hempty, cellCost_none, cellCost_mk] at hcs1 hcs2
  have hne : st.board row col ≠ some ⟨PieceType.KING, st.currentPlayer⟩ := by
    rw [hempty]
    intro hcon
    exact Option.noConfusion hcon
  refine ⟨?_, ?_, ?_, ?_, ?_, he⟩
  · show costSum (setSq st.board row col (some ⟨kind, st.currentPlayer⟩)) true
      + (if st.currentPlayer then st.whiteBudget - PIECE_COSTS kind
          else st.whiteBudget) = 39
    cases hcp : st.currentPlayer
    · rw [hcp] at hcs1
      simp only [Bool.false_eq_true, if_false] at hcs1 ⊢
      omega
    · rw [hcp] at hcs1 hbud
      simp only [if_true] at hcs1 hbud ⊢
      omega
  · show costSum (setSq st.board row col (some ⟨kind, st.currentPlayer⟩)) false
      + (if st.currentPlayer then st.blackBudget
          else st.blackBudget - PIECE_COSTS kind) = 39
    cases hcp : st.currentPlayer
    · rw [hcp] at hcs2 hbud
      simp only [Bool.false_eq_true, if_false] at hcs2 hbud ⊢
      simp only [if_true] at hcs2
      omega
    · rw [hcp] at hcs2
      simp only [if_true] at hcs2 ⊢
      simp only [Bool.true_eq_false, if_false] at hcs2
      omega
  · intro r c p hcell
    dsimp only at hcell
    by_cases hrc : r = row ∧ c = col
    · obtain ⟨rfl, rfl⟩ := hrc
      rw [setSq_same] at hcell
      injection hcell with hp
      subst hp
      exact ⟨hr, hc, hzone⟩
    · rw [setSq_other _ _ _ _ _ _ hrc] at hcell
      exact hok _ _ _ hcell
  · intro _
    exact hasKing_setSq_of_ne _ _ _ _ _ hkk hne
  · intro side
    by_cases hside : side = st.currentPlayer
    · subst hside
      exact Or.inl (hasKing_setSq_of_ne _ _ _ _ _ hkk hne)
    · rcases hd side with hk | hnp
      · refine Or.inl (hasKing_setSq_of_ne _ _ _ _ _ hk ?_)
        rw [hempty]
        intro hcon
        exact Option.noConfusion hcon
      · refine Or.inr ?_
        intro r c q hcell
        dsimp only at hcell
        by_cases hrc : r = row ∧ c = col
        · obtain ⟨rfl, rfl⟩ := hrc
          rw [setSq_same] at hcell
          injection hcell with hq
          subst hq
          exact fun hw => hside hw.symm
        · rw [setSq_other _ _ _ _ _ _ hrc] at hcell
          exact hnp _ _ _ hcell

set_option maxHeartbeats 1000000 in
/-- Deleting a selected own piece preserves the invariant. -/
theorem Inv_deletePiece (st : GameState) (row col : Nat) (p : ChessPiece)
    (hph : st.gamePhase = GamePhase.SETUP)
    (hsel : st.board row col = some p)
    (hown : p.isWhite = st.currentPlayer) (hi : Inv st) :
    Inv (deletePiece st row col) := by
  obtain ⟨h1, h2, hok, hking, hd, he⟩ := hi
  obtain ⟨hrr, hcc, _⟩ := hok _ _ _ hsel
  have hkk := hking hph
  unfold deletePiece
  rw [hsel]
  dsimp only
  split
  case isFalse => exact ⟨h1, h2, hok, hking, hd, he⟩
  case isTrue hnk =>
  have hcs1 := costSum_setSq st.board row col none true hrr hcc
  have hcs2 := costSum_setSq st.board row col none false hrr hcc
  rw [hsel, cellCost_none, cellCost_some] at hcs1 hcs2
  have hne : st.board row col ≠ some ⟨PieceType.KING, st.currentPlayer⟩ := by
    rw [hsel]
    intro hcon
    injection hcon with hpk
    subst hpk
    exact hnk rfl
  refine ⟨?_, ?_, ?_, ?_, ?_, he⟩
  · show costSum (setSq st.board row col none) true
      + (if st.currentPlayer then st.whiteBudget + PIECE_COSTS p.type
          else st.whiteBudget) = 39
    cases hcp : st.currentPlayer
    · rw [hcp] at hown
      rw [hown] at hcs1
      simp only [Bool.false_eq_true, if_false] at hcs1 ⊢
      omega
    · rw [hcp] at hown
      rw [hown] at hcs1
      simp only [if_true] at hcs1 ⊢
      omega
  · show costSum (setSq st.board row col none) false
      + (if st.currentPlayer then st.blackBudget
          else st.blackBudget + PIECE_COSTS p.type) = 39
    cases hcp : st.currentPlayer
    · rw [hcp] at hown
      rw [hown] at hcs2
      simp only [Bool.false_eq_true, if_false] at hcs2 ⊢
      simp only [if_true] at hcs2
      omega
    · rw [hcp] at hown
      rw [hown] at hcs2
      simp only [if_true] at hcs2 ⊢
      simp only [Bool.true_eq_false, if_false] at hcs2
      omega
  · intro r c q hcell
    dsimp only at hcell
    by_cases hrc : r = row ∧ c = col
    · obtain ⟨rfl, rfl⟩ := hrc
      rw [setSq_same] at hcell
      exact Option.noConfusion hcell
    · rw [setSq_other _ _ _ _ _ _ hrc] at hcell
      exact hok _ _ _ hcell
  · intro _
    exact hasKing_setSq_of_ne _ _ _ _ _ hkk hne
  · intro side
    by_cases hside : side = st.currentPlayer
    · subst hside
      exact Or.inl (hasKing_setSq_of_ne _ _ _ _ _ hkk hne)
    · rcases hd side with hk | hnp
      · refine Or.inl (hasKing_setSq_of_ne _ _ _ _ _ hk ?_)
        rw [hsel]
        intro hcon
        injection hcon with hpk
        subst hpk
        exact hside hown
      · refine Or.inr ?_
        intro r c q hcell
        dsimp only at hcell
        by_cases hrc : r = row ∧ c = col
        · obtain ⟨rfl, rfl⟩ := hrc
          rw [setSq_same] at hcell
          exact Option.noConfusion hcell
        · rw [setSq_other _ _ _ _ _ _ hrc] at hcell
          exact hnp _ _ _ hcell

theorem cellCost_clearSide_self (b : Board) (side : Bool) (r c : Nat) :
    cellCost (clearSide b side r c) side = 0 := by
  unfold clearSide
  cases hcell : b r c with
  | none => rfl
  | some q =>
    dsimp only
    by_cases hq : q.isWhite = side
    · rw [if_pos hq]
      rfl
    · rw [if_neg hq, cellCost_some, if_neg hq]

theorem cellCost_clearSide_other (b : Board) (side t : Bool) (ht : t ≠ side)
    (r c : Nat) : cellCost (clearSide b side r c) t = cellCost (b r c) t := by
  unfold clearSide
  cases hcell : b r c with
  | none => rfl
  | some q =>
    dsimp only
    by_cases hq : q.isWhite = side
    · rw [if_pos hq, cellCost_none, cellCost_some, if_neg ?_]
      rw [hq]
      exact fun hh => ht hh.symm
    · rw [if_neg hq]

theorem clearSide_sub (b : Board) (side : Bool) (r c : Nat) (q : ChessPiece)
    (h : clearSide b side r c = some q) :
    b r c = some q ∧ q.isWhite ≠ side := by
  revert h
  unfold clearSide
  cases hcell : b r c with
  | none =>
    intro h
    exact Option.noConfusion h
  | some p =>
    dsimp only
    by_cases hp : p.isWhite = side
    · rw [if_pos hp]
      intro h
      exact Option.noConfusion h
    · rw [if_neg hp]
      intro h
      injection h with h2
      subst h2
      exact ⟨rfl, hp⟩

theorem clearSide_keep (b : Board) (side : Bool) (r c : Nat) (q : ChessPiece)
    (hq : b r c = some q) (hqw : q.isWhite ≠ side) :
    clearSide b side r c = some q := by
  unfold clearSide
  rw [hq]
  dsimp only
  rw [if_neg hqw]

theorem costSum_clearSide_self (b : Board) (side : Bool) :
    costSum (clearSide b side) side = 0 := by
  unfold costSum
  rw [sum2_congr _ (fun _ _ => 0)
    (fun r c _ _ => cellCost_clearSide_self b side r c)]
  exact sum2_zero

theorem costSum_clearSide_other (b : Board) (side t : Bool) (ht : t ≠ side) :
    costSum (clearSide b side) t = costSum b t := by
  unfold costSum
  exact sum2_congr _ _ (fun r c _ _ => cellCost_clearSide_other b side t ht r c)

set_option maxHeartbeats 1000000 in
/-- Moving a selected own piece during Setup preserves the invariant. -/
theorem Inv_setupMovePiece (st : GameState) (fromRow fromCol row col : Nat)
    (p : ChessPiece) (hph : st.gamePhase = GamePhase.SETUP)
    (hr : row < 8) (hc : col < 8)
    (hsel : st.board fromRow fromCol = some p)
    (hown : p.isWhite = st.currentPlayer) (hi : Inv st) :
    Inv (setupMovePiece st fromRow fromCol row col) := by
  obtain ⟨h1, h2, hok, hking, hd, he⟩ := hi
  obtain ⟨hfr, hfc, hfz⟩ := hok _ _ _ hsel
  have hkk := hking hph
  unfold setupMovePiece
  rw [hsel]
  dsimp only
  by_cases hcond : zoneRow st.currentPlayer row ∧
      (st.board row col = none ∨
        (∃ q, st.board row col = some q ∧ q.isWhite ≠ st.currentPlayer))
  case neg =>
    rw [if_neg hcond]
    exact ⟨h1, h2, hok, hking, hd, he⟩
  case pos =>
  rw [if_pos hcond]
  have hdest : st.board row col = none := by
    rcases hcond.2 with hnone | ⟨q, hq, hqw⟩
    · exact hnone
    · exfalso
      rcases hok _ _ _ hq with ⟨_, _, hz⟩
      exact zoneRow_disj _ hz hcond.1 hqw
  rw [hdest]
  dsimp only
  simp only [Nat.add_zero, ite_self]
  have hb1 : (setSq st.board fromRow fromCol none) row col = none := by
    by_cases hrc : row = fromRow ∧ col = fromCol
    · obtain ⟨rfl, rfl⟩ := hrc
      rw [setSq_same]
    · rw [setSq_other _ _ _ _ _ _ hrc]
      exact hdest
  have hca := costSum_setSq st.board fromRow fromCol none true hfr hfc
  have hcb := costSum_setSq st.board fromRow fromCol none false hfr hfc
  rw [hsel, cellCost_none, cellCost_some] at hca hcb
  have hca2 := costSum_setSq (setSq st.board fromRow fromCol none) row col
    (some p) true hr hc
  have hcb2 := costSum_setSq (setSq st.board fromRow fromCol none) row col
    (some p) false hr hc
  rw [hb1, cellCost_none, cellCost_some] at hca2 hcb2
  have hkk2 : hasKing (setSq (setSq st.board fromRow fromCol none) row col
      (some p)) st.currentPlayer := by
    by_cases hpk : p = ⟨PieceType.KING, st.currentPlayer⟩
    · exact ⟨row, hr, col, hc, by rw [setSq_same, hpk]⟩
    · have h1k : hasKing (setSq st.board fromRow fromCol none)
          st.currentPlayer := by
        refine hasKing_setSq_of_ne _ _ _ _ _ hkk ?_
        rw [hsel]
        intro hcon
        injection hcon with hx
        exact hpk hx
      refine hasKing_setSq_of_ne _ _ _ _ _ h1k ?_
      rw [hb1]
      intro hcon
      exact Option.noConfusion hcon
  refine ⟨?_, ?_, ?_, ?_, ?_, he⟩
  · show costSum (setSq (setSq st.board fromRow fromCol none) row col
      (some p)) true + st.whiteBudget = 39
    omega
  · show costSum (setSq (setSq st.board fromRow fromCol none) row col
      (some p)) false + st.blackBudget = 39
    omega
  · intro r c q hcell
    dsimp only at hcell
    by_cases hrc : r = row ∧ c = col
    · obtain ⟨rfl, rfl⟩ := hrc
      rw [setSq_same] at hcell
      injection hcell with hq
      subst hq
      refine ⟨hr, hc, ?_⟩
      rw [hown]
      exact hcond.1
    · rw [setSq_other _ _ _ _ _ _ hrc] at hcell
      by_cases hrc2 : r = fromRow ∧ c = fromCol
      · obtain ⟨rfl, rfl⟩ := hrc2
        rw [setSq_same] at hcell
        exact Option.noConfusion hcell
      · rw [setSq_other _ _ _ _ _ _ hrc2] at hcell
        exact hok _ _ _ hcell
  · intro _
    exact hkk2
  · intro side
    by_cases hside : side = st.currentPlayer
    · subst hside
      exact Or.inl hkk2
    · rcases hd side with hk | hnp
      · refine Or.inl (hasKing_setSq_of_ne _ _ _ _ _ ?_ ?_)
        · refine hasKing_setSq_of_ne _ _ _ _ _ hk ?_
          rw [hsel]
          intro hcon
          injection hcon with hx
          subst hx
          exact hside hown
        · rw [hb1]
          intro hcon
          exact Option.noConfusion hcon
      · refine Or.inr ?_
        intro r c q hcell
        dsimp only at hcell
        by_cases hrc : r = row ∧ c = col
        · obtain ⟨rfl, rfl⟩ := hrc
          rw [setSq_same] at hcell
          injection hcell with hq
          subst hq
          rw [hown]
          exact fun hw => hside hw.symm
        · rw [setSq_other _ _ _ _ _ _ hrc] at hcell
          by_cases hrc2 : r = fromRow ∧ c = fromCol
          · obtain ⟨rfl, rfl⟩ := hrc2
            rw [setSq_same] at hcell
            exact Option.noConfusion hcell
          · rw [setSq_other _ _ _ _ _ _ hrc2] at hcell
            exact hnp _ _ _ hcell

theorem classicBoard_cellCost_self (b : Board) (side : Bool) (r c : Nat) :
    cellCost (classicBoard b side r c) side
      = cellCost (classicBoard emptyBoard side r c) side := by
  unfold classicBoard
  by_cases hP : r = (if side then 6 else 1) ∧ c < 8
  · simp only [if_pos hP]
  · simp only [if_neg hP]
    by_cases hQ : r = (if side then 7 else 0) ∧ c < 8
    · simp only [if_pos hQ]
    · simp only [if_neg hQ]
      rw [cellCost_clearSide_self, cellCost_clearSide_self]

theorem costSum_classic_self (b : Board) (side : Bool) :
    costSum (classicBoard b side) side = 39 := by
  have h : costSum (classicBoard b side) side
      = costSum (classicBoard emptyBoard side) side := by
    unfold costSum
    exact sum2_congr _ _ (fun r c _ _ => classicBoard_cellCost_self b side r c)
  rw [h]
  cases side <;> decide

theorem zoneRow_pawnRow (side : Bool) :
    zoneRow side (if side then 6 else 1) := by
  cases side <;> simp [zoneRow]

theorem zoneRow_backRow (side : Bool) :
    zoneRow side (if side then 7 else 0) := by
  cases side <;> simp [zoneRow]

theorem costSum_classic_other (b : Board) (side t : Bool) (hok : boardOK b)
    (ht : t ≠ side) : costSum (classicBoard b side) t = costSum b t := by
  unfold costSum
  apply sum2_congr
  intro r c _ _
  show cellCost (classicBoard b side r c) t = cellCost (b r c) t
  have hcellzone : ∀ q : ChessPiece, b r c = some q → q.isWhite = t →
      zoneRow side r → False := by
    intro q hcell hqw hz
    rcases hok _ _ _ hcell with ⟨_, _, hzq⟩
    rw [hqw] at hzq
    exact zoneRow_disj _ hzq hz ht
  have hrowcase : ∀ hz : zoneRow side r, cellCost (b r c) t = 0 := by
    intro hz
    cases hcell : b r c with
    | none => rfl
    | some q =>
      rw [cellCost_some]
      by_cases hqw : q.isWhite = t
      · exact absurd hz (fun hzz => hcellzone q hcell hqw hzz)
      · rw [if_neg hqw]
  unfold classicBoard
  by_cases hP : r = (if side then 6 else 1) ∧ c < 8
  · rw [if_pos hP, cellCost_mk, if_neg (fun hh => ht hh.symm),
      hrowcase (hP.1 ▸ zoneRow_pawnRow side)]
  · rw [if_neg hP]
    by_cases hQ : r = (if side then 7 else 0) ∧ c < 8
    · rw [if_pos hQ, cellCost_mk, if_neg (fun hh => ht hh.symm),
        hrowcase (hQ.1 ▸ zoneRow_backRow side)]
    · rw [if_neg hQ]
      exact cellCost_clearSide_other b side t ht r c

theorem classicBoard_hasKing (b : Board) (side : Bool) :
    hasKing (classicBoard b side) side := by
  cases side
  · exact ⟨0, by omega, 4, by omega, rfl⟩
  · exact ⟨7, by omega, 4, by omega, rfl⟩

theorem classicBoard_keep_other (b : Board) (side : Bool) (r c : Nat)
    (q : ChessPiece) (hq : b r c = some q) (hqw : q.isWhite ≠ side)
    (hz : zoneRow q.isWhite r) :
    classicBoard b side r c = some q := by
  unfold classicBoard
  rw [if_neg, if_neg]
  · exact clearSide_keep b side r c q hq hqw
  · rintro ⟨hr1, _⟩
    exact zoneRow_disj r hz (hr1 ▸ zoneRow_backRow side) hqw
  · rintro ⟨hr1, _⟩
    exact zoneRow_disj r hz (hr1 ▸ zoneRow_pawnRow side) hqw

/-- The classic preset preserves the invariant. -/
theorem Inv_applyClassicSetup (st : GameState)
    (hph : st.gamePhase = GamePhase.SETUP) (hi : Inv st) :
    Inv (applyClassicSetup st) := by
  obtain ⟨h1, h2, hok, hking, hd, he⟩ := hi
  have hkc := classicBoard_hasKing st.board st.currentPlayer
  refine ⟨?_, ?_, ?_, ?_, ?_, he⟩
  · show costSum (classicBoard st.board st.currentPlayer) true
      + (if st.currentPlayer then
          39 - (8 * PIECE_COSTS PieceType.PAWN + 2 * PIECE_COSTS PieceType.ROOK
            + 2 * PIECE_COSTS PieceType.KNIGHT
            + 2 * PIECE_COSTS PieceType.BISHOP + PIECE_COSTS PieceType.QUEEN)
          else st.whiteBudget) = 39
    cases hcp : st.currentPlayer
    · simp only [Bool.false_eq_true, if_false]
      rw [costSum_classic_other st.board false true hok (by decide)]
      omega
    · simp only [if_true]
      rw [costSum_classic_self]
      decide
  · show costSum (classicBoard st.board st.currentPlayer) false
      + (if st.currentPlayer then st.blackBudget
          else 39 - (8 * PIECE_COSTS PieceType.PAWN
            + 2 * PIECE_COSTS PieceType.ROOK + 2 * PIECE_COSTS PieceType.KNIGHT
            + 2 * PIECE_COSTS PieceType.BISHOP + PIECE_COSTS PieceType.QUEEN))
          = 39
    cases hcp : st.currentPlayer
    · simp only [Bool.false_eq_true, if_false]
      rw [costSum_classic_self]
      decide
    · simp only [if_true]
      rw [costSum_classic_other st.board true false hok (by decide)]
      omega
  · intro r c q hcell0
    have hcell : classicBoard st.board st.currentPlayer r c = some q := hcell0
    revert hcell
    unfold classicBoard
    by_cases hP : r = (if st.currentPlayer then 6 else 1) ∧ c < 8
    · rw [if_pos hP]
      intro hcell
      injection hcell with hq
      subst hq
      exact ⟨by rcases hP with ⟨rfl, _⟩; cases st.currentPlayer <;> decide,
        hP.2, hP.1 ▸ zoneRow_pawnRow st.currentPlayer⟩
    · rw [if_neg hP]
      by_cases hQ : r = (if st.currentPlayer then 7 else 0) ∧ c < 8
      · rw [if_pos hQ]
        intro hcell
        injection hcell with hq
        subst hq
        exact ⟨by rcases hQ with ⟨rfl, _⟩; cases st.currentPlayer <;> decide,
          hQ.2, hQ.1 ▸ zoneRow_backRow st.currentPlayer⟩
      · rw [if_neg hQ]
        intro hcell
        obtain ⟨hbc, _⟩ := clearSide_sub _ _ _ _ _ hcell
        exact hok _ _ _ hbc
  · intro _
    exact hkc
  · intro side
    by_cases hside : side = st.currentPlayer
    · subst hside
      exact Or.inl hkc
    · rcases hd side with hk | hnp
      · obtain ⟨r, hr8, c, hc8, hcell⟩ := hk
        refine Or.inl ⟨r, hr8, c, hc8, ?_⟩
        refine classicBoard_keep_other _ _ _ _ _ hcell ?_ ?_
        · exact fun hw => hside hw
        · rcases hok _ _ _ hcell with ⟨_, _, hz⟩
          exact hz
      · refine Or.inr ?_
        intro r c q hcell0
        have hcell : classicBoard st.board st.currentPlayer r c = some q :=
          hcell0
        revert hcell
        unfold classicBoard
        by_cases hP : r = (if st.currentPlayer then 6 else 1) ∧ c < 8
        · rw [if_pos hP]
          intro hcell
          injection hcell with hq
          subst hq
          exact fun hw => hside hw.symm
        · rw [if_neg hP]
          by_cases hQ : r = (if st.currentPlayer then 7 else 0) ∧ c < 8
          · rw [if_pos hQ]
            intro hcell
            injection hcell with hq
            subst hq
            exact fun hw => hside hw.symm
          · rw [if_neg hQ]
            intro hcell
            obtain ⟨hbc, _⟩ := clearSide_sub _ _ _ _ _ hcell
            exact hnp _ _ _ hbc

/-- Saving the current layout preserves the invariant: it only appends a
well-formed layout record. -/
theorem Inv_saveCurrentSetup (st : GameState) (name : String)
    (hph : st.gamePhase = GamePhase.SETUP) (hi : Inv st) :
    Inv (saveCurrentSetup st name) := by
  obtain ⟨h1, h2, hok, hking, hd, he⟩ := hi
  have hkk := hking hph
  refine ⟨h1, h2, hok, hking, hd, ?_⟩
  intro s hs
  have hs2 : s ∈ (st.savedSetups.filter (fun s => s.name ≠ name)) ++
      [{ name := name,
         board := ownFilter st.board st.currentPlayer,
         budget := if st.currentPlayer then st.whiteBudget else st.blackBudget,
         isWhite := st.currentPlayer }] := hs
  rcases List.mem_append.mp hs2 with hmem | hmem
  · exact he s (List.mem_of_mem_filter hmem)
  · rw [List.mem_singleton] at hmem
    subst hmem
    refine ⟨?_, ?_, ?_⟩
    · show layoutCost (ownFilter st.board st.currentPlayer) +
        (if st.currentPlayer then st.whiteBudget else st.blackBudget) = 39
      have hl : layoutCost (ownFilter st.board st.currentPlayer)
          = costSum st.board st.currentPlayer := by
        unfold layoutCost costSum
        apply sum2_congr
        intro r c _ _
        show (match ownFilter st.board st.currentPlayer r c with
          | some p => PIECE_COSTS p.type
          | none => 0) = cellCost (st.board r c) st.currentPlayer
        unfold ownFilter
        cases hcell : st.board r c with
        | none => rfl
        | some q =>
          dsimp only
          rw [cellCost_some]
          by_cases hq : q.isWhite = st.currentPlayer
          · rw [if_pos hq, if_pos hq]
          · rw [if_neg hq, if_neg hq]
      rw [hl]
      cases hcp : st.currentPlayer
      · simp only [Bool.false_eq_true, if_false]
        exact h2
      · simp only [if_true]
        exact h1
    · intro r c q hcell
      have hcell2 : ownFilter st.board st.currentPlayer r c = some q := hcell
      have hsub : st.board r c = some q ∧ q.isWhite = st.currentPlayer := by
        revert hcell2
        unfold ownFilter
        cases hcell3 : st.board r c with
        | none =>
          intro h
          exact Option.noConfusion h
        | some q2 =>
          dsimp only
          by_cases hq : q2.isWhite = st.currentPlayer
          · rw [if_pos hq]
            intro h
            injection h with h2
            subst h2
            exact ⟨rfl, hq⟩
          · rw [if_neg hq]
            intro h
            exact Option.noConfusion h
      rcases hok _ _ _ hsub.1 with ⟨ha, hb, hz⟩
      refine ⟨ha, hb, ?_, hsub.2⟩
      show zoneRow st.currentPlayer r
      rw [← hsub.2]
      exact hz
    · obtain ⟨r, hr, c, hc, hcell⟩ := hkk
      refine ⟨r, hr, c, hc, ?_⟩
      show ownFilter st.board st.currentPlayer r c
        = some ⟨PieceType.KING, st.currentPlayer⟩
      unfold ownFilter
      rw [hcell]
      dsimp only
      rw [if_pos rfl]

/-- Loading a layout saved by the active side preserves the invariant. -/
theorem Inv_loadOwn (st : GameState) (setup : SavedSetup)
    (hs : setup ∈ st.savedSetups) (hcol : setup.isWhite = st.currentPlayer)
    (hi : Inv st) : Inv (loadSavedSetup st setup) := by
  obtain ⟨h1, h2, hok, hking, hd, he⟩ := hi
  obtain ⟨hsc, hszone, hsking⟩ := he setup hs
  have hself : costSum (loadBoard st.board st.currentPlayer setup)
      st.currentPlayer = layoutCost setup.board := by
    unfold costSum layoutCost
    apply sum2_congr
    intro r c _ _
    show cellCost (loadBoard st.board st.currentPlayer setup r c)
        st.currentPlayer
      = match setup.board r c with
        | some p => PIECE_COSTS p.type
        | none => 0
    unfold loadBoard
    cases hcell : setup.board r c with
    | none =>
      dsimp only
      exact cellCost_clearSide_self _ _ _ _
    | some p =>
      dsimp only
      rw [cellCost_some, if_pos rfl]
  have hother : ∀ t : Bool, t ≠ st.currentPlayer →
      costSum (loadBoard st.board st.currentPlayer setup) t
        = costSum st.board t := by
    intro t ht
    unfold costSum
    apply sum2_congr
    intro r c _ _
    show cellCost (loadBoard st.board st.currentPlayer setup r c) t
      = cellCost (st.board r c) t
    unfold loadBoard
    cases hcell : setup.board r c with
    | none =>
      dsimp only
      exact cellCost_clearSide_other _ _ _ ht r c
    | some p =>
      dsimp only
      rw [cellCost_some, if_neg (fun hh => ht hh.symm)]
      cases hcell2 : st.board r c with
      | none => rfl
      | some q =>
        rw [cellCost_some]
        by_cases hqw : q.isWhite = t
        · exfalso
          rcases hok _ _ _ hcell2 with ⟨_, _, hzq⟩
          rcases hszone _ _ _ hcell with ⟨_, _, hzs, _⟩
          rw [hcol] at hzs
          rw [hqw] at hzq
          exact zoneRow_disj _ hzq hzs ht
        · rw [if_neg hqw]
  have hkk2 : hasKing (loadBoard st.board st.currentPlayer setup)
      st.currentPlayer := by
    obtain ⟨r, hr, c, hc, hcell⟩ := hsking
    refine ⟨r, hr, c, hc, ?_⟩
    unfold loadBoard
    rw [hcell]
  refine ⟨?_, ?_, ?_, ?_, ?_, he⟩
  · show costSum (loadBoard st.board st.currentPlayer setup) true
      + (if st.currentPlayer then setup.budget else st.whiteBudget) = 39
    cases hcp : st.currentPlayer
    · simp only [Bool.false_eq_true, if_false]
      rw [hcp] at hother
      rw [hother true (by decide)]
      exact h1
    · simp only [if_true]
      rw [hcp] at hself
      rw [hself]
      exact hsc
  · show costSum (loadBoard st.board st.currentPlayer setup) false
      + (if st.currentPlayer then st.blackBudget else setup.budget) = 39
    cases hcp : st.currentPlayer
    · simp only [Bool.false_eq_true, if_false]
      rw [hcp] at hself
      rw [hself]
      exact hsc
    · simp only [if_true]
      rw [hcp] at hother
      rw [hother false (by decide)]
      exact h2
  · intro r c q hcell
    have hcell2 : loadBoard st.board st.currentPlayer setup r c = some q :=
      hcell
    revert hcell2
    unfold loadBoard
    cases hcell3 : setup.board r c with
    | none =>
      dsimp only
      intro hcell2
      obtain ⟨hbc, _⟩ := clearSide_sub _ _ _ _ _ hcell2
      exact hok _ _ _ hbc
    | some p =>
      dsimp only
      intro hcell2
      injection hcell2 with hq
      subst hq
      rcases hszone _ _ _ hcell3 with ⟨ha, hb, hz, _⟩
      refine ⟨ha, hb, ?_⟩
      show zoneRow st.currentPlayer r
      rw [← hcol]
      exact hz
  · intro _
    exact hkk2
  · intro side
    by_cases hside : side = st.currentPlayer
    · subst hside
      exact Or.inl hkk2
    · rcases hd side with hk | hnp
      · obtain ⟨r, hr8, c, hc8, hcell⟩ := hk
        refine Or.inl ⟨r, hr8, c, hc8, ?_⟩
        show loadBoard st.board st.currentPlayer setup r c
          = some ⟨PieceType.KING, side⟩
        unfold loadBoard
        cases hcell3 : setup.board r c with
        | none =>
          dsimp only
          refine clearSide_keep _ _ _ _ _ hcell ?_
          exact fun hw => hside hw
        | some p =>
          exfalso
          rcases hok _ _ _ hcell with ⟨_, _, hzq⟩
          rcases hszone _ _ _ hcell3 with ⟨_, _, hzs, _⟩
          rw [hcol] at hzs
          exact zoneRow_disj _ hzq hzs hside
      · refine Or.inr ?_
        intro r c q hcell
        have hcell2 : loadBoard st.board st.currentPlayer setup r c = some q :=
          hcell
        revert hcell2
        unfold loadBoard
        cases hcell3 : setup.board r c with
        | none =>
          dsimp only
          intro hcell2
          obtain ⟨hbc, _⟩ := clearSide_sub _ _ _ _ _ hcell2
          exact hnp _ _ _ hbc
        | some p =>
          dsimp only
          intro hcell2
          injection hcell2 with hq
          subst hq
          exact fun hw => hside hw.symm

/-- Resetting the active side preserves the invariant. -/
theorem Inv_resetCurrentPlayer (st : GameState) (hi : Inv st) :
    Inv (resetCurrentPlayer st) := by
  obtain ⟨h1, h2, hok, hking, hd, he⟩ := hi
  have hdr := defaultKingRow_lt st.currentPlayer
  have hcs1 := costSum_setSq (clearSide st.board st.currentPlayer)
    (defaultKingRow st.currentPlayer) 4
    (some ⟨PieceType.KING, st.currentPlayer⟩) true hdr (by omega)
  have hcs2 := costSum_setSq (clearSide st.board st.currentPlayer)
    (defaultKingRow st.currentPlayer) 4
    (some ⟨PieceType.KING, st.currentPlayer⟩) false hdr (by omega)
  rw [cellCost_king] at hcs1 hcs2
  have hdefother : ∀ t : Bool, t ≠ st.currentPlayer →
      cellCost (clearSide st.board st.currentPlayer
        (defaultKingRow st.currentPlayer) 4) t = 0 := by
    intro t ht
    cases hcell : clearSide st.board st.currentPlayer
        (defaultKingRow st.currentPlayer) 4 with
    | none => rfl
    | some q =>
      obtain ⟨hbc, hqw⟩ := clearSide_sub _ _ _ _ _ hcell
      rw [cellCost_some]
      by_cases hqt : q.isWhite = t
      · exfalso
        rcases hok _ _ _ hbc with ⟨_, _, hzq⟩
        rw [hqt] at hzq
        exact zoneRow_disj _ hzq (zoneRow_default st.currentPlayer) ht
      · rw [if_neg hqt]
  have hkk2 : hasKing (setSq (clearSide st.board st.currentPlayer)
      (defaultKingRow st.currentPlayer) 4
      (some ⟨PieceType.KING, st.currentPlayer⟩)) st.currentPlayer :=
    hasKing_setSq_self _ _ _ _ hdr (by omega)
  refine ⟨?_, ?_, ?_, ?_, ?_, he⟩
  · show costSum (setSq (clearSide st.board st.currentPlayer)
        (defaultKingRow st.currentPlayer) 4
        (some ⟨PieceType.KING, st.currentPlayer⟩)) true
      + (if st.currentPlayer then 39 else st.whiteBudget) = 39
    cases hcp : st.currentPlayer
    · simp only [Bool.false_eq_true, if_false]
      rw [hcp] at hcs1 hdefother
      rw [hdefother true (by decide),
        costSum_clearSide_other st.board false true (by decide)] at hcs1
      omega
    · simp only [if_true]
      rw [hcp] at hcs1
      rw [cellCost_clearSide_self, costSum_clearSide_self] at hcs1
      omega
  · show costSum (setSq (clearSide st.board st.currentPlayer)
        (defaultKingRow st.currentPlayer) 4
        (some ⟨PieceType.KING, st.currentPlayer⟩)) false
      + (if st.currentPlayer then st.blackBudget else 39) = 39
    cases hcp : st.currentPlayer
    · simp only [Bool.false_eq_true, if_false]
      rw [hcp] at hcs2
      rw [cellCost_clearSide_self, costSum_clearSide_self] at hcs2
      omega
    · simp only [if_true]
      rw [hcp] at hcs2 hdefother
      rw [hdefother false (by decide),
        costSum_clearSide_other st.board true false (by decide)] at hcs2
      omega
  · intro r c q hcell
    have hcell2 : setSq (clearSide st.board st.currentPlayer)
        (defaultKingRow st.currentPlayer) 4
        (some ⟨PieceType.KING, st.currentPlayer⟩) r c = some q := hcell
    by_cases hrc : r = defaultKingRow st.currentPlayer ∧ c = 4
    · obtain ⟨rfl, rfl⟩ := hrc
      rw [setSq_same] at hcell2
      injection hcell2 with hq
      subst hq
      exact ⟨hdr, by omega, zoneRow_default st.currentPlayer⟩
    · rw [setSq_other _ _ _ _ _ _ hrc] at hcell2
      obtain ⟨hbc, _⟩ := clearSide_sub _ _ _ _ _ hcell2
      exact hok _ _ _ hbc
  · intro _
    exact hkk2
  · intro side
    by_cases hside : side = st.currentPlayer
    · subst hside
      exact Or.inl hkk2
    · rcases hd side with hk | hnp
      · obtain ⟨r, hr8, c, hc8, hcell⟩ := hk
        refine Or.inl ⟨r, hr8, c, hc8, ?_⟩
        show setSq (clearSide st.board st.currentPlayer)
            (defaultKingRow st.currentPlayer) 4
            (some ⟨PieceType.KING, st.currentPlayer⟩) r c
          = some ⟨PieceType.KING, side⟩
        have hkeep : clearSide st.board st.currentPlayer r c
            = some ⟨PieceType.KING, side⟩ :=
          clearSide_keep _ _ _ _ _ hcell (fun hw => hside hw)
        by_cases hrc : r = defaultKingRow st.currentPlayer ∧ c = 4
        · exfalso
          obtain ⟨rfl, rfl⟩ := hrc
          rcases hok _ _ _ hcell with ⟨_, _, hzq⟩
          exact zoneRow_disj _ hzq (zoneRow_default st.currentPlayer)
            (fun hw => hside hw)
        · rw [setSq_other _ _ _ _ _ _ hrc]
          exact hkeep
      · refine Or.inr ?_
        intro r c q hcell
        have hcell2 : setSq (clearSide st.board st.currentPlayer)
            (defaultKingRow st.currentPlayer) 4
            (some ⟨PieceType.KING, st.currentPlayer⟩) r c = some q := hcell
        by_cases hrc : r = defaultKingRow st.currentPlayer ∧ c = 4
        · obtain ⟨rfl, rfl⟩ := hrc
          rw [setSq_same] at hcell2
          injection hcell2 with hq
          subst hq
          exact fun hw => hside hw.symm
        · rw [setSq_other _ _ _ _ _ _ hrc] at hcell2
          obtain ⟨hbc, _⟩ := clearSide_sub _ _ _ _ _ hcell2
          exact hnp _ _ _ hbc

/-- The transition out of the start screen preserves the invariant. -/
theorem Inv_start (st : GameState) (hi : Inv st) :
    Inv (autoPlaceKing
      { st with
        gamePhase := GamePhase.SETUP }) :=
  Inv_autoPlaceKing _ ⟨hi.1, hi.2.1, hi.2.2.1, hi.2.2.2.2.1, hi.2.2.2.2.2⟩

/-- Finishing one side's setup (followed by the auto-King effect) preserves
the invariant. -/
theorem Inv_finish (st : GameState) (hi : Inv st) :
    Inv (autoPlaceKing (finishSetup st)) := by
  apply Inv_autoPlaceKing
  have base : InvNoKing st := ⟨hi.1, hi.2.1, hi.2.2.1, hi.2.2.2.2.1,
    hi.2.2.2.2.2⟩
  unfold finishSetup
  by_cases hk : ¬hasKing st.board st.currentPlayer
  · rw [if_pos hk]
    exact base
  · rw [if_neg hk]
    cases hcp : st.currentPlayer
    · simp only [Bool.false_eq_true, if_false]
      by_cases hwc : st.whiteSetupComplete
      · simp only [hwc, if_true]
        exact base
      · simp only [hwc, Bool.false_eq_true, if_false]
        exact base
    · simp only [if_true]
      by_cases hbc : st.blackSetupComplete
      · simp only [hbc, if_true]
        exact base
      · simp only [hbc, Bool.false_eq_true, if_false]
        exact base

/-- One restricted setup operation preserves the invariant. -/
theorem Inv_step {a b : GameState} (hstep : SetupStepOwn a b) (hi : Inv a) :
    Inv b := by
  cases hstep with
  | start h => exact Inv_start a hi
  | place row col kind h hr hc hk =>
    exact Inv_placePiece a row col kind h hr hc hi
  | move fromRow fromCol row col p h hr hc hsel hown hzone =>
    exact Inv_setupMovePiece a fromRow fromCol row col p h hr hc hsel hown hi
  | del row col p h hsel hown hzone =>
    exact Inv_deletePiece a row col p h hsel hown hi
  | classic h => exact Inv_applyClassicSetup a h hi
  | save name h => exact Inv_saveCurrentSetup a name h hi
  | load setup h hs hcol => exact Inv_loadOwn a setup hs hcol hi
  | reset h => exact Inv_resetCurrentPlayer a hi
  | finish h => exact Inv_finish a hi

/-- The invariant holds at every state reachable by restricted setup
operations. -/
theorem Inv_reachable (fog : Bool) (limit : Nat) (s : GameState)
    (h : Relation.ReflTransGen SetupStepOwn (initialState fog limit) s) :
    Inv s := by
  induction h with
  | refl => exact Inv_initial fog limit
  | tail hsteps hstep ih => exact Inv_step hstep ih

/-- C3 (amended): for each side, at every state reachable from the initial
state by setup operations — with saved layouts loaded only by the side that
saved them — the sum of the point costs of that side's pieces on the board
plus that side's remaining budget equals 39.  (As written, with loads of the
other side's layouts allowed, the claim is refuted by
`C3_budget_counterexample`.) -/
theorem C3_setup_budget_invariant (fog : Bool) (limit : Nat) (s : GameState)
    (h : Relation.ReflTransGen SetupStepOwn (initialState fog limit) s) :
    costSum s.board true + s.whiteBudget = 39 ∧
    costSum s.board false + s.blackBudget = 39 :=
  ⟨(Inv_reachable fog limit s h).1, (Inv_reachable fog limit s h).2.1⟩

/-- The state reached by starting setup (White auto-King) and placing one
White pawn at (5,0). -/
def c3OwnState : GameState :=
  placePiece (autoPlaceKing
    { initialState false 300 with
      gamePhase := GamePhase.SETUP }) 5 0 PieceType.PAWN

theorem C3_setup_budget_invariant_witness :
    Relation.ReflTransGen SetupStepOwn (initialState false 300) c3OwnState ∧
    (costSum c3OwnState.board true + c3OwnState.whiteBudget = 39 ∧
      costSum c3OwnState.board false + c3OwnState.blackBudget = 39) := by
  have hchain : Relation.ReflTransGen SetupStepOwn (initialState false 300)
      c3OwnState :=
    Relation.ReflTransGen.tail
      (Relation.ReflTransGen.single (SetupStepOwn.start _ rfl))
      (SetupStepOwn.place _ 5 0 PieceType.PAWN (by decide) (by decide)
        (by decide) (List.Mem.head _))
  exact ⟨hchain, C3_setup_budget_invariant false 300 c3OwnState hchain⟩

/-- Step 1 of the counterexample trace: enter Setup; the auto-King effect
gives White a King at (7,4). -/
def c3Trace1 : GameState :=
  autoPlaceKing
    { initialState false 300 with
      gamePhase := GamePhase.SETUP }

/-- Step 2: White places a Pawn at (5,0); White's budget drops to 38. -/
def c3Trace2 : GameState := placePiece c3Trace1 5 0 PieceType.PAWN

/-- Step 3: White saves the current layout under the name "s". -/
def c3Trace3 : GameState := saveCurrentSetup c3Trace2 "s"

/-- Step 4: White finishes setup; Black becomes the active drafter and the
auto-King effect gives Black a King at (0,4). -/
def c3Trace4 : GameState := autoPlaceKing (finishSetup c3Trace3)

/-- The layout record saved in step 3. -/
def c3Saved : SavedSetup :=
  { name := "s",
    board := ownFilter c3Trace2.board c3Trace2.currentPlayer,
    budget := if c3Trace2.currentPlayer then c3Trace2.whiteBudget
      else c3Trace2.blackBudget,
    isWhite := c3Trace2.currentPlayer }

/-- Step 5: Black loads White's saved layout.  The recoloured pieces
overwrite White's King and Pawn without any refund. -/
def c3Trace5 : GameState := loadSavedSetup c3Trace4 c3Saved

/-- C3, counterexample to the claim as stated: under the code's actual setup
operations (`SetupStep`, which lets either side load any listed layout) the
state `c3Trace5` is reachable, yet White's piece costs plus White's budget
total 38, not 39: Black loaded White's own saved layout, and the recoloured
copies overwrote White's King and Pawn with no refund. -/
theorem C3_budget_counterexample :
    Relation.ReflTransGen SetupStep (initialState false 300) c3Trace5 ∧
    ¬(costSum c3Trace5.board true + c3Trace5.whiteBudget = 39) := by
  constructor
  · have s1 : SetupStep (initialState false 300) c3Trace1 :=
      SetupStep.start _ rfl
    have s2 : SetupStep c3Trace1 c3Trace2 :=
      SetupStep.place _ 5 0 PieceType.PAWN (by decide) (by decide) (by decide)
        (List.Mem.head _)
    have s3 : SetupStep c3Trace2 c3Trace3 :=
      SetupStep.save _ "s" (by decide)
    have s4 : SetupStep c3Trace3 c3Trace4 :=
      SetupStep.finish _ (by decide)
    have s5 : SetupStep c3Trace4 c3Trace5 := by
      refine SetupStep.load _ c3Saved (by decide) ?_
      have hl : c3Trace4.savedSetups = [c3Saved] := rfl
      rw [hl]
      exact List.Mem.head _
    exact Relation.ReflTransGen.tail (Relation.ReflTransGen.tail
      (Relation.ReflTransGen.tail (Relation.ReflTransGen.tail
        (Relation.ReflTransGen.single s1) s2) s3) s4) s5
  · decide

end MoneyChess
